import Mathlib

/-!
# Webchain miner: block assembly and mining coordination

A shallow embedding of `miner/worker.go` and of the chain generator of
`core/chain_manager.go`.  Go objects mutated through pointers
become values passed in and returned; `set.Set` values become `Finset`s; Go maps
ranged over in an unspecified order become lists given in the order of the
iteration; `*big.Int` values become `Int`.  Logging (`glog`, `mlog`) has no
effect on the data and is left out.
-/

namespace Miner

/-! ## Data model -/

/-- A `common.Hash`. -/
abbrev Hash := Nat

/-- A `common.Address`. -/
abbrev Address := Nat

/-- The fields of `types.Header` that the miner reads or writes
(`worker.go` lines 473-482 and 559). -/
structure Header where
  ParentHash : Hash
  Number : Int
  Difficulty : Int
  GasLimit : Int
  GasUsed : Int
  Coinbase : Address
  Extra : List Nat
  Time : Int
  Root : Hash
  deriving DecidableEq, Repr

/-- Modelled from the spec: the `types.Transaction` type is not part of the
sources at hand.  A transaction is represented by the values of the accessors
the miner calls on it: `tx.Hash()`, `types.Sender(env.signer, tx)` (the signer
is fixed for one `Work`), `tx.GasPrice()` and `tx.Protected()`. -/
structure Transaction where
  hash : Hash
  sender : Address
  gasPrice : Int
  isProtected : Bool
  deriving DecidableEq, Repr

/-- Modelled from the spec: a `types.Receipt` (gas used and emitted logs). -/
structure Receipt where
  gasUsed : Int
  logs : List Nat
  deriving DecidableEq, Repr

/-- The `vm.Logs` emitted by one transaction. -/
abbrev Logs := List Nat

/-- The value of a Go `error` returned by the execution environment. -/
abbrev ExecError := Nat

/-- The three `core.UncleError` values built by `commitUncle`:
"Uncle not unique", "Uncle's parent unknown (..)" and
"Uncle already in family (..)". -/
inductive UncleError where
  | notUnique
  | parentUnknown (parent : Hash)
  | alreadyInFamily (hash : Hash)
  deriving DecidableEq, Repr

/-- The `uint64RingBuffer` of `worker.go` lines 54-57. -/
structure uint64RingBuffer where
  ints : List Nat
  next : Int
  deriving DecidableEq, Repr

/-- A `types.Block` as frozen by `types.NewBlock(header, txs, uncles, receipts)`. -/
structure Block where
  header : Header
  txs : List Transaction
  uncles : List Header
  receipts : List Receipt
  deriving DecidableEq, Repr

/-- Modelled from the spec: `core.ChainConfig` is not part of the sources at
hand; the miner only asks it whether the replay-protection fork ("Diehard") is
active at a block number (`config.IsDiehard(num)`). -/
structure ChainConfig where
  IsDiehard : Int → Bool

/-- Modelled from the spec: `core.GasPool`, the remaining gas of one block, "a
single integer counter". -/
abbrev GasPool := Int

/-- Modelled from the spec: `AddGas(amount)` "increases remaining capacity
unconditionally". -/
def GasPool.AddGas (gp : GasPool) (amount : Int) : GasPool := gp + amount

/-- The `Work` environment of `worker.go` lines 61-83.  `σ` is the type of the
state view (`*state.StateDB`).  `signer` and `createdAt` are not modelled: the
signer only determines `Transaction.sender`. -/
structure Work (σ : Type) where
  config : ChainConfig
  state : σ
  ancestors : Finset Hash
  family : Finset Hash
  uncles : Finset Hash
  remove : Finset Hash
  tcount : Int
  ignoredTransactors : Finset Address
  lowGasTransactors : Finset Address
  ownedAccounts : Finset Address
  lowGasTxs : List Transaction
  localMinedBlocks : Option uint64RingBuffer
  Block : Option Block
  header : Header
  txs : List Transaction
  receipts : List Receipt

/-- What `core.ApplyTransaction` leaves behind: the state view, the gas pool and
`header.GasUsed` after the call (all three are passed by reference), and either
the error or the receipt and logs it returns. -/
structure ApplyOutcome (σ : Type) where
  state : σ
  gp : GasPool
  gasUsed : Int
  result : Except ExecError (Receipt × Logs)

/-- The external collaborators of the miner that are not part of the sources at
hand, taken as parameters: the execution environment (`core.ApplyTransaction`
with the chain configuration and block chain fixed, and the `StateDB` methods
`Snapshot`, `RevertToSnapshot`, `StartRecord`, `IntermediateRoot`), the error
classifier `core.IsGasLimitErr`, the header hash, and the consensus functions
`core.CalcDifficulty`, `core.CalcGasLimit` and `core.AccumulateRewards`. -/
structure Backend (σ : Type) where
  ApplyTransaction : σ → GasPool → Header → Transaction → ApplyOutcome σ
  Snapshot : σ → Int × σ
  RevertToSnapshot : σ → Int → σ
  StartRecord : σ → Hash → σ
  IntermediateRoot : σ → Hash × σ
  IsGasLimitErr : ExecError → Bool
  hashOf : Header → Hash
  CalcDifficulty : Int → Int → Int → Int → Int
  CalcGasLimit : Block → Int
  AccumulateRewards : σ → Header → List Header → σ
  HeaderExtra : List Nat

/-! ## The coordinator (`worker`) -/

/-- An `Agent` registered with the worker: its identity, the channel returned by
`Work()` (`none` for a nil channel) and whether it is a `*CpuAgent`. -/
structure Agent where
  id : Nat
  workCh : Option Nat
  isCpu : Bool
  deriving DecidableEq, Repr

/-- The fields of the `worker` struct (lines 91-125) that hold data.  `agents`
and `possibleUncles` are Go maps, listed in iteration order; `mining` and
`atWork` are the `int32` status counters. -/
structure worker (σ : Type) where
  config : ChainConfig
  agents : List Agent
  coinbase : Address
  gasPrice : Int
  current : Option (Work σ)
  possibleUncles : List (Hash × Block)
  mining : Int
  atWork : Int
  fullValidation : Bool

/-- The methods of `core.BlockChain` and of the account manager that the
assembly cycle calls, taken as parameters. -/
structure ChainReader (σ : Type) where
  CurrentBlock : Block
  StateAt : Hash → Except ExecError σ
  GetBlocksFromHash : Hash → Nat → List Block
  GetBlockByNumber : Nat → Option Block
  Accounts : List Address

/-- Two's-complement wrap-around of an `int32` (`atomic.AddInt32`). -/
def wrap32 (x : Int) : Int := (x + 2147483648) % 4294967296 - 2147483648

/-- Two's-complement wrap-around of an `int64`. -/
def wrap64 (x : Int) : Int :=
  (x + 9223372036854775808) % 18446744073709551616 - 9223372036854775808

/-- The constant `miningLogAtDepth` (line 42). -/
def miningLogAtDepth : Nat := 5

/-- The method `worker.start` (lines 173-183); `agent.Start()` is external. -/
def start {σ : Type} (self : worker σ) : worker σ :=
  { self with mining := 1 }

/-- The method `worker.stop` (lines 185-203): when mining, every agent is
stopped and the CPU agents are deleted from the registry; then both counters
are stored as 0. -/
def stop {σ : Type} (self : worker σ) : worker σ :=
  let agents := if self.mining = 1 then self.agents.filter (fun a => !a.isCpu) else self.agents
  { self with agents := agents, mining := 0, atWork := 0 }

/-- The method `worker.register` (lines 205-210). -/
def register {σ : Type} (self : worker σ) (agent : Agent) : worker σ :=
  { self with agents := if agent ∈ self.agents then self.agents else self.agents ++ [agent] }

/-- The method `worker.unregister` (lines 212-217). -/
def unregister {σ : Type} (self : worker σ) (agent : Agent) : worker σ :=
  { self with agents := self.agents.filter (fun a => decide (a ≠ agent)) }

/-- One turn of the loop of `worker.push` (lines 356-359): the counter after
the turn and the agents the work has been sent to. -/
def pushAgent (acc : Int × List Agent) (agent : Agent) : Int × List Agent :=
  let atWork := wrap32 (acc.1 + 1)
  match agent.workCh with
  | some _ => (atWork, acc.2 ++ [agent])
  | none => (atWork, acc.2)

/-- The method `worker.push` (lines 351-361): the worker after the call and the
agents to whose channel `work` has been sent, in order. -/
def push {σ : Type} (self : worker σ) (_work : Work σ) : worker σ × List Agent :=
  if self.mining ≠ 1 then
    (self, [])
  else
    let r := self.agents.foldl pushAgent (self.atWork, [])
    ({ self with atWork := r.1 }, r.2)

/-- The first statement of the body of the drain loop `worker.wait` (line 255),
run once for every result received from `recv`. -/
def waitReceive {σ : Type} (self : worker σ) : worker σ :=
  { self with atWork := wrap32 (self.atWork - 1) }

/-- The function `gasprice` (lines 724-729): `p.Div(p, 100)` then
`p.Mul(p, pct)`; `big.Int.Div` is Euclidean division. -/
def gasprice (price : Int) (pct : Int) : Int :=
  let p := price
  let p := p / 100
  let p := p * pct
  p

/-- The method `worker.setGasPrice` (lines 403-412); the `GasPriceChanged`
notification is not modelled. -/
def setGasPrice {σ : Type} (w : worker σ) (p : Int) : worker σ :=
  { w with gasPrice := gasprice p 90 }

/-! ## Uncle validation (`worker.commitUncle`, lines 582-608) -/

/-- The method `worker.commitUncle`: the work after the call and the returned
error (`none` for Go's `nil`).  `hashOf` is `(*types.Header).Hash`. -/
def commitUncle {σ : Type} (hashOf : Header → Hash) (work : Work σ) (uncle : Header) :
    Work σ × Option UncleError :=
  let hash := hashOf uncle
  if hash ∈ work.uncles then
    (work, some UncleError.notUnique)
  else if ¬ (uncle.ParentHash ∈ work.ancestors) then
    (work, some (UncleError.parentUnknown uncle.ParentHash))
  else if hash ∈ work.family then
    (work, some (UncleError.alreadyInFamily hash))
  else
    ({ work with uncles := insert (hashOf uncle) work.uncles }, none)

/-! ## Transaction execution and selection (lines 610-715) -/

/-- What `Work.commitTransaction` returns and leaves behind: the work and the
gas pool after the call, the returned error (`none` for `nil`) and logs. -/
structure CommitResult (σ : Type) where
  env : Work σ
  gp : GasPool
  err : Option ExecError
  logs : Logs

/-- The method `Work.commitTransaction` (lines 692-715). -/
def commitTransaction {σ : Type} (E : Backend σ) (env : Work σ) (tx : Transaction)
    (gp : GasPool) : CommitResult σ :=
  let snap := E.Snapshot env.state
  let out := E.ApplyTransaction snap.2 gp env.header tx
  let header := { env.header with GasUsed := out.gasUsed }
  match out.result with
  | Except.error err =>
    { env := { env with state := E.RevertToSnapshot out.state snap.1, header := header },
      gp := out.gp, err := some err, logs := [] }
  | Except.ok (receipt, logs) =>
    { env := { env with state := out.state, header := header,
                        txs := env.txs ++ [tx], receipts := env.receipts ++ [receipt] },
      gp := out.gp, err := none, logs := logs }

/-- The variables of the loop of `Work.commitTransactions`: the work, the gas
pool `gp`, the `coalescedLogs`, and a ghost list `executed` of the transactions
handed to `commitTransaction` so far (line 660), in order. -/
structure PassState (σ : Type) where
  env : Work σ
  gp : GasPool
  coalescedLogs : Logs
  executed : List Transaction

/-- The body of the loop of `Work.commitTransactions` (lines 614-679) for one
transaction. -/
def commitTransactionsBody {σ : Type} (E : Backend σ) (gasPrice : Int)
    (s : PassState σ) (tx : Transaction) : PassState σ :=
  let env := s.env
  let sender := tx.sender
  if tx.isProtected = true ∧ env.config.IsDiehard env.header.Number = false then
    s
  else
    let env1 : Work σ :=
      if tx.gasPrice < gasPrice ∧ sender ∉ env.ownedAccounts then
        { env with lowGasTransactors := insert sender env.lowGasTransactors }
      else env
    if sender ∈ env1.lowGasTransactors then
      if sender ∉ env1.ownedAccounts then
        { s with env := { env1 with lowGasTxs := env1.lowGasTxs ++ [tx] } }
      else
        { s with env := env1 }
    else if sender ∈ env1.ignoredTransactors then
      { s with env := env1 }
    else
      let env2 : Work σ := { env1 with state := E.StartRecord env1.state tx.hash }
      let r := commitTransaction E env2 tx s.gp
      let executed := s.executed ++ [tx]
      match r.err with
      | some err =>
        if E.IsGasLimitErr err = true then
          { env := { r.env with ignoredTransactors := insert sender r.env.ignoredTransactors },
            gp := r.gp, coalescedLogs := s.coalescedLogs, executed := executed }
        else
          { env := { r.env with remove := insert tx.hash r.env.remove },
            gp := r.gp, coalescedLogs := s.coalescedLogs, executed := executed }
      | none =>
        { env := { r.env with tcount := r.env.tcount + 1 },
          gp := r.gp, coalescedLogs := s.coalescedLogs ++ r.logs, executed := executed }

/-- The method `Work.commitTransactions` (lines 610-690): a fresh gas pool
seeded with the header's gas limit, then the loop over the transactions in
order.  The two notifications posted afterwards from a goroutine (lines
680-689) do not touch the work and are not modelled. -/
def commitTransactions {σ : Type} (E : Backend σ) (env : Work σ)
    (transactions : List Transaction) (gasPrice : Int) : PassState σ :=
  let gp := GasPool.AddGas 0 env.header.GasLimit
  transactions.foldl (commitTransactionsBody E gasPrice)
    { env := env, gp := gp, coalescedLogs := [], executed := [] }

/-! ## The assembly cycle (`worker.commitNewWork`, lines 451-580) -/

/-- The method `(*types.Block).NumberU64`: the header number as a `uint64`. -/
def Block.NumberU64 (b : Block) : Nat := (b.header.Number % 18446744073709551616).toNat

/-- The method `worker.makeCurrent` (lines 364-401): the worker after the call
and the returned error (`none` for `nil`). -/
def makeCurrent {σ : Type} (E : Backend σ) (chain : ChainReader σ) (self : worker σ)
    (parent : Block) (header : Header) : worker σ × Option ExecError :=
  match chain.StateAt parent.header.Root with
  | Except.error err => (self, some err)
  | Except.ok state =>
    let work : Work σ :=
      { config := self.config, state := state, ancestors := ∅, family := ∅, uncles := ∅,
        remove := ∅, tcount := 0, ignoredTransactors := ∅, lowGasTransactors := ∅,
        ownedAccounts := ∅, lowGasTxs := [], localMinedBlocks := none, Block := none,
        header := header, txs := [], receipts := [] }
    let work := (chain.GetBlocksFromHash (E.hashOf parent.header) 7).foldl
      (fun (work : Work σ) (ancestor : Block) =>
        let work := ancestor.uncles.foldl
          (fun (w : Work σ) (uncle : Header) =>
            { w with family := insert (E.hashOf uncle) w.family }) work
        let work := { work with family := insert (E.hashOf ancestor.header) work.family }
        { work with ancestors := insert (E.hashOf ancestor.header) work.ancestors }) work
    let work := { work with remove := ∅, tcount := 0, ignoredTransactors := ∅,
                            lowGasTransactors := ∅,
                            ownedAccounts := chain.Accounts.toFinset }
    let work := match self.current with
      | some cur => { work with localMinedBlocks := cur.localMinedBlocks }
      | none => work
    ({ self with current := some work }, none)

/-- The variables of the uncle-selection loop of `commitNewWork`: the work, the
accepted `uncles` and the `badUncles`. -/
structure UncleLoop (σ : Type) where
  work : Work σ
  uncles : List Header
  badUncles : List Hash

/-- The uncle-selection loop of `commitNewWork` (lines 537-551) over the entries
of `possibleUncles` in the order of the iteration. -/
def commitNewWorkUncles {σ : Type} (hashOf : Header → Hash) :
    List (Hash × Block) → UncleLoop σ → UncleLoop σ
  | [], s => s
  | (hash, uncle) :: rest, s =>
    if s.uncles.length = 2 then
      s
    else
      let r := commitUncle hashOf s.work uncle.header
      match r.2 with
      | some _ =>
        commitNewWorkUncles hashOf rest
          { work := r.1, uncles := s.uncles, badUncles := s.badUncles ++ [hash] }
      | none =>
        commitNewWorkUncles hashOf rest
          { work := r.1, uncles := s.uncles ++ [uncle.header], badUncles := s.badUncles }

/-- The search of `worker.isBlockLocallyMined` (lines 417-423): the first slot
holding `n` is set to 0; the flag tells whether one was found. -/
def zeroFirst (n : Nat) : List Nat → List Nat × Bool
  | [] => ([], false)
  | x :: xs =>
    if n = x then (0 :: xs, true)
    else ((x :: (zeroFirst n xs).1), (zeroFirst n xs).2)

/-- The method `worker.isBlockLocallyMined` (lines 414-432); `none` stands for
the nil dereference when the work has no ring buffer. -/
def isBlockLocallyMined {σ : Type} (chain : ChainReader σ) (self : worker σ)
    (current : Work σ) (deepBlockNum : Nat) : Option (Work σ × Bool) :=
  match current.localMinedBlocks with
  | none => none
  | some rb =>
    let r := zeroFirst deepBlockNum rb.ints
    let current := { current with localMinedBlocks := some { rb with ints := r.1 } }
    if r.2 = false then
      some (current, false)
    else
      match chain.GetBlockByNumber deepBlockNum with
      | some block => some (current, decide (block.header.Coinbase = self.coinbase))
      | none => some (current, false)

/-- The method `worker.logLocalMinedBlocks` (lines 434-449): the work after the
call and the block numbers reported as confirmed.  The subtraction of
`miningLogAtDepth` is on `uint64`. -/
def logLocalMinedBlocks {σ : Type} (chain : ChainReader σ) (self : worker σ)
    (current : Work σ) (previous : Option (Work σ)) : Work σ × List Nat :=
  match previous, current.localMinedBlocks, current.Block with
  | some prev, some _, some curBlock =>
    match prev.Block with
    | some prevBlock =>
      let nextBlockNum := curBlock.NumberU64
      (List.range' prevBlock.NumberU64 (nextBlockNum - prevBlock.NumberU64)).foldl
        (fun (acc : Work σ × List Nat) (checkBlockNum : Nat) =>
          let inspectBlockNum :=
            (checkBlockNum + 18446744073709551616 - miningLogAtDepth) % 18446744073709551616
          match isBlockLocallyMined chain self acc.1 inspectBlockNum with
          | some (w, true) => (w, acc.2 ++ [inspectBlockNum])
          | some (w, false) => (w, acc.2)
          | none => acc)
        (current, [])
    | none => (current, [])
  | _, _, _ => (current, [])

/-- What one call of `commitNewWork` leaves behind: the worker, the arguments of
the calls to the pool's `RemoveTransactions` in order, the uncles frozen into
the block, the agents the work was pushed to and the confirmations logged. -/
structure CycleEffects (σ : Type) where
  self : worker σ
  removed : List (List Transaction)
  uncles : List Header
  delivered : List Agent
  confirmed : List Nat

/-- The candidate timestamp of `commitNewWork` (lines 461-464): `tstamp` is an
`int64`, set to `now` and, when the parent's time (a `*big.Int`) is not below
it, to `parent.Time().Int64() + 1`.  `Int64()` keeps the low 64 bits and the
addition wraps around. -/
def commitNewWorkTimestamp (now : Int) (parentTime : Int) : Int :=
  let tstamp := now
  if parentTime ≥ tstamp then wrap64 (wrap64 parentTime + 1) else tstamp

/-- The draft header built by `commitNewWork` (lines 472-482) on the current
head of the chain. -/
def commitNewWorkHeader {σ : Type} (E : Backend σ) (chain : ChainReader σ) (self : worker σ)
    (now : Int) : Header :=
  let parent := chain.CurrentBlock
  let tstamp := commitNewWorkTimestamp now parent.header.Time
  { ParentHash := E.hashOf parent.header,
    Number := parent.header.Number + 1,
    Difficulty := E.CalcDifficulty (tstamp % 18446744073709551616)
      (parent.header.Time % 18446744073709551616) parent.header.Number
      parent.header.Difficulty,
    GasLimit := E.CalcGasLimit parent,
    GasUsed := 0,
    Coinbase := self.coinbase,
    Extra := E.HeaderExtra,
    Time := tstamp,
    Root := 0 }

/-- The method `worker.commitNewWork` (lines 451-580).  `now` is
`tstart.Unix()`, `transactions` is the result of
`TxPool().GetTransactions()` after `types.SortByPriceAndNonce`.  The sleep of
lines 466-470 does not touch the data. -/
def commitNewWork {σ : Type} (E : Backend σ) (chain : ChainReader σ) (self : worker σ)
    (now : Int) (transactions : List Transaction) : CycleEffects σ :=
  let parent := chain.CurrentBlock
  let header := commitNewWorkHeader E chain self now
  let previous := self.current
  match makeCurrent E chain self parent header with
  | (self, some _) =>
    { self := self, removed := [], uncles := [], delivered := [], confirmed := [] }
  | (self, none) =>
    match self.current with
    | none => { self := self, removed := [], uncles := [], delivered := [], confirmed := [] }
    | some work =>
      let work := (commitTransactions E work transactions self.gasPrice).env
      let removed := [work.lowGasTxs]
      let loop := commitNewWorkUncles E.hashOf self.possibleUncles
        { work := work, uncles := [], badUncles := [] }
      let work := loop.work
      let uncles := loop.uncles
      let self := { self with possibleUncles :=
        self.possibleUncles.filter (fun p => decide (p.1 ∉ loop.badUncles)) }
      let work :=
        if self.mining = 1 then
          let state := E.AccumulateRewards work.state work.header uncles
          let r := E.IntermediateRoot state
          { work with state := r.2, header := { work.header with Root := r.1 } }
        else work
      let block : Block :=
        { header := work.header, txs := work.txs, uncles := uncles, receipts := work.receipts }
      let work := { work with Block := some block }
      let logged := if self.mining = 1 then logLocalMinedBlocks chain self work previous
        else (work, [])
      let work := logged.1
      let pushed := push { self with current := some work } work
      { self := pushed.1, removed := removed, uncles := uncles, delivered := pushed.2,
        confirmed := logged.2 }

/-! ## The coordinator as a state machine -/

/-- The steps of the coordinator: the four control operations, `push`, and the
receipt of one result by the drain loop.  `drain` is a result that answers a
delivery made since the last `stop`; `drainStale` one that answers a delivery
made before the last `stop` (the result was still on its way, or queued in
`recv`, when `stop` ran). -/
inductive CoordEvent (σ : Type) where
  | start
  | stop
  | register (agent : Agent)
  | unregister (agent : Agent)
  | push (work : Work σ)
  | drain
  | drainStale

/-- The worker together with three ghost counters: the deliveries made by
`push` since the last `stop` that are not answered yet, the unanswered
deliveries made before the last `stop`, and the number of times line 356 has
incremented `atWork`. -/
structure CoordState (σ : Type) where
  self : worker σ
  pending : Nat
  stalePending : Nat
  increments : Nat

/-- One step of the coordinator; `none` when the step cannot happen (a result
is drained that answers no delivery). -/
def coordStep {σ : Type} (s : CoordState σ) : CoordEvent σ → Option (CoordState σ)
  | CoordEvent.start => some { s with self := start s.self }
  | CoordEvent.stop =>
    some { s with self := stop s.self, pending := 0,
                  stalePending := s.stalePending + s.pending }
  | CoordEvent.register agent => some { s with self := register s.self agent }
  | CoordEvent.unregister agent => some { s with self := unregister s.self agent }
  | CoordEvent.push work =>
    some { s with self := (push s.self work).1,
                  pending := s.pending + (push s.self work).2.length,
                  increments := s.increments +
                    (if s.self.mining = 1 then s.self.agents.length else 0) }
  | CoordEvent.drain =>
    if 0 < s.pending then
      some { s with self := waitReceive s.self, pending := s.pending - 1 }
    else none
  | CoordEvent.drainStale =>
    if 0 < s.stalePending then
      some { s with self := waitReceive s.self, stalePending := s.stalePending - 1 }
    else none

/-- A sequence of steps from a state. -/
def coordRun {σ : Type} (s : CoordState σ) : List (CoordEvent σ) → Option (CoordState σ)
  | [] => some s
  | e :: es =>
    match coordStep s e with
    | some s1 => coordRun s1 es
    | none => none

/-- The coordinator state around a worker, with nothing delivered yet. -/
def coordInit {σ : Type} (w : worker σ) : CoordState σ :=
  { self := w, pending := 0, stalePending := 0, increments := 0 }

/-! ## Concrete inputs used in the examples -/

/-- A worker as `newWorker` builds it (lines 128-142), before its first cycle. -/
def newWorker {σ : Type} (config : ChainConfig) (coinbase : Address) : worker σ :=
  { config := config, agents := [], coinbase := coinbase, gasPrice := 0, current := none,
    possibleUncles := [], mining := 0, atWork := 0, fullValidation := false }

/-- A header with every field zero except the parent hash and the number. -/
def exHeader (parent : Hash) (number : Int) : Header :=
  { ParentHash := parent, Number := number, Difficulty := 0, GasLimit := 0, GasUsed := 0,
    Coinbase := 0, Extra := [], Time := 0, Root := 0 }

/-- A chain configuration whose replay-protection fork is never active. -/
def exConfig : ChainConfig := { IsDiehard := fun _ => false }

/-- An execution environment over a trivial state: a transaction with an odd
hash executes, one whose hash is a multiple of 4 fails with the gas-limit error
`1`, any other fails with error `2`.  The hash of a header is
`2 * Number + ParentHash`. -/
def exBackend : Backend Unit :=
  { ApplyTransaction := fun st gp header tx =>
      if tx.hash % 2 = 1 then
        { state := st, gp := gp, gasUsed := header.GasUsed,
          result := Except.ok ({ gasUsed := 0, logs := [] }, []) }
      else if tx.hash % 4 = 0 then
        { state := st, gp := gp, gasUsed := header.GasUsed, result := Except.error 1 }
      else
        { state := st, gp := gp, gasUsed := header.GasUsed, result := Except.error 2 },
    Snapshot := fun st => (0, st),
    RevertToSnapshot := fun st _ => st,
    StartRecord := fun st _ => st,
    IntermediateRoot := fun st => (0, st),
    IsGasLimitErr := fun e => decide (e = 1),
    hashOf := fun h => 2 * h.Number.toNat + h.ParentHash,
    CalcDifficulty := fun _ _ _ _ => 0,
    CalcGasLimit := fun _ => 0,
    AccumulateRewards := fun st _ _ => st,
    HeaderExtra := [] }

/-- A block with the given header and nothing else. -/
def exBlock (header : Header) : Block :=
  { header := header, txs := [], uncles := [], receipts := [] }

/-- A chain whose head is the block of `exHeader 0 0` (hash 0), which is its
only ancestor on record; the node owns account 5. -/
def exChain : ChainReader Unit :=
  { CurrentBlock := exBlock (exHeader 0 0),
    StateAt := fun _ => Except.ok (),
    GetBlocksFromHash := fun _ _ => [exBlock (exHeader 0 0)],
    GetBlockByNumber := fun _ => none,
    Accounts := [5] }

/-- The work that `makeCurrent` installs for `exChain` and the header
`exHeader 0 1`, written out. -/
def exWork : Work Unit :=
  { config := exConfig, state := (), ancestors := {0}, family := {0}, uncles := ∅,
    remove := ∅, tcount := 0, ignoredTransactors := ∅, lowGasTransactors := ∅,
    ownedAccounts := {5}, lowGasTxs := [], localMinedBlocks := none, Block := none,
    header := exHeader 0 1, txs := [], receipts := [] }

/-! ## The gas pool (`core.GasPool`) -/

/-- Modelled from the spec: the error `SubGas` fails with ("OutOfGas"). -/
inductive GasPoolError where
  | OutOfGas
  deriving DecidableEq, Repr

/-- Modelled from the spec: `core.GasPool.SubGas` is not part of the sources at
hand.  `SubGas(amount)` "fails with OutOfGas when amount > remaining, otherwise
decreases remaining by amount and returns success".  The result is the pool
after the call and the returned error (`none` for success). -/
def GasPool.SubGas (gp : GasPool) (amount : Int) : GasPool × Option GasPoolError :=
  if amount > gp then (gp, some GasPoolError.OutOfGas) else (gp - amount, none)

/-- One operation on a gas pool. -/
inductive GasOp where
  | AddGas (amount : Int)
  | SubGas (amount : Int)
  deriving DecidableEq, Repr

/-- The amount of an operation on a gas pool. -/
def GasOp.amount : GasOp → Int
  | GasOp.AddGas amount => amount
  | GasOp.SubGas amount => amount

/-- The pool after one operation (the error of a failed `SubGas` is dropped). -/
def GasPool.step (gp : GasPool) : GasOp → GasPool
  | GasOp.AddGas amount => GasPool.AddGas gp amount
  | GasOp.SubGas amount => (GasPool.SubGas gp amount).1

/-- The pool after a sequence of operations. -/
def GasPool.run (gp : GasPool) (ops : List GasOp) : GasPool :=
  ops.foldl GasPool.step gp

/-- The example chain with the timestamp of its head set to `time`. -/
def exChainAt (time : Int) : ChainReader Unit :=
  let header : Header := { exHeader 0 0 with Time := time }
  { exChain with CurrentBlock := exBlock header }

/-- A worker whose pending-uncle pool holds a candidate with an unknown parent
(key 9) and a valid candidate (key 2) for the example chain. -/
def exUncleWorker : worker Unit :=
  { (newWorker exConfig 9 : worker Unit) with
    possibleUncles := [(9, exBlock (exHeader 7 1)), (2, exBlock (exHeader 0 1))] }

/-! ## The drain loop (`worker.wait`, lines 252-348) -/

/-- The function `newLocalMinedBlock` (lines 240-250).  A nil buffer is replaced
by a fresh one of `miningLogAtDepth + 1` zero slots.  The result is the buffer
returned; `none` stands for the index-out-of-range panic of line 247.  In the
branch that does not panic both operands of `%` are non-negative. -/
def newLocalMinedBlock (blockNumber : Nat) (prevMinedBlocks : Option uint64RingBuffer) :
    Option uint64RingBuffer :=
  let minedBlocks : uint64RingBuffer :=
    match prevMinedBlocks with
    | none => { next := 0, ints := List.replicate (miningLogAtDepth + 1) 0 }
    | some prev => prev
  if 0 ≤ minedBlocks.next ∧ minedBlocks.next < minedBlocks.ints.length then
    some { ints := minedBlocks.ints.set minedBlocks.next.toNat blockNumber,
           next := (minedBlocks.next + 1) % minedBlocks.ints.length }
  else
    none

/-- How the work of a result is related to the worker's current work: it is the
same object, or another work that points to the same ring buffer, or neither.
Writes through the result's work are seen through `current` accordingly. -/
inductive WorkAlias where
  | sameWork
  | sameRing
  | unrelated
  deriving DecidableEq, Repr

/-- The `Result` struct (lines 85-88), with the relation of its work to the
worker's current work. -/
structure Result (σ : Type) where
  Work : Work σ
  Block : Block
  aliasing : WorkAlias

/-- The worker after the result's work has been written to. -/
def writeBack {σ : Type} (aliasing : WorkAlias) (self : worker σ) (work : Work σ) :
    worker σ :=
  match aliasing, self.current with
  | WorkAlias.sameWork, _ => { self with current := some work }
  | WorkAlias.sameRing, some cur =>
    { self with current := some { cur with localMinedBlocks := work.localMinedBlocks } }
  | _, _ => self

/-- The `core.WriteStatus` returned by `WriteBlock`. -/
inductive WriteStatus where
  | NonStatTy
  | CanonStatTy
  | SideStatTy
  deriving DecidableEq, Repr

/-- The external calls of the body of the drain loop, taken as parameters:
`chain.InsertChain` (its `res.Error`), `state.CommitTo`, `chain.GetBlock`,
`core.ValidateHeader` and the error value `core.BlockFutureErr`,
`chain.WriteBlock`; `chain` is the chain as it is read after the write, and
`now` and `transactions` are the clock and the pool content read by the
assembly cycle that the body triggers. -/
structure DrainEnv (σ : Type) where
  InsertChain : Block → Option ExecError
  CommitTo : σ → σ
  GetBlock : Hash → Option Block
  ValidateHeader : Header → Header → Option ExecError
  BlockFutureErr : ExecError
  WriteBlock : Block → WriteStatus × Option ExecError
  chain : ChainReader σ
  now : Int
  transactions : List Transaction

/-- The database writes and notifications of the body of the drain loop. -/
inductive DrainAction where
  | PostNewMinedBlockEvent
  | PostChainEvent
  | PostChainHeadEvent
  | PostLogs
  | WriteTransactions
  | WriteReceipts
  | WriteMipmapBloom
  | WriteBlockReceipts
  deriving DecidableEq, Repr

/-- The outcome of the validation and write part of the body (lines 263-322):
the result is discarded (`continue`) or the body proceeds; in both cases the
work may have been written to (`CommitTo`). -/
inductive Validated (σ : Type) where
  | discard (work : Work σ)
  | proceed (work : Work σ) (actions : List DrainAction)

/-- The validation and write part of the body of the drain loop (lines
263-322).  The block hash written into the logs (lines 290-297) is not part of
the model of a log. -/
def waitValidate {σ : Type} (X : DrainEnv σ) (self : worker σ) (block : Block)
    (work : Work σ) : Validated σ :=
  if self.fullValidation = true then
    match X.InsertChain block with
    | some _ => Validated.discard work
    | none => Validated.proceed work [DrainAction.PostNewMinedBlockEvent]
  else
    let work := { work with state := X.CommitTo work.state }
    match X.GetBlock block.header.ParentHash with
    | none => Validated.discard work
    | some parent =>
      match X.ValidateHeader block.header parent.header with
      | some err =>
        if err ≠ X.BlockFutureErr then Validated.discard work
        else
          match X.WriteBlock block with
          | (_, some _) => Validated.discard work
          | (stat, none) =>
            Validated.proceed work
              ((if stat = WriteStatus.CanonStatTy then
                  [DrainAction.WriteTransactions, DrainAction.WriteReceipts,
                   DrainAction.WriteMipmapBloom]
                else []) ++
               [DrainAction.PostNewMinedBlockEvent, DrainAction.PostChainEvent] ++
               (if stat = WriteStatus.CanonStatTy then
                  [DrainAction.PostChainHeadEvent, DrainAction.PostLogs]
                else []) ++
               [DrainAction.WriteBlockReceipts])
      | none =>
        match X.WriteBlock block with
        | (_, some _) => Validated.discard work
        | (stat, none) =>
          Validated.proceed work
            ((if stat = WriteStatus.CanonStatTy then
                [DrainAction.WriteTransactions, DrainAction.WriteReceipts,
                 DrainAction.WriteMipmapBloom]
              else []) ++
             [DrainAction.PostNewMinedBlockEvent, DrainAction.PostChainEvent] ++
             (if stat = WriteStatus.CanonStatTy then
                [DrainAction.PostChainHeadEvent, DrainAction.PostLogs]
              else []) ++
             [DrainAction.WriteBlockReceipts])

/-- The staleness check and the record of the block number (lines 324-334): the
work after it and whether the result is stale; `none` stands for the panic of
`newLocalMinedBlock`. -/
def waitStaleness {σ : Type} (E : Backend σ) (chain : ChainReader σ) (block : Block)
    (work : Work σ) : Option (Work σ × Bool) :=
  let canonBlock := chain.GetBlockByNumber block.NumberU64
  let stale : Bool :=
    match canonBlock with
    | some cb => decide (E.hashOf cb.header ≠ E.hashOf block.header)
    | none => false
  if stale = true then
    some (work, true)
  else
    match newLocalMinedBlock block.NumberU64 work.localMinedBlocks with
    | some rb => some ({ work with localMinedBlocks := some rb }, false)
    | none => none

/-- What one turn of the drain loop leaves behind: the worker, the work of the
result after the turn (`none` for a nil result), whether the result was found
stale (`none` when the staleness check was not reached), the writes and
notifications, and the calls of `commitNewWork` made by the turn, in order. -/
structure DrainStep (σ : Type) where
  self : worker σ
  work : Option (Work σ)
  stale : Option Bool
  actions : List DrainAction
  cycles : List (CycleEffects σ)

/-- The body of the drain loop of `worker.wait` (lines 255-345) for one value
received from `recv` (`none` for a nil result); the result `none` stands for a
panic. -/
def waitBody {σ : Type} (E : Backend σ) (X : DrainEnv σ) (self : worker σ)
    (result : Option (Result σ)) : Option (DrainStep σ) :=
  let self := waitReceive self
  match result with
  | none => some { self := self, work := none, stale := none, actions := [], cycles := [] }
  | some result =>
    let block := result.Block
    let work := result.Work
    match waitValidate X self block work with
    | Validated.discard work =>
      some { self := writeBack result.aliasing self work, work := some work, stale := none,
             actions := [], cycles := [] }
    | Validated.proceed work actions =>
      match waitStaleness E X.chain block work with
      | none => none
      | some (work, stale) =>
        let self := writeBack result.aliasing self work
        let cycle := commitNewWork E X.chain self X.now X.transactions
        some { self := cycle.self, work := some work, stale := some stale,
               actions := actions, cycles := [cycle] }

/-- A header of the example chain with the given coinbase. -/
def exHeaderBy (parent : Hash) (number : Int) (coinbase : Address) : Header :=
  { exHeader parent number with Coinbase := coinbase }

/-- The example chain with canonical blocks at heights 3 (coinbase 9, hash 6)
and 4 (coinbase 1, hash 8). -/
def exCanonChain : ChainReader Unit :=
  { exChain with
    GetBlockByNumber := fun n =>
      if n = 3 then some (exBlock (exHeaderBy 0 3 9))
      else if n = 4 then some (exBlock (exHeaderBy 0 4 1))
      else none }

/-- The example work with a ring buffer that records the heights 3 and 4. -/
def exRingWork : Work Unit :=
  { exWork with localMinedBlocks := some { ints := [3, 4, 0, 0, 0, 0], next := 2 } }

/-- The external calls of a drain turn on the example chain: only the block of
hash 0 is known as a parent, header validation and the write succeed, and the
write makes the block canonical. -/
def exDrainEnv : DrainEnv Unit :=
  { InsertChain := fun _ => none,
    CommitTo := fun st => st,
    GetBlock := fun h => if h = 0 then some (exBlock (exHeader 0 0)) else none,
    ValidateHeader := fun _ _ => none,
    BlockFutureErr := 3,
    WriteBlock := fun _ => (WriteStatus.CanonStatTy, none),
    chain := exCanonChain,
    now := 5,
    transactions := [] }

/-- A result for the example work: a block of height 3 on the given parent. -/
def exResult (parent : Hash) : Result Unit :=
  { Work := exWork, Block := exBlock (exHeaderBy parent 3 9), aliasing := WorkAlias.unrelated }

/-! ## Chain generation (`core/chain_manager.go`) -/

/-- The external calls of chain generation that are not part of the sources at
hand, taken as parameters: `state.New` on the database, `StateDB.CommitTo`,
`StateDB.Exist` and `StateDB.GetNonce`, the hash of a block, and
`CalcDifficulty` under `MakeChainConfig()` (used by `OffsetTime`). -/
structure GenEnv (σ : Type) where
  StateNew : Hash → Except ExecError σ
  CommitTo : σ → Except ExecError (Hash × σ)
  Exist : σ → Address → Bool
  GetNonce : σ → Address → Nat
  blockHash : Block → Hash
  CalcDifficultyDefault : Int → Int → Int → Int → Int

/-- The `BlockGen` struct (lines 75-87).  `chain` is the slice `blocks` of
`GenerateChain`, of which only the blocks generated so far are listed: the
entries from index `i` on are still nil and `PrevBlock` never reads them.  The
chain configuration is part of the execution environment. -/
structure BlockGen (σ : Type) where
  i : Int
  parent : Block
  chain : List Block
  header : Header
  statedb : σ
  gasPool : Option GasPool
  txs : List Transaction
  receipts : List Receipt
  uncles : List Header

/-- The method `BlockGen.SetCoinbase` (lines 91-100); `none` is a panic. -/
def BlockGen.SetCoinbase {σ : Type} (b : BlockGen σ) (addr : Address) : Option (BlockGen σ) :=
  match b.gasPool with
  | some _ => none
  | none =>
    some { b with header := { b.header with Coinbase := addr },
                  gasPool := some (GasPool.AddGas 0 b.header.GasLimit) }

/-- The method `BlockGen.SetExtra` (lines 103-105). -/
def BlockGen.SetExtra {σ : Type} (b : BlockGen σ) (data : List Nat) : BlockGen σ :=
  { b with header := { b.header with Extra := data } }

/-- The method `BlockGen.AddTx` (lines 115-126); `none` is a panic. -/
def BlockGen.AddTx {σ : Type} (E : Backend σ) (b : BlockGen σ) (tx : Transaction) :
    Option (BlockGen σ) :=
  let b1 : Option (BlockGen σ) :=
    match b.gasPool with
    | none => b.SetCoinbase 0
    | some _ => some b
  match b1 with
  | none => none
  | some b =>
    match b.gasPool with
    | none => none
    | some gp =>
      let statedb := E.StartRecord b.statedb tx.hash
      let out := E.ApplyTransaction statedb gp b.header tx
      match out.result with
      | Except.error _ => none
      | Except.ok (receipt, _) =>
        some { b with statedb := out.state, gasPool := some out.gp,
                      header := { b.header with GasUsed := out.gasUsed },
                      txs := b.txs ++ [tx], receipts := b.receipts ++ [receipt] }

/-- The method `BlockGen.Number` (lines 129-131). -/
def BlockGen.Number {σ : Type} (b : BlockGen σ) : Int := b.header.Number

/-- The method `BlockGen.AddUncheckedReceipt` (lines 138-140). -/
def BlockGen.AddUncheckedReceipt {σ : Type} (b : BlockGen σ) (receipt : Receipt) :
    BlockGen σ :=
  { b with receipts := b.receipts ++ [receipt] }

/-- The method `BlockGen.TxNonce` (lines 144-149); `none` is a panic. -/
def BlockGen.TxNonce {σ : Type} (G : GenEnv σ) (b : BlockGen σ) (addr : Address) :
    Option Nat :=
  if G.Exist b.statedb addr = false then none else some (G.GetNonce b.statedb addr)

/-- The method `BlockGen.AddUncle` (lines 152-154). -/
def BlockGen.AddUncle {σ : Type} (b : BlockGen σ) (h : Header) : BlockGen σ :=
  { b with uncles := b.uncles ++ [h] }

/-- The method `BlockGen.PrevBlock` (lines 159-167); `none` is a panic (the
explicit one of line 161 or an index out of range at line 166). -/
def BlockGen.PrevBlock {σ : Type} (b : BlockGen σ) (index : Int) : Option Block :=
  if index ≥ b.i then none
  else if index = -1 then some b.parent
  else if index < 0 then none
  else b.chain[index.toNat]?

/-- The method `BlockGen.OffsetTime` (lines 172-178); `none` is a panic. -/
def BlockGen.OffsetTime {σ : Type} (G : GenEnv σ) (b : BlockGen σ) (seconds : Int) :
    Option (BlockGen σ) :=
  let time := b.header.Time + seconds
  if time ≤ b.parent.header.Time then none
  else
    some { b with header := { b.header with
      Time := time,
      Difficulty := G.CalcDifficultyDefault (time % 18446744073709551616)
        (b.parent.header.Time % 18446744073709551616) b.parent.header.Number
        b.parent.header.Difficulty } }

/-- One call of a `BlockGen` method by a generator. -/
inductive GenOp where
  | SetCoinbase (addr : Address)
  | SetExtra (data : List Nat)
  | AddTx (tx : Transaction)
  | Number
  | AddUncheckedReceipt (receipt : Receipt)
  | TxNonce (addr : Address)
  | AddUncle (h : Header)
  | PrevBlock (index : Int)
  | OffsetTime (seconds : Int)

/-- The generator state after one method call; `none` is a panic. -/
def BlockGen.call {σ : Type} (E : Backend σ) (G : GenEnv σ) (b : BlockGen σ) :
    GenOp → Option (BlockGen σ)
  | GenOp.SetCoinbase addr => b.SetCoinbase addr
  | GenOp.SetExtra data => some (b.SetExtra data)
  | GenOp.AddTx tx => b.AddTx E tx
  | GenOp.Number => some b
  | GenOp.AddUncheckedReceipt receipt => some (b.AddUncheckedReceipt receipt)
  | GenOp.TxNonce addr => (b.TxNonce G addr).map (fun _ => b)
  | GenOp.AddUncle h => some (b.AddUncle h)
  | GenOp.PrevBlock index => (b.PrevBlock index).map (fun _ => b)
  | GenOp.OffsetTime seconds => b.OffsetTime G seconds

/-- The generator state after a sequence of method calls; `none` is a panic. -/
def BlockGen.calls {σ : Type} (E : Backend σ) (G : GenEnv σ) :
    BlockGen σ → List GenOp → Option (BlockGen σ)
  | b, [] => some b
  | b, op :: ops =>
    match b.call E G op with
    | none => none
    | some b1 => BlockGen.calls E G b1 ops

/-- A generator function `gen func(int, *BlockGen)` that only uses the methods
of `BlockGen`: from the index and what it can read of the generator it decides
the method calls it makes. -/
abbrev Generator (σ : Type) := Int → BlockGen σ → List GenOp

/-- The function `makeHeader` (lines 227-244).  `parent.Time()` returns a fresh
`big.Int` and is never nil. -/
def makeHeader {σ : Type} (E : Backend σ) (G : GenEnv σ) (parent : Block) (state : σ) :
    Header × σ :=
  let time := parent.header.Time + 10
  let root := E.IntermediateRoot state
  ({ Root := root.1,
     ParentHash := G.blockHash parent,
     Coinbase := parent.header.Coinbase,
     Difficulty := E.CalcDifficulty (time % 18446744073709551616)
       ((time - 10) % 18446744073709551616) parent.header.Number parent.header.Difficulty,
     GasLimit := E.CalcGasLimit parent,
     GasUsed := 0,
     Number := parent.header.Number + 1,
     Time := time,
     Extra := [] }, root.2)

/-- The variables of the loop of `GenerateChain`: the variable `parent`, and the
blocks and receipt lists generated so far. -/
structure GenLoop where
  parent : Block
  blocks : List Block
  receipts : List (List Receipt)
  deriving DecidableEq, Repr

/-- The `BlockGen` created at line 195 for the block at index `i`: its `parent`
is the variable `parent` of `GenerateChain` that the closure `genblock`
captures, as it stands in this turn of the loop. -/
def newBlockGen {σ : Type} (st : GenLoop) (i : Int) (h : Header) (statedb : σ) : BlockGen σ :=
  { i := i, parent := st.parent, chain := st.blocks, header := h, statedb := statedb,
    gasPool := none, txs := [], receipts := [], uncles := [] }

/-- The closure `genblock` of `GenerateChain` (lines 194-212); `none` is a
panic. -/
def genblock {σ : Type} (E : Backend σ) (G : GenEnv σ) (gen : Option (Generator σ))
    (st : GenLoop) (i : Int) (h : Header) (statedb : σ) : Option (Block × List Receipt) :=
  let b := newBlockGen st i h statedb
  let b1 : Option (BlockGen σ) :=
    match gen with
    | some g => BlockGen.calls E G b (g i b)
    | none => some b
  match b1 with
  | none => none
  | some b =>
    let statedb := E.AccumulateRewards b.statedb b.header b.uncles
    match G.CommitTo statedb with
    | Except.error _ => none
    | Except.ok (root, _) =>
      let h := { b.header with Root := root }
      some ({ header := h, txs := b.txs, uncles := b.uncles, receipts := b.receipts },
            b.receipts)

/-- One turn of the loop of `GenerateChain` (lines 213-223) for the index `i`;
`none` is a panic. -/
def GenerateChainStep {σ : Type} (E : Backend σ) (G : GenEnv σ) (gen : Option (Generator σ))
    (st : GenLoop) (i : Int) : Option GenLoop :=
  match G.StateNew st.parent.header.Root with
  | Except.error _ => none
  | Except.ok statedb =>
    let hs := makeHeader E G st.parent statedb
    match genblock E G gen st i hs.1 hs.2 with
    | none => none
    | some (block, receipt) =>
      some { parent := block, blocks := st.blocks ++ [block],
             receipts := st.receipts ++ [receipt] }

/-- The first `k` turns of the loop of `GenerateChain`, from the index `i`. -/
def GenerateChainLoop {σ : Type} (E : Backend σ) (G : GenEnv σ) (gen : Option (Generator σ)) :
    Nat → Int → GenLoop → Option GenLoop
  | 0, _, st => some st
  | k + 1, i, st =>
    match GenerateChainStep E G gen st i with
    | none => none
    | some st1 => GenerateChainLoop E G gen k (i + 1) st1

/-- The function `GenerateChain` (lines 192-225); `none` is a panic (of `make`
for a negative `n`, of `state.New`, of the generator or of the state commit). -/
def GenerateChain {σ : Type} (E : Backend σ) (G : GenEnv σ) (parent : Block) (n : Int)
    (gen : Option (Generator σ)) : Option (List Block × List (List Receipt)) :=
  if n < 0 then none
  else
    match GenerateChainLoop E G gen n.toNat 0 { parent := parent, blocks := [], receipts := [] } with
    | none => none
    | some st => some (st.blocks, st.receipts)

/-- The blocks of a list are linked to a parent: each block names the hash of
its predecessor (the parent for the first) as parent hash and has the number of
its predecessor plus one. -/
def Linked {σ : Type} (G : GenEnv σ) : Block → List Block → Prop
  | _, [] => True
  | p, b :: rest =>
    b.header.ParentHash = G.blockHash p ∧ b.header.Number = p.header.Number + 1 ∧
      Linked G b rest

/-- A database for chain generation that opens and commits every state; the
hash of a block is `2 * Number + ParentHash`. -/
def exGenEnv : GenEnv Unit :=
  { StateNew := fun _ => Except.ok (),
    CommitTo := fun st => Except.ok (0, st),
    Exist := fun _ _ => true,
    GetNonce := fun _ _ => 0,
    blockHash := fun b => 2 * b.header.Number.toNat + b.header.ParentHash,
    CalcDifficultyDefault := fun _ _ _ _ => 0 }

/-- A database for chain generation that holds no state at all. -/
def exEmptyGenEnv : GenEnv Unit :=
  { exGenEnv with StateNew := fun _ => Except.error 1 }

/-- The genesis block of the examples. -/
def exGenesis : Block := exBlock (exHeader 0 0)

/-- The first block generated on `exGenesis`: number 1, time 10. -/
def exFirstBlock : Block :=
  let header : Header := { exHeader 0 1 with Time := 10 }
  exBlock header

/-- The example chain with a chain store that cannot open any state. -/
def exBrokenChain : ChainReader Unit :=
  { exChain with StateAt := fun _ => Except.error 4 }

/-- A worker that is mining with one agent, has a current work, a pending uncle
and three works in flight. -/
def exBusyWorker : worker Unit :=
  { (newWorker exConfig 9 : worker Unit) with
    mining := 1, atWork := 3, current := some exWork,
    agents := [{ id := 1, workCh := some 0, isCpu := true }],
    possibleUncles := [(2, exBlock (exHeader 0 1))] }

/-! ## Histories of the ring buffer -/

/-- A call that touches the ring buffer of a work: `record n` is
`newLocalMinedBlock(n, work.localMinedBlocks)` (line 333), `check n` is
`isBlockLocallyMined(work, n)`, which `logLocalMinedBlocks` calls only when the
work has a ring buffer (line 435). -/
inductive RingOp where
  | record (blockNumber : Nat)
  | check (deepBlockNum : Nat)
  deriving DecidableEq, Repr

/-- The work after a sequence of calls that touch its ring buffer; `none`
stands for a panic. -/
def ringRun {σ : Type} (chain : ChainReader σ) (self : worker σ) :
    Work σ → List RingOp → Option (Work σ)
  | w, [] => some w
  | w, RingOp.record n :: ops =>
    match newLocalMinedBlock n w.localMinedBlocks with
    | none => none
    | some rb => ringRun chain self { w with localMinedBlocks := some rb } ops
  | w, RingOp.check n :: ops =>
    match w.localMinedBlocks with
    | none => ringRun chain self w ops
    | some _ =>
      match isBlockLocallyMined chain self w n with
      | none => none
      | some (w1, _) => ringRun chain self w1 ops

/-- The example chain with a canonical block at height 0 whose coinbase is 9. -/
def exGenesisChain : ChainReader Unit :=
  { exChain with
    GetBlockByNumber := fun n => if n = 0 then some (exBlock (exHeaderBy 0 0 9)) else none }

/-- The example work after block 1 has been recorded in a fresh ring buffer. -/
def exMinedWork : Work Unit :=
  { exWork with localMinedBlocks := some { ints := [1, 0, 0, 0, 0, 0], next := 1 } }

/-! ## Theorems -/

/-- The three checks of `commitUncle`: it succeeds exactly when the uncle's hash is not in
`work.uncles`, its parent hash is in `work.ancestors` and its hash is not in
`work.family`; on success the work changes only by the hash being added to
`uncles`, and on failure the work is unchanged. -/
theorem commitUncle_cases {σ : Type} (hashOf : Header → Hash) (work : Work σ)
    (u : Header) :
    ((commitUncle hashOf work u).2 = none ↔
        (hashOf u ∉ work.uncles ∧ u.ParentHash ∈ work.ancestors ∧ hashOf u ∉ work.family)) ∧
    ((commitUncle hashOf work u).2 = none →
        (commitUncle hashOf work u).1 =
          { work with uncles := insert (hashOf u) work.uncles }) ∧
    ((commitUncle hashOf work u).2 ≠ none → (commitUncle hashOf work u).1 = work) := by
  unfold commitUncle
  by_cases h1 : hashOf u ∈ work.uncles
  · simp [h1]
  · by_cases h2 : u.ParentHash ∈ work.ancestors
    · by_cases h3 : hashOf u ∈ work.family
      · simp [h1, h2, h3]
      · simp [h1, h2, h3]
    · simp [h1, h2]

/-- The set `uncles` only grows under `commitUncle`. -/
theorem commitUncle_uncles_subset {σ : Type} (hashOf : Header → Hash) (work : Work σ)
    (u : Header) : work.uncles ⊆ (commitUncle hashOf work u).1.uncles := by
  unfold commitUncle
  by_cases h1 : hashOf u ∈ work.uncles
  · simp [h1]
  · by_cases h2 : u.ParentHash ∈ work.ancestors
    · by_cases h3 : hashOf u ∈ work.family
      · simp [h1, h2, h3]
      · simp [h1, h2, h3]
    · simp [h1, h2]

/-- The set `uncles` only grows under a sequence of `commitUncle` calls. -/
theorem commitUncle_foldl_uncles_subset {σ : Type} (hashOf : Header → Hash)
    (us : List Header) (work : Work σ) :
    work.uncles ⊆ (us.foldl (fun w h => (commitUncle hashOf w h).1) work).uncles := by
  induction us generalizing work with
  | nil => simp
  | cons h t ih =>
    simp only [List.foldl_cons]
    exact (commitUncle_uncles_subset hashOf work h).trans (ih _)

/-- A header whose hash is already in `uncles` is refused as not unique and the
work is returned as it was. -/
theorem commitUncle_of_mem {σ : Type} (hashOf : Header → Hash) (work : Work σ)
    (u : Header) (h : hashOf u ∈ work.uncles) :
    commitUncle hashOf work u = (work, some UncleError.notUnique) := by
  unfold commitUncle
  simp [h]

/-- C1: `commitUncle` succeeds exactly when the uncle's hash is not in
`work.uncles`, its parent hash is in `work.ancestors` and its hash is not in
`work.family`; on success the work changes only by the hash being added to
`uncles`, and on failure the work is unchanged. -/
theorem commitUncle_contract {σ : Type} (hashOf : Header → Hash) (work : Work σ)
    (u : Header) :
    ((commitUncle hashOf work u).2 = none ↔
        (hashOf u ∉ work.uncles ∧ u.ParentHash ∈ work.ancestors ∧ hashOf u ∉ work.family)) ∧
    ((commitUncle hashOf work u).2 = none →
        (commitUncle hashOf work u).1 =
          { work with uncles := insert (hashOf u) work.uncles }) ∧
    ((commitUncle hashOf work u).2 ≠ none → (commitUncle hashOf work u).1 = work) :=
  commitUncle_cases hashOf work u

/-- C2: once `commitUncle` has accepted a header, every later `commitUncle` call
with the same header on that work in the same cycle (after any number of calls
with other headers in between) fails with "Uncle not unique" and leaves the
work, so in particular `uncles`, unchanged. -/
theorem commitUncle_twice {σ : Type} (hashOf : Header → Hash) (work : Work σ)
    (u : Header) (between : List Header)
    (hok : (commitUncle hashOf work u).2 = none) :
    commitUncle hashOf
        (between.foldl (fun w h => (commitUncle hashOf w h).1) (commitUncle hashOf work u).1) u =
      (between.foldl (fun w h => (commitUncle hashOf w h).1) (commitUncle hashOf work u).1,
        some UncleError.notUnique) := by
  apply commitUncle_of_mem
  apply commitUncle_foldl_uncles_subset
  rw [(commitUncle_cases hashOf work u).2.1 hok]
  simp

/-- The witness of `commitUncle_twice`: header number 1 on parent 0, committed
on a work that knows the ancestor 0, then again after another header. -/
theorem commitUncle_twice_witness :
    (commitUncle exBackend.hashOf exWork (exHeader 0 1)).2 = none ∧
    commitUncle exBackend.hashOf
        ([exHeader 0 2].foldl (fun w h => (commitUncle exBackend.hashOf w h).1)
          (commitUncle exBackend.hashOf exWork (exHeader 0 1)).1) (exHeader 0 1) =
      ([exHeader 0 2].foldl (fun w h => (commitUncle exBackend.hashOf w h).1)
          (commitUncle exBackend.hashOf exWork (exHeader 0 1)).1,
        some UncleError.notUnique) :=
  ⟨by decide, commitUncle_twice exBackend.hashOf exWork (exHeader 0 1)
    [exHeader 0 2] (by decide)⟩

/-! ### Frame lemmas for the transaction pass -/

/-- A property kept by every turn of a left fold is kept by the fold. -/
theorem foldl_keeps {α β : Type} (P : β → Prop) (f : β → α → β)
    (hf : ∀ b a, P b → P (f b a)) (l : List α) (b : β) (hb : P b) : P (l.foldl f b) := by
  induction l generalizing b with
  | nil => exact hb
  | cons a t ih => exact ih (f b a) (hf b a hb)

/-- The result of `commitTransaction` when the environment reports an error. -/
theorem commitTransaction_error {σ : Type} (E : Backend σ) (env : Work σ)
    (tx : Transaction) (gp : GasPool) (err : ExecError)
    (h : (E.ApplyTransaction (E.Snapshot env.state).2 gp env.header tx).result =
      Except.error err) :
    commitTransaction E env tx gp =
      { env := { env with
          state := E.RevertToSnapshot
            (E.ApplyTransaction (E.Snapshot env.state).2 gp env.header tx).state
            (E.Snapshot env.state).1,
          header := { env.header with
            GasUsed := (E.ApplyTransaction (E.Snapshot env.state).2 gp env.header tx).gasUsed } },
        gp := (E.ApplyTransaction (E.Snapshot env.state).2 gp env.header tx).gp,
        err := some err, logs := [] } := by
  unfold commitTransaction
  simp only [h]

/-- The result of `commitTransaction` when the environment succeeds. -/
theorem commitTransaction_ok {σ : Type} (E : Backend σ) (env : Work σ)
    (tx : Transaction) (gp : GasPool) (receipt : Receipt) (logs : Logs)
    (h : (E.ApplyTransaction (E.Snapshot env.state).2 gp env.header tx).result =
      Except.ok (receipt, logs)) :
    commitTransaction E env tx gp =
      { env := { env with
          state := (E.ApplyTransaction (E.Snapshot env.state).2 gp env.header tx).state,
          header := { env.header with
            GasUsed := (E.ApplyTransaction (E.Snapshot env.state).2 gp env.header tx).gasUsed },
          txs := env.txs ++ [tx], receipts := env.receipts ++ [receipt] },
        gp := (E.ApplyTransaction (E.Snapshot env.state).2 gp env.header tx).gp,
        err := none, logs := logs } := by
  unfold commitTransaction
  simp only [h]

/-- The fields of the work that `commitTransaction` never writes. -/
theorem commitTransaction_frame {σ : Type} (E : Backend σ) (env : Work σ)
    (tx : Transaction) (gp : GasPool) :
    (commitTransaction E env tx gp).env.config = env.config ∧
    (commitTransaction E env tx gp).env.header.Number = env.header.Number ∧
    (commitTransaction E env tx gp).env.ownedAccounts = env.ownedAccounts ∧
    (commitTransaction E env tx gp).env.uncles = env.uncles ∧
    (commitTransaction E env tx gp).env.ancestors = env.ancestors ∧
    (commitTransaction E env tx gp).env.family = env.family ∧
    (commitTransaction E env tx gp).env.lowGasTransactors = env.lowGasTransactors ∧
    (commitTransaction E env tx gp).env.ignoredTransactors = env.ignoredTransactors ∧
    (commitTransaction E env tx gp).env.remove = env.remove ∧
    (commitTransaction E env tx gp).env.lowGasTxs = env.lowGasTxs ∧
    (commitTransaction E env tx gp).env.tcount = env.tcount := by
  rcases hres : (E.ApplyTransaction (E.Snapshot env.state).2 gp env.header tx).result with
    err | ⟨receipt, logs⟩
  · rw [commitTransaction_error E env tx gp err hres]
    simp
  · rw [commitTransaction_ok E env tx gp receipt logs hres]
    simp

/-- The transaction list after `commitTransaction`: unchanged when it returns an
error, extended by the transaction when it returns none. -/
theorem commitTransaction_txs {σ : Type} (E : Backend σ) (env : Work σ)
    (tx : Transaction) (gp : GasPool) :
    ((commitTransaction E env tx gp).err ≠ none ∧
        (commitTransaction E env tx gp).env.txs = env.txs) ∨
    ((commitTransaction E env tx gp).err = none ∧
        (commitTransaction E env tx gp).env.txs = env.txs ++ [tx]) := by
  rcases hres : (E.ApplyTransaction (E.Snapshot env.state).2 gp env.header tx).result with
    err | ⟨receipt, logs⟩
  · rw [commitTransaction_error E env tx gp err hres]
    simp
  · rw [commitTransaction_ok E env tx gp receipt logs hres]
    simp

/-- Replay-protection gate (lines 622-625): a protected transaction before the
fork leaves the loop variables as they were. -/
theorem commitTransactionsBody_gated {σ : Type} (E : Backend σ) (gasPrice : Int)
    (s : PassState σ) (tx : Transaction)
    (hg : tx.isProtected = true ∧ s.env.config.IsDiehard s.env.header.Number = false) :
    commitTransactionsBody E gasPrice s tx = s := by
  unfold commitTransactionsBody
  dsimp only
  rw [if_pos hg]

/-- Price-floor gate (lines 628-647): an underpriced transaction of a sender
that is not owned marks the sender and is queued in `lowGasTxs`. -/
theorem commitTransactionsBody_lowPrice {σ : Type} (E : Backend σ) (gasPrice : Int)
    (s : PassState σ) (tx : Transaction)
    (hg : ¬ (tx.isProtected = true ∧ s.env.config.IsDiehard s.env.header.Number = false))
    (hl : tx.gasPrice < gasPrice ∧ tx.sender ∉ s.env.ownedAccounts) :
    commitTransactionsBody E gasPrice s tx =
      { s with env := { s.env with
          lowGasTransactors := insert tx.sender s.env.lowGasTransactors,
          lowGasTxs := s.env.lowGasTxs ++ [tx] } } := by
  unfold commitTransactionsBody
  dsimp only
  rw [if_neg hg, if_pos hl]
  simp [hl.2]

/-- Low-price continuation (lines 640-647) for a sender marked earlier. -/
theorem commitTransactionsBody_marked {σ : Type} (E : Backend σ) (gasPrice : Int)
    (s : PassState σ) (tx : Transaction)
    (hg : ¬ (tx.isProtected = true ∧ s.env.config.IsDiehard s.env.header.Number = false))
    (hl : ¬ (tx.gasPrice < gasPrice ∧ tx.sender ∉ s.env.ownedAccounts))
    (hm : tx.sender ∈ s.env.lowGasTransactors) :
    commitTransactionsBody E gasPrice s tx =
      if tx.sender ∉ s.env.ownedAccounts then
        { s with env := { s.env with lowGasTxs := s.env.lowGasTxs ++ [tx] } }
      else s := by
  unfold commitTransactionsBody
  dsimp only
  rw [if_neg hg, if_neg hl, if_pos hm]

/-- Ignored continuation (lines 654-656). -/
theorem commitTransactionsBody_ignored {σ : Type} (E : Backend σ) (gasPrice : Int)
    (s : PassState σ) (tx : Transaction)
    (hg : ¬ (tx.isProtected = true ∧ s.env.config.IsDiehard s.env.header.Number = false))
    (hl : ¬ (tx.gasPrice < gasPrice ∧ tx.sender ∉ s.env.ownedAccounts))
    (hm : tx.sender ∉ s.env.lowGasTransactors)
    (hi : tx.sender ∈ s.env.ignoredTransactors) :
    commitTransactionsBody E gasPrice s tx = s := by
  unfold commitTransactionsBody
  dsimp only
  rw [if_neg hg, if_neg hl, if_neg hm, if_pos hi]

/-- Execution (lines 658-677): a transaction that passes the gates is handed to
`commitTransaction` on the work after `StartRecord`, and the outcome decides
what is written. -/
theorem commitTransactionsBody_exec {σ : Type} (E : Backend σ) (gasPrice : Int)
    (s : PassState σ) (tx : Transaction)
    (hg : ¬ (tx.isProtected = true ∧ s.env.config.IsDiehard s.env.header.Number = false))
    (hl : ¬ (tx.gasPrice < gasPrice ∧ tx.sender ∉ s.env.ownedAccounts))
    (hm : tx.sender ∉ s.env.lowGasTransactors)
    (hi : tx.sender ∉ s.env.ignoredTransactors) :
    commitTransactionsBody E gasPrice s tx =
      match (commitTransaction E
          { s.env with state := E.StartRecord s.env.state tx.hash } tx s.gp).err with
      | some err =>
        if E.IsGasLimitErr err = true then
          { env := { (commitTransaction E
                { s.env with state := E.StartRecord s.env.state tx.hash } tx s.gp).env with
              ignoredTransactors := insert tx.sender (commitTransaction E
                { s.env with state := E.StartRecord s.env.state tx.hash } tx s.gp).env.ignoredTransactors },
            gp := (commitTransaction E
                { s.env with state := E.StartRecord s.env.state tx.hash } tx s.gp).gp,
            coalescedLogs := s.coalescedLogs, executed := s.executed ++ [tx] }
        else
          { env := { (commitTransaction E
                { s.env with state := E.StartRecord s.env.state tx.hash } tx s.gp).env with
              remove := insert tx.hash (commitTransaction E
                { s.env with state := E.StartRecord s.env.state tx.hash } tx s.gp).env.remove },
            gp := (commitTransaction E
                { s.env with state := E.StartRecord s.env.state tx.hash } tx s.gp).gp,
            coalescedLogs := s.coalescedLogs, executed := s.executed ++ [tx] }
      | none =>
        { env := { (commitTransaction E
              { s.env with state := E.StartRecord s.env.state tx.hash } tx s.gp).env with
            tcount := (commitTransaction E
              { s.env with state := E.StartRecord s.env.state tx.hash } tx s.gp).env.tcount + 1 },
          gp := (commitTransaction E
              { s.env with state := E.StartRecord s.env.state tx.hash } tx s.gp).gp,
          coalescedLogs := s.coalescedLogs ++ (commitTransaction E
              { s.env with state := E.StartRecord s.env.state tx.hash } tx s.gp).logs,
          executed := s.executed ++ [tx] } := by
  unfold commitTransactionsBody
  dsimp only
  rw [if_neg hg, if_neg hl, if_neg hm, if_neg hi]

/-- The fields of the work that one turn of the pass never writes. -/
theorem commitTransactionsBody_frame {σ : Type} (E : Backend σ) (gasPrice : Int)
    (s : PassState σ) (tx : Transaction) :
    (commitTransactionsBody E gasPrice s tx).env.config = s.env.config ∧
    (commitTransactionsBody E gasPrice s tx).env.header.Number = s.env.header.Number ∧
    (commitTransactionsBody E gasPrice s tx).env.ownedAccounts = s.env.ownedAccounts ∧
    (commitTransactionsBody E gasPrice s tx).env.uncles = s.env.uncles ∧
    (commitTransactionsBody E gasPrice s tx).env.ancestors = s.env.ancestors ∧
    (commitTransactionsBody E gasPrice s tx).env.family = s.env.family := by
  by_cases hg : tx.isProtected = true ∧ s.env.config.IsDiehard s.env.header.Number = false
  · rw [commitTransactionsBody_gated E gasPrice s tx hg]
    simp
  by_cases hl : tx.gasPrice < gasPrice ∧ tx.sender ∉ s.env.ownedAccounts
  · rw [commitTransactionsBody_lowPrice E gasPrice s tx hg hl]
    simp
  by_cases hm : tx.sender ∈ s.env.lowGasTransactors
  · rw [commitTransactionsBody_marked E gasPrice s tx hg hl hm]
    split_ifs <;> simp
  by_cases hi : tx.sender ∈ s.env.ignoredTransactors
  · rw [commitTransactionsBody_ignored E gasPrice s tx hg hl hm hi]
    simp
  rw [commitTransactionsBody_exec E gasPrice s tx hg hl hm hi]
  have hf := commitTransaction_frame E
    { s.env with state := E.StartRecord s.env.state tx.hash } tx s.gp
  split
  · split_ifs <;> simp [hf]
  · simp [hf]

/-- The marks of one turn of the pass: senders stay marked as low-price and as
ignored. -/
theorem commitTransactionsBody_marks {σ : Type} (E : Backend σ) (gasPrice : Int)
    (s : PassState σ) (tx : Transaction) :
    s.env.lowGasTransactors ⊆ (commitTransactionsBody E gasPrice s tx).env.lowGasTransactors ∧
    s.env.ignoredTransactors ⊆
      (commitTransactionsBody E gasPrice s tx).env.ignoredTransactors := by
  by_cases hg : tx.isProtected = true ∧ s.env.config.IsDiehard s.env.header.Number = false
  · rw [commitTransactionsBody_gated E gasPrice s tx hg]
    simp
  by_cases hl : tx.gasPrice < gasPrice ∧ tx.sender ∉ s.env.ownedAccounts
  · rw [commitTransactionsBody_lowPrice E gasPrice s tx hg hl]
    simp
  by_cases hm : tx.sender ∈ s.env.lowGasTransactors
  · rw [commitTransactionsBody_marked E gasPrice s tx hg hl hm]
    split_ifs <;> simp
  by_cases hi : tx.sender ∈ s.env.ignoredTransactors
  · rw [commitTransactionsBody_ignored E gasPrice s tx hg hl hm hi]
    simp
  rw [commitTransactionsBody_exec E gasPrice s tx hg hl hm hi]
  have hf := commitTransaction_frame E
    { s.env with state := E.StartRecord s.env.state tx.hash } tx s.gp
  split
  · split_ifs <;> simp [hf]
  · simp [hf]

/-- What one turn of the pass does to the transaction list and to the ghost
list of executions: nothing, or the transaction is appended, and then its sender
was neither marked low-price nor ignored and the transaction passed the
replay-protection and price gates. -/
theorem commitTransactionsBody_txs {σ : Type} (E : Backend σ) (gasPrice : Int)
    (s : PassState σ) (tx : Transaction) :
    ((commitTransactionsBody E gasPrice s tx).env.txs = s.env.txs ∨
      ((commitTransactionsBody E gasPrice s tx).env.txs = s.env.txs ++ [tx] ∧
        (commitTransactionsBody E gasPrice s tx).executed = s.executed ++ [tx])) ∧
    ((commitTransactionsBody E gasPrice s tx).executed = s.executed ∨
      ((commitTransactionsBody E gasPrice s tx).executed = s.executed ++ [tx] ∧
        ¬ (tx.isProtected = true ∧ s.env.config.IsDiehard s.env.header.Number = false) ∧
        ¬ (tx.gasPrice < gasPrice ∧ tx.sender ∉ s.env.ownedAccounts) ∧
        tx.sender ∉ s.env.lowGasTransactors ∧
        tx.sender ∉ s.env.ignoredTransactors)) := by
  by_cases hg : tx.isProtected = true ∧ s.env.config.IsDiehard s.env.header.Number = false
  · rw [commitTransactionsBody_gated E gasPrice s tx hg]
    simp
  by_cases hl : tx.gasPrice < gasPrice ∧ tx.sender ∉ s.env.ownedAccounts
  · rw [commitTransactionsBody_lowPrice E gasPrice s tx hg hl]
    simp
  by_cases hm : tx.sender ∈ s.env.lowGasTransactors
  · rw [commitTransactionsBody_marked E gasPrice s tx hg hl hm]
    split_ifs <;> simp
  by_cases hi : tx.sender ∈ s.env.ignoredTransactors
  · rw [commitTransactionsBody_ignored E gasPrice s tx hg hl hm hi]
    simp
  rw [commitTransactionsBody_exec E gasPrice s tx hg hl hm hi]
  have ht := commitTransaction_txs E
    { s.env with state := E.StartRecord s.env.state tx.hash } tx s.gp
  refine ⟨?_, ?_⟩
  · split
    · rename_i err heq
      rcases ht with ⟨_, h2⟩ | ⟨h1, _⟩
      · split_ifs <;> simp [h2]
      · rw [heq] at h1
        cases h1
    · rename_i heq
      rcases ht with ⟨h1, _⟩ | ⟨_, h2⟩
      · exact absurd heq h1
      · simp [h2]
  · right
    refine ⟨?_, hg, hl, hm, hi⟩
    split
    · split_ifs <;> rfl
    · rfl

/-- The fields that the ancestor loop of `makeCurrent` (lines 381-387) leaves
alone: it writes `family` and `ancestors` only. -/
theorem makeCurrent_ancestors_frame {σ : Type} (hashOf : Header → Hash)
    (blocks : List Block) (work : Work σ) :
    (blocks.foldl
      (fun (work : Work σ) (ancestor : Block) =>
        let work := ancestor.uncles.foldl
          (fun (w : Work σ) (uncle : Header) =>
            { w with family := insert (hashOf uncle) w.family }) work
        let work := { work with family := insert (hashOf ancestor.header) work.family }
        { work with ancestors := insert (hashOf ancestor.header) work.ancestors }) work).uncles
        = work.uncles ∧
    (blocks.foldl
      (fun (work : Work σ) (ancestor : Block) =>
        let work := ancestor.uncles.foldl
          (fun (w : Work σ) (uncle : Header) =>
            { w with family := insert (hashOf uncle) w.family }) work
        let work := { work with family := insert (hashOf ancestor.header) work.family }
        { work with ancestors := insert (hashOf ancestor.header) work.ancestors }) work).txs
        = work.txs ∧
    (blocks.foldl
      (fun (work : Work σ) (ancestor : Block) =>
        let work := ancestor.uncles.foldl
          (fun (w : Work σ) (uncle : Header) =>
            { w with family := insert (hashOf uncle) w.family }) work
        let work := { work with family := insert (hashOf ancestor.header) work.family }
        { work with ancestors := insert (hashOf ancestor.header) work.ancestors }) work).receipts
        = work.receipts ∧
    (blocks.foldl
      (fun (work : Work σ) (ancestor : Block) =>
        let work := ancestor.uncles.foldl
          (fun (w : Work σ) (uncle : Header) =>
            { w with family := insert (hashOf uncle) w.family }) work
        let work := { work with family := insert (hashOf ancestor.header) work.family }
        { work with ancestors := insert (hashOf ancestor.header) work.ancestors }) work).lowGasTxs
        = work.lowGasTxs ∧
    (blocks.foldl
      (fun (work : Work σ) (ancestor : Block) =>
        let work := ancestor.uncles.foldl
          (fun (w : Work σ) (uncle : Header) =>
            { w with family := insert (hashOf uncle) w.family }) work
        let work := { work with family := insert (hashOf ancestor.header) work.family }
        { work with ancestors := insert (hashOf ancestor.header) work.ancestors }) work).header
        = work.header ∧
    (blocks.foldl
      (fun (work : Work σ) (ancestor : Block) =>
        let work := ancestor.uncles.foldl
          (fun (w : Work σ) (uncle : Header) =>
            { w with family := insert (hashOf uncle) w.family }) work
        let work := { work with family := insert (hashOf ancestor.header) work.family }
        { work with ancestors := insert (hashOf ancestor.header) work.ancestors }) work).config
        = work.config := by
  apply foldl_keeps (fun (w : Work σ) => w.uncles = work.uncles ∧ w.txs = work.txs ∧
    w.receipts = work.receipts ∧ w.lowGasTxs = work.lowGasTxs ∧ w.header = work.header ∧
    w.config = work.config)
  · intro b a hb
    dsimp only
    exact foldl_keeps (fun (w : Work σ) => w.uncles = work.uncles ∧ w.txs = work.txs ∧
      w.receipts = work.receipts ∧ w.lowGasTxs = work.lowGasTxs ∧ w.header = work.header ∧
      w.config = work.config)
      (fun (w : Work σ) (uncle : Header) =>
        { w with family := insert (hashOf uncle) w.family })
      (fun w u hw => hw) a.uncles b hb
  · exact ⟨rfl, rfl, rfl, rfl, rfl, rfl⟩

/-- The work installed by a successful `makeCurrent` is fresh: its uncle set,
its transaction, receipt and low-price lists, its removal, ignored and low-price
sets are empty, its counter is 0, the owned accounts are those of the account
manager, and it carries the given header and the worker's configuration. -/
theorem makeCurrent_fresh {σ : Type} (E : Backend σ) (chain : ChainReader σ)
    (self self1 : worker σ) (parent : Block) (header : Header)
    (h : makeCurrent E chain self parent header = (self1, none)) :
    ∃ work : Work σ, self1.current = some work ∧ work.uncles = ∅ ∧ work.txs = [] ∧
      work.receipts = [] ∧ work.lowGasTxs = [] ∧ work.tcount = 0 ∧ work.remove = ∅ ∧
      work.ignoredTransactors = ∅ ∧ work.lowGasTransactors = ∅ ∧
      work.ownedAccounts = chain.Accounts.toFinset ∧ work.header = header ∧
      work.config = self.config := by
  unfold makeCurrent at h
  split at h
  · simp at h
  · rename_i state hstate
    simp only [Prod.mk.injEq, and_true] at h
    have hf := makeCurrent_ancestors_frame E.hashOf
      (chain.GetBlocksFromHash (E.hashOf parent.header) 7)
      ({ config := self.config, state := state, ancestors := ∅, family := ∅, uncles := ∅,
         remove := ∅, tcount := 0, ignoredTransactors := ∅, lowGasTransactors := ∅,
         ownedAccounts := ∅, lowGasTxs := [], localMinedBlocks := none, Block := none,
         header := header, txs := [], receipts := [] } : Work σ)
    obtain ⟨h1, h2, h3, h4, h5, h6⟩ := hf
    subst h
    cases hc : self.current with
    | none => exact ⟨_, rfl, h1, h2, h3, h4, rfl, rfl, rfl, rfl, rfl, h5, h6⟩
    | some cur => exact ⟨_, rfl, h1, h2, h3, h4, rfl, rfl, rfl, rfl, rfl, h5, h6⟩

/-- The fields of the work that a run of turns of the pass never writes. -/
theorem commitTransactions_foldl_frame {σ : Type} (E : Backend σ) (gasPrice : Int)
    (l : List Transaction) (s : PassState σ) :
    (l.foldl (commitTransactionsBody E gasPrice) s).env.config = s.env.config ∧
    (l.foldl (commitTransactionsBody E gasPrice) s).env.header.Number = s.env.header.Number ∧
    (l.foldl (commitTransactionsBody E gasPrice) s).env.ownedAccounts = s.env.ownedAccounts ∧
    (l.foldl (commitTransactionsBody E gasPrice) s).env.uncles = s.env.uncles ∧
    (l.foldl (commitTransactionsBody E gasPrice) s).env.ancestors = s.env.ancestors ∧
    (l.foldl (commitTransactionsBody E gasPrice) s).env.family = s.env.family := by
  apply foldl_keeps (fun (t : PassState σ) => t.env.config = s.env.config ∧
    t.env.header.Number = s.env.header.Number ∧ t.env.ownedAccounts = s.env.ownedAccounts ∧
    t.env.uncles = s.env.uncles ∧ t.env.ancestors = s.env.ancestors ∧
    t.env.family = s.env.family)
  · intro b a hb
    obtain ⟨h1, h2, h3, h4, h5, h6⟩ := commitTransactionsBody_frame E gasPrice b a
    exact ⟨h1.trans hb.1, h2.trans hb.2.1, h3.trans hb.2.2.1, h4.trans hb.2.2.2.1,
      h5.trans hb.2.2.2.2.1, h6.trans hb.2.2.2.2.2⟩
  · exact ⟨rfl, rfl, rfl, rfl, rfl, rfl⟩

/-- The uncle loop never lets the list of accepted uncles grow beyond two. -/
theorem commitNewWorkUncles_length {σ : Type} (hashOf : Header → Hash)
    (pool : List (Hash × Block)) (s : UncleLoop σ) (h : s.uncles.length ≤ 2) :
    (commitNewWorkUncles hashOf pool s).uncles.length ≤ 2 := by
  induction pool generalizing s with
  | nil => simpa [commitNewWorkUncles] using h
  | cons p rest ih =>
    obtain ⟨hash, uncle⟩ := p
    rw [commitNewWorkUncles]
    split_ifs with h2
    · exact h
    · dsimp only
      split
      · exact ih _ h
      · apply ih
        simp only [List.length_append, List.length_singleton]
        omega

/-- The uncle set grows by at most one hash for every uncle the loop accepts. -/
theorem commitNewWorkUncles_card {σ : Type} (hashOf : Header → Hash)
    (pool : List (Hash × Block)) (s : UncleLoop σ) :
    (commitNewWorkUncles hashOf pool s).work.uncles.card + s.uncles.length ≤
      s.work.uncles.card + (commitNewWorkUncles hashOf pool s).uncles.length := by
  induction pool generalizing s with
  | nil => simp [commitNewWorkUncles]
  | cons p rest ih =>
    obtain ⟨hash, uncle⟩ := p
    rw [commitNewWorkUncles]
    split_ifs with h2
    · exact le_refl _
    · dsimp only
      have hc := commitUncle_cases hashOf s.work uncle.header
      split
      · rename_i e he
        have hw : (commitUncle hashOf s.work uncle.header).1 = s.work :=
          hc.2.2 (by rw [he]; simp)
        have := ih { work := (commitUncle hashOf s.work uncle.header).1, uncles := s.uncles,
                     badUncles := s.badUncles ++ [hash] }
        simp only [hw] at this ⊢
        exact this
      · rename_i he
        have hw := hc.2.1 he
        have := ih { work := (commitUncle hashOf s.work uncle.header).1,
                     uncles := s.uncles ++ [uncle.header], badUncles := s.badUncles }
        simp only [List.length_append, List.length_singleton] at this
        have hcard : (commitUncle hashOf s.work uncle.header).1.uncles.card ≤
            s.work.uncles.card + 1 := by
          rw [hw]
          exact Finset.card_insert_le _ _
        omega

/-- C3: on the fresh work installed by `makeCurrent`, after the transaction pass,
the uncle-selection loop of `commitNewWork` accepts at most two uncles whatever
the pending-uncle pool and its iteration order: the list of uncle headers it
hands to the block has length at most 2 and `work.uncles` has at most 2
elements. -/
theorem commitNewWorkUncles_le_two {σ : Type} (E : Backend σ) (chain : ChainReader σ)
    (self self1 : worker σ) (parent : Block) (header : Header) (work : Work σ)
    (transactions : List Transaction) (gasPrice : Int) (pool : List (Hash × Block))
    (hmk : makeCurrent E chain self parent header = (self1, none))
    (hcur : self1.current = some work) :
    (commitNewWorkUncles E.hashOf pool
      { work := (commitTransactions E work transactions gasPrice).env,
        uncles := [], badUncles := [] }).uncles.length ≤ 2 ∧
    (commitNewWorkUncles E.hashOf pool
      { work := (commitTransactions E work transactions gasPrice).env,
        uncles := [], badUncles := [] }).work.uncles.card ≤ 2 := by
  obtain ⟨w, hw, hu, _⟩ := makeCurrent_fresh E chain self self1 parent header hmk
  rw [hcur] at hw
  cases hw
  have hlen := commitNewWorkUncles_length E.hashOf pool
    { work := (commitTransactions E work transactions gasPrice).env,
      uncles := [], badUncles := [] } (by simp)
  have hcard := commitNewWorkUncles_card E.hashOf pool
    { work := (commitTransactions E work transactions gasPrice).env,
      uncles := [], badUncles := [] }
  have hfr := (commitTransactions_foldl_frame E gasPrice transactions
    { env := work, gp := GasPool.AddGas 0 work.header.GasLimit, coalescedLogs := [],
      executed := [] }).2.2.2.1
  have hu2 : (commitTransactions E work transactions gasPrice).env.uncles = ∅ := by
    unfold commitTransactions
    exact hfr.trans hu
  refine ⟨hlen, ?_⟩
  simp only [hu2, Finset.card_empty, List.length_nil] at hcard
  omega

/-- The witness of `commitNewWorkUncles_le_two`: three valid uncle candidates
on the fresh work of the example chain. -/
theorem commitNewWorkUncles_le_two_witness :
    makeCurrent exBackend exChain (newWorker exConfig 9) exChain.CurrentBlock (exHeader 0 1) =
      ((makeCurrent exBackend exChain (newWorker exConfig 9) exChain.CurrentBlock
        (exHeader 0 1)).1, none) ∧
    (makeCurrent exBackend exChain (newWorker exConfig 9) exChain.CurrentBlock
        (exHeader 0 1)).1.current = some exWork ∧
    (commitNewWorkUncles exBackend.hashOf
      [(2, exBlock (exHeader 0 1)), (4, exBlock (exHeader 0 2)), (6, exBlock (exHeader 0 3))]
      { work := (commitTransactions exBackend exWork [] 0).env,
        uncles := [], badUncles := [] }).uncles.length ≤ 2 ∧
    (commitNewWorkUncles exBackend.hashOf
      [(2, exBlock (exHeader 0 1)), (4, exBlock (exHeader 0 2)), (6, exBlock (exHeader 0 3))]
      { work := (commitTransactions exBackend exWork [] 0).env,
        uncles := [], badUncles := [] }).work.uncles.card ≤ 2 :=
  ⟨rfl, rfl, commitNewWorkUncles_le_two exBackend exChain (newWorker exConfig 9) _
    exChain.CurrentBlock (exHeader 0 1) exWork [] 0
    [(2, exBlock (exHeader 0 1)), (4, exBlock (exHeader 0 2)), (6, exBlock (exHeader 0 3))]
    rfl rfl⟩

/-- Once a sender is marked ignored, the rest of the pass hands none of its
transactions to the executor. -/
theorem commitTransactions_foldl_ignored {σ : Type} (E : Backend σ) (gasPrice : Int)
    (A : Address) (l : List Transaction) (s : PassState σ)
    (hA : A ∈ s.env.ignoredTransactors) :
    ∃ rest : List Transaction,
      (l.foldl (commitTransactionsBody E gasPrice) s).executed = s.executed ++ rest ∧
      ∀ x ∈ rest, x.sender ≠ A := by
  induction l generalizing s with
  | nil => exact ⟨[], by simp, by simp⟩
  | cons a t ih =>
    rw [List.foldl_cons]
    have hA1 := (commitTransactionsBody_marks E gasPrice s a).2 hA
    obtain ⟨rest, hrest, hne⟩ := ih (commitTransactionsBody E gasPrice s a) hA1
    rcases (commitTransactionsBody_txs E gasPrice s a).2 with h | ⟨h, _, _, _, hi⟩
    · exact ⟨rest, by rw [hrest, h], hne⟩
    · refine ⟨a :: rest, by rw [hrest, h]; simp, ?_⟩
      intro x hx
      rcases List.mem_cons.mp hx with hx | hx
      · rw [hx]
        intro hEq
        exact hi (hEq ▸ hA)
      · exact hne x hx

/-- The executions of a run of turns extend the executions at its start. -/
theorem commitTransactions_foldl_executed {σ : Type} (E : Backend σ) (gasPrice : Int)
    (l : List Transaction) (s : PassState σ) :
    ∃ more : List Transaction,
      (l.foldl (commitTransactionsBody E gasPrice) s).executed = s.executed ++ more := by
  induction l generalizing s with
  | nil => exact ⟨[], by simp⟩
  | cons a t ih =>
    rw [List.foldl_cons]
    obtain ⟨more, hmore⟩ := ih (commitTransactionsBody E gasPrice s a)
    rcases (commitTransactionsBody_txs E gasPrice s a).2 with h | ⟨h, _⟩
    · exact ⟨more, by rw [hmore, h]⟩
    · exact ⟨a :: more, by rw [hmore, h]; simp⟩

/-- A transaction that passes the gates of a turn (lines 622-656) is handed to
the executor, and it is included and counted when the execution succeeds. -/
theorem commitTransactionsBody_exec_effect {σ : Type} (E : Backend σ) (gasPrice : Int)
    (s : PassState σ) (tx : Transaction)
    (hg : ¬ (tx.isProtected = true ∧ s.env.config.IsDiehard s.env.header.Number = false))
    (hl : ¬ (tx.gasPrice < gasPrice ∧ tx.sender ∉ s.env.ownedAccounts))
    (hm : tx.sender ∉ s.env.lowGasTransactors)
    (hi : tx.sender ∉ s.env.ignoredTransactors) :
    (commitTransactionsBody E gasPrice s tx).executed = s.executed ++ [tx] ∧
    ((commitTransaction E { s.env with state := E.StartRecord s.env.state tx.hash }
        tx s.gp).err = none →
      (commitTransactionsBody E gasPrice s tx).env.txs = s.env.txs ++ [tx] ∧
      (commitTransactionsBody E gasPrice s tx).env.tcount = s.env.tcount + 1) := by
  have hbody := commitTransactionsBody_exec E gasPrice s tx hg hl hm hi
  have hf := commitTransaction_frame E
    { s.env with state := E.StartRecord s.env.state tx.hash } tx s.gp
  have ht := commitTransaction_txs E
    { s.env with state := E.StartRecord s.env.state tx.hash } tx s.gp
  rcases herr : (commitTransaction E { s.env with state := E.StartRecord s.env.state tx.hash }
      tx s.gp).err with _ | err
  · rw [herr] at hbody
    dsimp only at hbody
    rw [hbody]
    refine ⟨rfl, fun _ => ⟨?_, ?_⟩⟩
    · rcases ht with ⟨h, _⟩ | ⟨_, h⟩
      · exact absurd herr h
      · exact h
    · simp [hf]
  · rw [herr] at hbody
    dsimp only at hbody
    rw [hbody]
    refine ⟨?_, fun h => by cases h⟩
    split_ifs <;> rfl

/-- C5: when a turn of the pass hands `tx` to the executor and the execution
fails with `err`: for a gas-limit error the sender is added to
`ignoredTransactors`, the removal set is left alone, and no later transaction of
that sender is handed to the executor in the rest of the pass; for any other
error the hash of `tx` is added to the removal set and `ignoredTransactors` is
left alone.  In both cases `tx` is not included, and the pass goes on with the
next transaction: the turn after the failure treats the next transaction `nxt`
as any turn does, so a `nxt` that passes the gates of the pass (and, after a
gas-limit error, is not of the ignored sender) is handed to the executor right
after `tx`, is included and counted when its execution succeeds, and the whole
pass over `pre ++ tx :: nxt :: rest` executes `tx` and then `nxt`. -/
theorem commitTransactions_failure_policy {σ : Type} (E : Backend σ) (gasPrice : Int)
    (s : PassState σ) (tx : Transaction) (post : List Transaction) (err : ExecError)
    (hexec : (commitTransactionsBody E gasPrice s tx).executed = s.executed ++ [tx])
    (herr : (commitTransaction E { s.env with state := E.StartRecord s.env.state tx.hash }
      tx s.gp).err = some err) :
    (E.IsGasLimitErr err = true →
      (commitTransactionsBody E gasPrice s tx).env.ignoredTransactors =
          insert tx.sender s.env.ignoredTransactors ∧
      (commitTransactionsBody E gasPrice s tx).env.remove = s.env.remove ∧
      ∃ rest : List Transaction,
        (post.foldl (commitTransactionsBody E gasPrice)
          (commitTransactionsBody E gasPrice s tx)).executed =
            (commitTransactionsBody E gasPrice s tx).executed ++ rest ∧
        ∀ x ∈ rest, x.sender ≠ tx.sender) ∧
    (E.IsGasLimitErr err = false →
      (commitTransactionsBody E gasPrice s tx).env.remove = insert tx.hash s.env.remove ∧
      (commitTransactionsBody E gasPrice s tx).env.ignoredTransactors =
          s.env.ignoredTransactors) ∧
    (commitTransactionsBody E gasPrice s tx).env.txs = s.env.txs ∧
    (∀ (env : Work σ) (pre : List Transaction), s = commitTransactions E env pre gasPrice →
      commitTransactions E env (pre ++ tx :: post) gasPrice =
        post.foldl (commitTransactionsBody E gasPrice)
          (commitTransactionsBody E gasPrice s tx)) ∧
    (∀ nxt : Transaction,
      ¬ (nxt.isProtected = true ∧ s.env.config.IsDiehard s.env.header.Number = false) →
      ¬ (nxt.gasPrice < gasPrice ∧ nxt.sender ∉ s.env.ownedAccounts) →
      nxt.sender ∉ s.env.lowGasTransactors →
      nxt.sender ∉ s.env.ignoredTransactors →
      (E.IsGasLimitErr err = true → nxt.sender ≠ tx.sender) →
      (commitTransactionsBody E gasPrice
          (commitTransactionsBody E gasPrice s tx) nxt).executed = s.executed ++ [tx, nxt] ∧
      ((commitTransaction E
          { (commitTransactionsBody E gasPrice s tx).env with
            state := E.StartRecord (commitTransactionsBody E gasPrice s tx).env.state nxt.hash }
          nxt (commitTransactionsBody E gasPrice s tx).gp).err = none →
        (commitTransactionsBody E gasPrice
            (commitTransactionsBody E gasPrice s tx) nxt).env.txs = s.env.txs ++ [nxt] ∧
        (commitTransactionsBody E gasPrice
            (commitTransactionsBody E gasPrice s tx) nxt).env.tcount = s.env.tcount + 1) ∧
      ∀ (env : Work σ) (pre rest : List Transaction),
        s = commitTransactions E env pre gasPrice →
        ∃ more : List Transaction,
          (commitTransactions E env (pre ++ tx :: nxt :: rest) gasPrice).executed =
            s.executed ++ [tx, nxt] ++ more) := by
  have hgates : ¬ (tx.isProtected = true ∧
        s.env.config.IsDiehard s.env.header.Number = false) ∧
      ¬ (tx.gasPrice < gasPrice ∧ tx.sender ∉ s.env.ownedAccounts) ∧
      tx.sender ∉ s.env.lowGasTransactors ∧ tx.sender ∉ s.env.ignoredTransactors := by
    rcases (commitTransactionsBody_txs E gasPrice s tx).2 with h | ⟨_, h⟩
    · rw [h] at hexec
      simp at hexec
    · exact h
  obtain ⟨hg, hl, hm, hi⟩ := hgates
  have hbody := commitTransactionsBody_exec E gasPrice s tx hg hl hm hi
  rw [herr] at hbody
  dsimp only at hbody
  have hf := commitTransaction_frame E
    { s.env with state := E.StartRecord s.env.state tx.hash } tx s.gp
  have ht := commitTransaction_txs E
    { s.env with state := E.StartRecord s.env.state tx.hash } tx s.gp
  have htxs : (commitTransaction E { s.env with state := E.StartRecord s.env.state tx.hash }
      tx s.gp).env.txs = s.env.txs := by
    rcases ht with ⟨_, h⟩ | ⟨h, _⟩
    · exact h
    · rw [herr] at h
      cases h
  have htxs2 : (commitTransactionsBody E gasPrice s tx).env.txs = s.env.txs := by
    by_cases hgl : E.IsGasLimitErr err = true
    · rw [if_pos hgl] at hbody
      rw [hbody]
      exact htxs
    · rw [if_neg hgl] at hbody
      rw [hbody]
      exact htxs
  refine ⟨?_, ?_, htxs2, ?_, ?_⟩
  · intro hgl
    rw [if_pos hgl] at hbody
    have hig : (commitTransactionsBody E gasPrice s tx).env.ignoredTransactors =
        insert tx.sender s.env.ignoredTransactors := by
      rw [hbody]
      simp [hf]
    refine ⟨hig, ?_, ?_⟩
    · rw [hbody]
      simp [hf]
    · apply commitTransactions_foldl_ignored
      rw [hig]
      simp
  · intro hgl
    have hgl2 : ¬ (E.IsGasLimitErr err = true) := by simp [hgl]
    rw [if_neg hgl2] at hbody
    rw [hbody]
    simp [hf]
  · intro env pre hs
    rw [hs]
    unfold commitTransactions
    dsimp only
    rw [List.foldl_append, List.foldl_cons]
  · intro nxt hg2 hl2 hm2 hi2 hne
    have hfr := commitTransactionsBody_frame E gasPrice s tx
    have hlow : (commitTransactionsBody E gasPrice s tx).env.lowGasTransactors =
        s.env.lowGasTransactors := by
      by_cases hgl : E.IsGasLimitErr err = true
      · rw [if_pos hgl] at hbody
        rw [hbody]
        simp [hf]
      · rw [if_neg hgl] at hbody
        rw [hbody]
        simp [hf]
    have hcnt : (commitTransactionsBody E gasPrice s tx).env.tcount = s.env.tcount := by
      by_cases hgl : E.IsGasLimitErr err = true
      · rw [if_pos hgl] at hbody
        rw [hbody]
        simp [hf]
      · rw [if_neg hgl] at hbody
        rw [hbody]
        simp [hf]
    have hign : nxt.sender ∉ (commitTransactionsBody E gasPrice s tx).env.ignoredTransactors := by
      by_cases hgl : E.IsGasLimitErr err = true
      · rw [if_pos hgl] at hbody
        rw [hbody]
        simp only [hf, Finset.mem_insert, not_or]
        exact ⟨hne hgl, hi2⟩
      · rw [if_neg hgl] at hbody
        rw [hbody]
        simp only [hf]
        exact hi2
    have hE := commitTransactionsBody_exec_effect E gasPrice
      (commitTransactionsBody E gasPrice s tx) nxt
      (by rw [hfr.1, hfr.2.1]; exact hg2) (by rw [hfr.2.2.1]; exact hl2)
      (by rw [hlow]; exact hm2) hign
    refine ⟨?_, ?_, ?_⟩
    · rw [hE.1, hexec]
      simp
    · intro hok
      obtain ⟨h1, h2⟩ := hE.2 hok
      rw [h1, h2, htxs2, hcnt]
      exact ⟨rfl, rfl⟩
    · intro env pre rest hs
      obtain ⟨more, hmore⟩ := commitTransactions_foldl_executed E gasPrice rest
        (commitTransactionsBody E gasPrice (commitTransactionsBody E gasPrice s tx) nxt)
      have hpass : commitTransactions E env (pre ++ tx :: nxt :: rest) gasPrice =
          rest.foldl (commitTransactionsBody E gasPrice)
            (commitTransactionsBody E gasPrice (commitTransactionsBody E gasPrice s tx) nxt) := by
        rw [hs]
        unfold commitTransactions
        dsimp only
        rw [List.foldl_append, List.foldl_cons, List.foldl_cons]
      refine ⟨more, ?_⟩
      rw [hpass, hmore, hE.1, hexec]
      simp

/-- The witness of `commitTransactions_failure_policy`: on the example work at
floor 100, the transaction with hash 4 of sender 7 fails with the gas-limit
error; the next transaction, hash 5 of sender 8, is executed and included, and
the later transaction of sender 7 is skipped.  The transaction with hash 2 of
sender 7 fails with the other error, and the next transaction of the same
sender, hash 3, is executed and included. -/
theorem commitTransactions_failure_policy_witness :
    ((commitTransactions exBackend exWork
        ([] ++ { hash := 4, sender := 7, gasPrice := 200, isProtected := false } ::
          { hash := 5, sender := 8, gasPrice := 200, isProtected := false } ::
          [{ hash := 3, sender := 7, gasPrice := 200, isProtected := false }]) 100).executed =
        [{ hash := 4, sender := 7, gasPrice := 200, isProtected := false },
         { hash := 5, sender := 8, gasPrice := 200, isProtected := false }] ∧
      (commitTransactions exBackend exWork
        ([] ++ { hash := 4, sender := 7, gasPrice := 200, isProtected := false } ::
          { hash := 5, sender := 8, gasPrice := 200, isProtected := false } ::
          [{ hash := 3, sender := 7, gasPrice := 200, isProtected := false }]) 100).env.txs =
        [{ hash := 5, sender := 8, gasPrice := 200, isProtected := false }] ∧
      (commitTransactions exBackend exWork
        ([] ++ { hash := 2, sender := 7, gasPrice := 200, isProtected := false } ::
          { hash := 3, sender := 7, gasPrice := 200, isProtected := false } :: []) 100).env.txs =
        [{ hash := 3, sender := 7, gasPrice := 200, isProtected := false }]) ∧
    (∃ more : List Transaction,
      (commitTransactions exBackend exWork
        ([] ++ { hash := 4, sender := 7, gasPrice := 200, isProtected := false } ::
          { hash := 5, sender := 8, gasPrice := 200, isProtected := false } ::
          [{ hash := 3, sender := 7, gasPrice := 200, isProtected := false }]) 100).executed =
        (commitTransactions exBackend exWork [] 100).executed ++
          [{ hash := 4, sender := 7, gasPrice := 200, isProtected := false },
           { hash := 5, sender := 8, gasPrice := 200, isProtected := false }] ++ more) ∧
    (∃ more : List Transaction,
      (commitTransactions exBackend exWork
        ([] ++ { hash := 2, sender := 7, gasPrice := 200, isProtected := false } ::
          { hash := 3, sender := 7, gasPrice := 200, isProtected := false } :: []) 100).executed =
        (commitTransactions exBackend exWork [] 100).executed ++
          [{ hash := 2, sender := 7, gasPrice := 200, isProtected := false },
           { hash := 3, sender := 7, gasPrice := 200, isProtected := false }] ++ more) :=
  ⟨by decide,
   ((commitTransactions_failure_policy exBackend 100 (commitTransactions exBackend exWork [] 100)
      { hash := 4, sender := 7, gasPrice := 200, isProtected := false }
      [{ hash := 5, sender := 8, gasPrice := 200, isProtected := false },
       { hash := 3, sender := 7, gasPrice := 200, isProtected := false }] 1
      (by decide) (by decide)).2.2.2.2
      { hash := 5, sender := 8, gasPrice := 200, isProtected := false }
      (by decide) (by decide) (by decide) (by decide) (by decide)).2.2 exWork []
      [{ hash := 3, sender := 7, gasPrice := 200, isProtected := false }] rfl,
   ((commitTransactions_failure_policy exBackend 100 (commitTransactions exBackend exWork [] 100)
      { hash := 2, sender := 7, gasPrice := 200, isProtected := false }
      [{ hash := 3, sender := 7, gasPrice := 200, isProtected := false }] 2
      (by decide) (by decide)).2.2.2.2
      { hash := 3, sender := 7, gasPrice := 200, isProtected := false }
      (by decide) (by decide) (by decide) (by decide) (by decide)).2.2 exWork [] [] rfl⟩

/-- C6 (the code at the failing input): one assembly cycle over a pool holding
one transaction that fails with an error other than the gas-limit error.  Its
hash 2 is put in the removal set of the work, yet the only call of the pool's
`RemoveTransactions` receives the empty low-price list. -/
theorem commitNewWork_removal_set_not_reported :
    (commitNewWork exBackend exChain (newWorker exConfig 9) 5
      [{ hash := 2, sender := 7, gasPrice := 200, isProtected := false }]).removed = [[]] ∧
    (commitNewWork exBackend exChain (newWorker exConfig 9) 5
      [{ hash := 2, sender := 7, gasPrice := 200, isProtected := false }]).self.current.map
        (fun w => w.remove) = some {2} := by
  refine ⟨by decide, by decide⟩

/-- C7: `commitTransaction` either fails and appends nothing or succeeds and
appends exactly the transaction and its receipt.  When the environment reports
an error the state view is the one reverted to the snapshot taken just before
the execution, the transaction and receipt lists are unchanged and the error is
returned without logs; when it succeeds the transaction is appended at the end
of the transaction list, its receipt at the end of the receipt list, and the
logs are returned without an error. -/
theorem commitTransaction_atomic {σ : Type} (E : Backend σ) (env : Work σ)
    (tx : Transaction) (gp : GasPool) :
    (∀ err : ExecError,
      (E.ApplyTransaction (E.Snapshot env.state).2 gp env.header tx).result =
        Except.error err →
      (commitTransaction E env tx gp).env.state =
        E.RevertToSnapshot
          (E.ApplyTransaction (E.Snapshot env.state).2 gp env.header tx).state
          (E.Snapshot env.state).1 ∧
      (commitTransaction E env tx gp).env.txs = env.txs ∧
      (commitTransaction E env tx gp).env.receipts = env.receipts ∧
      (commitTransaction E env tx gp).err = some err ∧
      (commitTransaction E env tx gp).logs = []) ∧
    (∀ (receipt : Receipt) (logs : Logs),
      (E.ApplyTransaction (E.Snapshot env.state).2 gp env.header tx).result =
        Except.ok (receipt, logs) →
      (commitTransaction E env tx gp).env.txs = env.txs ++ [tx] ∧
      (commitTransaction E env tx gp).env.receipts = env.receipts ++ [receipt] ∧
      (commitTransaction E env tx gp).err = none ∧
      (commitTransaction E env tx gp).logs = logs) := by
  refine ⟨?_, ?_⟩
  · intro err h
    rw [commitTransaction_error E env tx gp err h]
    exact ⟨rfl, rfl, rfl, rfl, rfl⟩
  · intro receipt logs h
    rw [commitTransaction_ok E env tx gp receipt logs h]
    exact ⟨rfl, rfl, rfl, rfl⟩

/-! ### The floor price -/

/-- The counterexample to C8 as stated: for the price 150, `setGasPrice` stores
`(150 / 100) * 90 = 90`, while `150 * 90 / 100` is 135. -/
theorem setGasPrice_counterexample :
    (setGasPrice (newWorker exConfig 9 : worker Unit) 150).gasPrice = 90 ∧
    ((150 : Int) * 90) / 100 = 135 := by
  refine ⟨by decide, by decide⟩

/-- C8 (amended): `setGasPrice(p)` stores `(p div 100) * 90`: the price is
divided by 100 first (rounding down) and the quotient is then multiplied by 90.
The stored value never exceeds `(p * 90) div 100` and is equal to it whenever
`p` is a multiple of 100. -/
theorem setGasPrice_stores {σ : Type} (w : worker σ) (p : Int) :
    (setGasPrice w p).gasPrice = gasprice p 90 ∧
    gasprice p 90 = (p / 100) * 90 ∧
    gasprice p 90 ≤ (p * 90) / 100 ∧
    (p % 100 = 0 → gasprice p 90 = (p * 90) / 100) := by
  refine ⟨rfl, rfl, ?_, ?_⟩
  · unfold gasprice
    dsimp only
    omega
  · intro h
    unfold gasprice
    dsimp only
    omega

/-! ### Dispatch -/

/-- Adding to a wrapped `int32` and wrapping again is wrapping the sum. -/
theorem wrap32_add (x y : Int) : wrap32 (wrap32 x + y) = wrap32 (x + y) := by
  unfold wrap32
  omega

/-- A value in the `int32` range is its own wrap. -/
theorem wrap32_of_range (x : Int) (hlo : -2147483648 ≤ x) (hhi : x < 2147483648) :
    wrap32 x = x := by
  unfold wrap32
  omega

/-- The loop of `push` over the agents: the counter is incremented once for
every agent, and the agents with a channel are the ones delivered to. -/
theorem pushAgent_foldl (agents : List Agent) (a : Int) (l : List Agent) :
    agents.foldl pushAgent (wrap32 a, l) =
      (wrap32 (a + agents.length), l ++ agents.filter (fun g => g.workCh.isSome)) := by
  induction agents generalizing a l with
  | nil => simp
  | cons g t ih =>
    rw [List.foldl_cons]
    have hstep : pushAgent (wrap32 a, l) g =
        (wrap32 (a + 1), l ++ (if g.workCh.isSome then [g] else [])) := by
      unfold pushAgent
      dsimp only
      rw [wrap32_add]
      cases hch : g.workCh <;> simp
    rw [hstep, ih]
    have hlen : a + 1 + (t.length : Int) = a + ((g :: t).length : Int) := by
      simp only [List.length_cons]
      push_cast
      ring
    rw [hlen]
    cases hch : g.workCh <;> simp [List.filter_cons, hch]

/-- The counterexample to C9 as stated: mining is on and the only registered
agent has no work channel.  `push` delivers to nobody, yet the in-flight counter
goes from 0 to 1. -/
theorem push_counterexample :
    (push { (newWorker exConfig 9 : worker Unit) with
        mining := 1, agents := [{ id := 1, workCh := none, isCpu := false }] } exWork).2 = [] ∧
    (push { (newWorker exConfig 9 : worker Unit) with
        mining := 1, agents := [{ id := 1, workCh := none, isCpu := false }] }
      exWork).1.atWork = 1 := by
  refine ⟨by decide, by decide⟩

/-- What `push` does: if mining is off, `push` delivers nothing and leaves the worker,
so the in-flight counter, unchanged.  If mining is on, `push` delivers the work to
exactly the registered agents whose work channel is not nil, and adds to the
in-flight counter the number of all registered agents, delivered to or not (as an
`int32`: the plain sum when it stays below 2^31). -/
theorem push_effect {σ : Type} (self : worker σ) (work : Work σ)
    (hlo : -2147483648 ≤ self.atWork) (hhi : self.atWork < 2147483648) :
    (self.mining ≠ 1 → push self work = (self, [])) ∧
    (self.mining = 1 →
      (push self work).2 = self.agents.filter (fun g => g.workCh.isSome) ∧
      (push self work).1 =
        { self with atWork := wrap32 (self.atWork + self.agents.length) } ∧
      (self.atWork + self.agents.length < 2147483648 →
        (push self work).1.atWork = self.atWork + self.agents.length)) := by
  have hfold := pushAgent_foldl self.agents self.atWork []
  rw [wrap32_of_range self.atWork hlo hhi] at hfold
  refine ⟨?_, ?_⟩
  · intro hm
    unfold push
    rw [if_pos hm]
  · intro hm
    have hm2 : ¬ (self.mining ≠ 1) := by simp [hm]
    unfold push
    rw [if_neg hm2]
    dsimp only
    rw [hfold]
    refine ⟨by simp, rfl, ?_⟩
    intro hsum
    dsimp only
    apply wrap32_of_range
    · have : (0 : Int) ≤ (self.agents.length : Int) := Int.natCast_nonneg _
      omega
    · exact hsum

/-- C9 (amended): if mining is off, `push` delivers nothing and leaves the worker,
so the in-flight counter, unchanged.  If mining is on, `push` delivers the work to
exactly the registered agents whose work channel is not nil, and adds to the
in-flight counter the number of all registered agents, delivered to or not (as an
`int32`: the plain sum when it stays below 2^31). -/
theorem push_contract {σ : Type} (self : worker σ) (work : Work σ)
    (hlo : -2147483648 ≤ self.atWork) (hhi : self.atWork < 2147483648) :
    (self.mining ≠ 1 → push self work = (self, [])) ∧
    (self.mining = 1 →
      (push self work).2 = self.agents.filter (fun g => g.workCh.isSome) ∧
      (push self work).1 =
        { self with atWork := wrap32 (self.atWork + self.agents.length) } ∧
      (self.atWork + self.agents.length < 2147483648 →
        (push self work).1.atWork = self.atWork + self.agents.length)) :=
  push_effect self work hlo hhi

/-- The witness of `push_contract`: mining is on, one agent with a channel and
one without, the counter at 0. -/
theorem push_contract_witness :
    (push { (newWorker exConfig 9 : worker Unit) with
        mining := 1,
        agents := [{ id := 1, workCh := some 0, isCpu := true },
                   { id := 2, workCh := none, isCpu := false }] } exWork).2 =
      [{ id := 1, workCh := some 0, isCpu := true }] ∧
    (push { (newWorker exConfig 9 : worker Unit) with
        mining := 1,
        agents := [{ id := 1, workCh := some 0, isCpu := true },
                   { id := 2, workCh := none, isCpu := false }] } exWork).1.atWork = 2 := by
  have h := (push_contract { (newWorker exConfig 9 : worker Unit) with
        mining := 1,
        agents := [{ id := 1, workCh := some 0, isCpu := true },
                   { id := 2, workCh := none, isCpu := false }] } exWork
      (by decide) (by decide)).2 rfl
  exact ⟨h.1, h.2.2 (by decide)⟩

/-! ### The in-flight counter -/

/-- The counterexample to C10 as stated: from the initial state an agent is
registered, mining is started, one work is pushed to it (in-flight 1), mining is
stopped (in-flight stored as 0), and then the result that answers the delivery
is drained: the counter is -1. -/
theorem atWork_negative_counterexample :
    (newWorker exConfig 9 : worker Unit).mining = 0 ∧
    (newWorker exConfig 9 : worker Unit).atWork = 0 ∧
    (coordRun (coordInit (newWorker exConfig 9 : worker Unit))
      [CoordEvent.register { id := 1, workCh := some 0, isCpu := false },
       CoordEvent.start,
       CoordEvent.push exWork,
       CoordEvent.stop,
       CoordEvent.drainStale]).map (fun s => s.self.atWork) = some (-1) := by
  refine ⟨rfl, rfl, by decide⟩

/-- The ghost counter of increments never decreases in a step. -/
theorem coordStep_increments {σ : Type} (s s1 : CoordState σ) (e : CoordEvent σ)
    (h : coordStep s e = some s1) : s.increments ≤ s1.increments := by
  cases e with
  | start => simp [coordStep] at h; rw [← h]
  | stop => simp [coordStep] at h; rw [← h]
  | register a => simp [coordStep] at h; rw [← h]
  | unregister a => simp [coordStep] at h; rw [← h]
  | push work => simp [coordStep] at h; rw [← h]; simp
  | drain =>
    simp only [coordStep] at h
    split_ifs at h
    simp at h
    rw [← h]
  | drainStale =>
    simp only [coordStep] at h
    split_ifs at h
    simp at h
    rw [← h]

/-- The ghost counter of increments never decreases along a run. -/
theorem coordRun_increments {σ : Type} (evs : List (CoordEvent σ)) (s s1 : CoordState σ)
    (h : coordRun s evs = some s1) : s.increments ≤ s1.increments := by
  induction evs generalizing s with
  | nil =>
    simp [coordRun] at h
    rw [h]
  | cons e es ih =>
    rw [coordRun] at h
    cases hstep : coordStep s e with
    | none => rw [hstep] at h; simp at h
    | some s2 =>
      rw [hstep] at h
      exact (coordStep_increments s s2 e hstep).trans (ih s2 h)

/-- The invariant of the counter while no stale result is drained and the
counter has not overflowed: the unanswered deliveries since the last `stop` are
at most `atWork`, which is at most the number of increments. -/
theorem coordStep_invariant {σ : Type} (s s1 : CoordState σ) (e : CoordEvent σ)
    (h : coordStep s e = some s1) (he : e ≠ CoordEvent.drainStale)
    (hinc : s1.increments < 2147483648)
    (hinv : (s.pending : Int) ≤ s.self.atWork ∧ s.self.atWork ≤ s.increments) :
    (s1.pending : Int) ≤ s1.self.atWork ∧ s1.self.atWork ≤ s1.increments := by
  have hmono := coordStep_increments s s1 e h
  cases e with
  | start =>
    simp [coordStep] at h
    rw [← h]
    exact hinv
  | stop =>
    simp [coordStep] at h
    rw [← h]
    simp [stop]
  | register a =>
    simp [coordStep] at h
    rw [← h]
    exact hinv
  | unregister a =>
    simp [coordStep] at h
    rw [← h]
    exact hinv
  | push work =>
    simp only [coordStep, Option.some.injEq] at h
    have hlo : -2147483648 ≤ s.self.atWork := by omega
    have hhi : s.self.atWork < 2147483648 := by omega
    have hc := push_effect s.self work hlo hhi
    by_cases hm : s.self.mining = 1
    · obtain ⟨hdel, _, hsum⟩ := hc.2 hm
      have hlen : (s.self.agents.filter (fun g => g.workCh.isSome)).length ≤
          s.self.agents.length := List.length_filter_le _ _
      have hinc1 : s1.increments = s.increments + s.self.agents.length := by
        rw [← h]
        simp [hm]
      have hpend : s1.pending = s.pending + (push s.self work).2.length := by
        rw [← h]
      have hat : s1.self.atWork = (push s.self work).1.atWork := by
        rw [← h]
      rw [hdel] at hpend
      have hsum2 := hsum (by omega)
      rw [hat, hsum2, hpend, hinc1]
      push_cast
      omega
    · have hp := hc.1 hm
      rw [hp] at h
      rw [← h]
      simp [hm]
      exact hinv
  | drain =>
    simp only [coordStep] at h
    split_ifs at h with hpos
    simp only [Option.some.injEq] at h
    have hinc0 : s.increments < 2147483648 := by omega
    have hw : wrap32 (s.self.atWork - 1) = s.self.atWork - 1 := by
      apply wrap32_of_range <;> omega
    rw [← h]
    simp only [waitReceive, hw]
    omega
  | drainStale => exact absurd rfl he

/-- The invariant of the counter holds at the end of every run that drains no
stale result and does not overflow the counter. -/
theorem coordRun_invariant {σ : Type} (evs : List (CoordEvent σ)) (s s1 : CoordState σ)
    (h : coordRun s evs = some s1) (he : CoordEvent.drainStale ∉ evs)
    (hinc : s1.increments < 2147483648)
    (hinv : (s.pending : Int) ≤ s.self.atWork ∧ s.self.atWork ≤ s.increments) :
    (s1.pending : Int) ≤ s1.self.atWork ∧ s1.self.atWork ≤ s1.increments := by
  induction evs generalizing s with
  | nil =>
    simp [coordRun] at h
    rw [← h]
    exact hinv
  | cons e es ih =>
    rw [coordRun] at h
    cases hstep : coordStep s e with
    | none => rw [hstep] at h; simp at h
    | some s2 =>
      rw [hstep] at h
      have hmono := coordRun_increments es s2 s1 h
      apply ih s2 h
      · intro hmem
        exact he (List.mem_cons_of_mem _ hmem)
      · apply coordStep_invariant s s2 e hstep
        · intro heq
          exact he (heq ▸ List.mem_cons_self _ _)
        · omega
        · exact hinv

/-- C10 (amended): in every state reached from an initial state with in-flight
count 0 (mining off or on) by start, stop, register, unregister, push and
drain-one-result steps in which every drained result answers a distinct
delivery made by push since the last stop, and in which line 356 has run
fewer than 2^31 times, the in-flight counter `atWork` is at least 0 (it is at
least the number of deliveries not answered yet). -/
theorem atWork_nonneg {σ : Type} (w : worker σ) (evs : List (CoordEvent σ))
    (s : CoordState σ) (hat : w.atWork = 0)
    (hrun : coordRun (coordInit w) evs = some s)
    (hfresh : CoordEvent.drainStale ∉ evs)
    (hinc : s.increments < 2147483648) :
    0 ≤ s.self.atWork ∧ (s.pending : Int) ≤ s.self.atWork := by
  have h := coordRun_invariant evs (coordInit w) s hrun hfresh hinc
    (by simp [coordInit, hat])
  refine ⟨?_, h.1⟩
  have : (0 : Int) ≤ (s.pending : Int) := Int.natCast_nonneg _
  omega

/-- The witness of `atWork_nonneg`: an agent is registered, mining is started,
a work is pushed twice and one result is drained; one delivery is unanswered
and the counter is 1. -/
theorem atWork_nonneg_witness :
    coordRun (coordInit (newWorker exConfig 9 : worker Unit))
      [CoordEvent.register { id := 1, workCh := some 0, isCpu := false },
       CoordEvent.start,
       CoordEvent.push exWork,
       CoordEvent.push exWork,
       CoordEvent.drain] =
      some { self := { (newWorker exConfig 9 : worker Unit) with
                mining := 1, atWork := 1,
                agents := [{ id := 1, workCh := some 0, isCpu := false }] },
             pending := 1, stalePending := 0, increments := 2 } ∧
    (0 : Int) ≤ 1 ∧ ((1 : Nat) : Int) ≤ 1 :=
  ⟨rfl, atWork_nonneg (newWorker exConfig 9 : worker Unit)
    [CoordEvent.register { id := 1, workCh := some 0, isCpu := false },
     CoordEvent.start,
     CoordEvent.push exWork,
     CoordEvent.push exWork,
     CoordEvent.drain]
    { self := { (newWorker exConfig 9 : worker Unit) with
          mining := 1, atWork := 1,
          agents := [{ id := 1, workCh := some 0, isCpu := false }] },
      pending := 1, stalePending := 0, increments := 2 }
    rfl rfl (by simp) (by decide)⟩

/-! ### The replay-protection gate and node-owned senders -/

/-- C16: a transaction that is marked protected while the replay-protection fork
is not active at the draft header's number is skipped with no effect: the turn
of the pass leaves the work, the gas pool, the logs and the list of executions
as they were (nothing is executed, nothing is appended to the transaction list,
the removal set or the low-price list, and no sender is marked), so the pass
over a list with the transaction is the pass over the list without it. -/
theorem commitTransactions_replay_gate {σ : Type} (E : Backend σ) (env : Work σ)
    (gasPrice : Int) (pre post : List Transaction) (tx : Transaction)
    (hp : tx.isProtected = true)
    (hf : env.config.IsDiehard env.header.Number = false) :
    commitTransactionsBody E gasPrice (commitTransactions E env pre gasPrice) tx =
      commitTransactions E env pre gasPrice ∧
    commitTransactions E env (pre ++ tx :: post) gasPrice =
      commitTransactions E env (pre ++ post) gasPrice := by
  have hfr := commitTransactions_foldl_frame E gasPrice pre
    { env := env, gp := GasPool.AddGas 0 env.header.GasLimit, coalescedLogs := [],
      executed := [] }
  have hbody : commitTransactionsBody E gasPrice (commitTransactions E env pre gasPrice) tx =
      commitTransactions E env pre gasPrice := by
    apply commitTransactionsBody_gated
    refine ⟨hp, ?_⟩
    unfold commitTransactions
    rw [hfr.1, hfr.2.1]
    exact hf
  refine ⟨hbody, ?_⟩
  have h1 : commitTransactions E env (pre ++ tx :: post) gasPrice =
      post.foldl (commitTransactionsBody E gasPrice)
        (commitTransactionsBody E gasPrice (commitTransactions E env pre gasPrice) tx) := by
    unfold commitTransactions
    dsimp only
    rw [List.foldl_append, List.foldl_cons]
  have h2 : commitTransactions E env (pre ++ post) gasPrice =
      post.foldl (commitTransactionsBody E gasPrice)
        (commitTransactions E env pre gasPrice) := by
    unfold commitTransactions
    dsimp only
    rw [List.foldl_append]
  rw [h1, h2, hbody]

/-- The witness of `commitTransactions_replay_gate`: on the example work, whose
fork is never active, a protected transaction between two others. -/
theorem commitTransactions_replay_gate_witness :
    commitTransactions exBackend exWork
      ([{ hash := 5, sender := 8, gasPrice := 300, isProtected := false }] ++
        { hash := 1, sender := 7, gasPrice := 500, isProtected := true } ::
        [{ hash := 3, sender := 7, gasPrice := 200, isProtected := false }]) 100 =
    commitTransactions exBackend exWork
      ([{ hash := 5, sender := 8, gasPrice := 300, isProtected := false }] ++
        [{ hash := 3, sender := 7, gasPrice := 200, isProtected := false }]) 100 :=
  (commitTransactions_replay_gate exBackend exWork 100
    [{ hash := 5, sender := 8, gasPrice := 300, isProtected := false }]
    [{ hash := 3, sender := 7, gasPrice := 200, isProtected := false }]
    { hash := 1, sender := 7, gasPrice := 500, isProtected := true } rfl rfl).2

/-- One turn of the pass marks no owned sender as low-price and queues no
transaction of an owned sender in the low-price list. -/
theorem commitTransactionsBody_owned {σ : Type} (E : Backend σ) (gasPrice : Int)
    (s : PassState σ) (tx : Transaction)
    (h1 : ∀ a ∈ s.env.lowGasTransactors, a ∉ s.env.ownedAccounts)
    (h2 : ∀ x ∈ s.env.lowGasTxs, x.sender ∉ s.env.ownedAccounts) :
    (∀ a ∈ (commitTransactionsBody E gasPrice s tx).env.lowGasTransactors,
      a ∉ s.env.ownedAccounts) ∧
    (∀ x ∈ (commitTransactionsBody E gasPrice s tx).env.lowGasTxs,
      x.sender ∉ s.env.ownedAccounts) := by
  by_cases hg : tx.isProtected = true ∧ s.env.config.IsDiehard s.env.header.Number = false
  · rw [commitTransactionsBody_gated E gasPrice s tx hg]
    exact ⟨h1, h2⟩
  by_cases hl : tx.gasPrice < gasPrice ∧ tx.sender ∉ s.env.ownedAccounts
  · rw [commitTransactionsBody_lowPrice E gasPrice s tx hg hl]
    refine ⟨?_, ?_⟩
    · intro a ha
      rcases Finset.mem_insert.mp ha with ha | ha
      · rw [ha]
        exact hl.2
      · exact h1 a ha
    · intro x hx
      rcases List.mem_append.mp hx with hx | hx
      · exact h2 x hx
      · rw [List.mem_singleton.mp hx]
        exact hl.2
  by_cases hm : tx.sender ∈ s.env.lowGasTransactors
  · rw [commitTransactionsBody_marked E gasPrice s tx hg hl hm]
    by_cases ho : tx.sender ∉ s.env.ownedAccounts
    · rw [if_pos ho]
      refine ⟨h1, ?_⟩
      intro x hx
      rcases List.mem_append.mp hx with hx | hx
      · exact h2 x hx
      · rw [List.mem_singleton.mp hx]
        exact ho
    · rw [if_neg ho]
      exact ⟨h1, h2⟩
  by_cases hi : tx.sender ∈ s.env.ignoredTransactors
  · rw [commitTransactionsBody_ignored E gasPrice s tx hg hl hm hi]
    exact ⟨h1, h2⟩
  rw [commitTransactionsBody_exec E gasPrice s tx hg hl hm hi]
  have hf := commitTransaction_frame E
    { s.env with state := E.StartRecord s.env.state tx.hash } tx s.gp
  obtain ⟨_, _, _, _, _, _, hlg, _, _, hlt, _⟩ := hf
  split
  · split_ifs
    · dsimp only
      rw [hlg, hlt]
      exact ⟨h1, h2⟩
    · dsimp only
      rw [hlg, hlt]
      exact ⟨h1, h2⟩
  · dsimp only
    rw [hlg, hlt]
    exact ⟨h1, h2⟩

/-- A run of turns of the pass marks no owned sender as low-price and queues no
transaction of an owned sender in the low-price list. -/
theorem commitTransactions_foldl_owned {σ : Type} (E : Backend σ) (gasPrice : Int)
    (l : List Transaction) (s : PassState σ)
    (h1 : ∀ a ∈ s.env.lowGasTransactors, a ∉ s.env.ownedAccounts)
    (h2 : ∀ x ∈ s.env.lowGasTxs, x.sender ∉ s.env.ownedAccounts) :
    (∀ a ∈ (l.foldl (commitTransactionsBody E gasPrice) s).env.lowGasTransactors,
      a ∉ s.env.ownedAccounts) ∧
    (∀ x ∈ (l.foldl (commitTransactionsBody E gasPrice) s).env.lowGasTxs,
      x.sender ∉ s.env.ownedAccounts) := by
  have key := foldl_keeps
    (fun (t : PassState σ) => t.env.ownedAccounts = s.env.ownedAccounts ∧
      (∀ a ∈ t.env.lowGasTransactors, a ∉ s.env.ownedAccounts) ∧
      (∀ x ∈ t.env.lowGasTxs, x.sender ∉ s.env.ownedAccounts))
    (commitTransactionsBody E gasPrice)
    (fun b a hb => by
      obtain ⟨ho, hb1, hb2⟩ := hb
      have hfr := (commitTransactionsBody_frame E gasPrice b a).2.2.1
      have := commitTransactionsBody_owned E gasPrice b a (by rw [ho]; exact hb1)
        (by rw [ho]; exact hb2)
      rw [ho] at this
      exact ⟨hfr.trans ho, this.1, this.2⟩)
    l s ⟨rfl, h1, h2⟩
  exact key.2

/-- A pass marks no owned sender as low-price and queues no transaction of an
owned sender in the low-price list, and leaves the owned accounts, the
configuration and the header number alone. -/
theorem commitTransactions_owned {σ : Type} (E : Backend σ) (gasPrice : Int)
    (l : List Transaction) (w : Work σ)
    (h1 : ∀ a ∈ w.lowGasTransactors, a ∉ w.ownedAccounts)
    (h2 : ∀ x ∈ w.lowGasTxs, x.sender ∉ w.ownedAccounts) :
    (∀ a ∈ (commitTransactions E w l gasPrice).env.lowGasTransactors, a ∉ w.ownedAccounts) ∧
    (∀ x ∈ (commitTransactions E w l gasPrice).env.lowGasTxs, x.sender ∉ w.ownedAccounts) ∧
    (commitTransactions E w l gasPrice).env.ownedAccounts = w.ownedAccounts ∧
    (commitTransactions E w l gasPrice).env.config = w.config ∧
    (commitTransactions E w l gasPrice).env.header.Number = w.header.Number := by
  have ho := commitTransactions_foldl_owned E gasPrice l
    { env := w, gp := GasPool.AddGas 0 w.header.GasLimit, coalescedLogs := [], executed := [] }
    h1 h2
  have hf := commitTransactions_foldl_frame E gasPrice l
    { env := w, gp := GasPool.AddGas 0 w.header.GasLimit, coalescedLogs := [], executed := [] }
  unfold commitTransactions
  exact ⟨ho.1, ho.2, hf.2.2.1, hf.1, hf.2.1⟩

/-- The same for a work that has gone through any number of passes. -/
theorem commitTransactions_passes_owned {σ : Type} (E : Backend σ)
    (earlier : List (List Transaction × Int)) (w : Work σ)
    (h1 : ∀ a ∈ w.lowGasTransactors, a ∉ w.ownedAccounts)
    (h2 : ∀ x ∈ w.lowGasTxs, x.sender ∉ w.ownedAccounts) :
    (∀ a ∈ (earlier.foldl (fun v p => (commitTransactions E v p.1 p.2).env)
      w).lowGasTransactors, a ∉ w.ownedAccounts) ∧
    (∀ x ∈ (earlier.foldl (fun v p => (commitTransactions E v p.1 p.2).env) w).lowGasTxs,
      x.sender ∉ w.ownedAccounts) ∧
    (earlier.foldl (fun v p => (commitTransactions E v p.1 p.2).env) w).ownedAccounts =
      w.ownedAccounts ∧
    (earlier.foldl (fun v p => (commitTransactions E v p.1 p.2).env) w).config = w.config ∧
    (earlier.foldl (fun v p => (commitTransactions E v p.1 p.2).env) w).header.Number =
      w.header.Number := by
  apply foldl_keeps (fun (v : Work σ) =>
    (∀ a ∈ v.lowGasTransactors, a ∉ w.ownedAccounts) ∧
    (∀ x ∈ v.lowGasTxs, x.sender ∉ w.ownedAccounts) ∧
    v.ownedAccounts = w.ownedAccounts ∧ v.config = w.config ∧
    v.header.Number = w.header.Number)
  · intro v p hv
    obtain ⟨a1, a2, a3, a4, a5⟩ := hv
    obtain ⟨b1, b2, b3, b4, b5⟩ := commitTransactions_owned E p.2 p.1 v
      (by rw [a3]; exact a1) (by rw [a3]; exact a2)
    rw [a3] at b1 b2
    exact ⟨b1, b2, b3.trans a3, b4.trans a4, b5.trans a5⟩
  · exact ⟨h1, h2, rfl, rfl, rfl⟩

/-- C17: in every pass on a work created by `makeCurrent` (the first pass or a
later one, after any number of earlier passes at any floor prices), a
transaction of a node-owned sender is never price-filtered, whatever the floor
price: its sender is not in the low-price transactor set after the pass, no
transaction of an owned sender is in the low-price removal list, and when the
transaction is not stopped by the replay-protection gate and its sender is not
in the ignored set at its turn, it is handed to the executor whatever its gas
price. -/
theorem commitTransactions_owned_not_filtered {σ : Type} (E : Backend σ)
    (chain : ChainReader σ) (self self1 : worker σ) (parent : Block) (header : Header)
    (work0 : Work σ) (earlier : List (List Transaction × Int)) (F : Int)
    (pre post : List Transaction) (tx : Transaction)
    (hmk : makeCurrent E chain self parent header = (self1, none))
    (hcur : self1.current = some work0)
    (hown : tx.sender ∈ work0.ownedAccounts) :
    tx.sender ∉ (commitTransactions E
      (earlier.foldl (fun v p => (commitTransactions E v p.1 p.2).env) work0)
      (pre ++ tx :: post) F).env.lowGasTransactors ∧
    (∀ x ∈ (commitTransactions E
      (earlier.foldl (fun v p => (commitTransactions E v p.1 p.2).env) work0)
      (pre ++ tx :: post) F).env.lowGasTxs, x.sender ∉ work0.ownedAccounts) ∧
    (¬ (tx.isProtected = true ∧ work0.config.IsDiehard work0.header.Number = false) →
      tx.sender ∉ (commitTransactions E
        (earlier.foldl (fun v p => (commitTransactions E v p.1 p.2).env) work0)
        pre F).env.ignoredTransactors →
      (commitTransactionsBody E F (commitTransactions E
        (earlier.foldl (fun v p => (commitTransactions E v p.1 p.2).env) work0)
        pre F) tx).executed =
        (commitTransactions E
          (earlier.foldl (fun v p => (commitTransactions E v p.1 p.2).env) work0)
          pre F).executed ++ [tx]) := by
  obtain ⟨w, hw, _, _, _, hlt, _, _, _, hlg, _⟩ :=
    makeCurrent_fresh E chain self self1 parent header hmk
  rw [hcur] at hw
  cases hw
  obtain ⟨e1, e2, e3, e4, e5⟩ := commitTransactions_passes_owned E earlier work0
    (by intro a ha; rw [hlg] at ha; simp at ha)
    (by intro x hx; rw [hlt] at hx; simp at hx)
  have hall : ∀ l : List Transaction,
      (∀ a ∈ (commitTransactions E
        (earlier.foldl (fun v p => (commitTransactions E v p.1 p.2).env) work0)
        l F).env.lowGasTransactors, a ∉ work0.ownedAccounts) ∧
      (∀ x ∈ (commitTransactions E
        (earlier.foldl (fun v p => (commitTransactions E v p.1 p.2).env) work0)
        l F).env.lowGasTxs, x.sender ∉ work0.ownedAccounts) ∧
      (commitTransactions E
        (earlier.foldl (fun v p => (commitTransactions E v p.1 p.2).env) work0)
        l F).env.ownedAccounts = work0.ownedAccounts ∧
      (commitTransactions E
        (earlier.foldl (fun v p => (commitTransactions E v p.1 p.2).env) work0)
        l F).env.config = work0.config ∧
      (commitTransactions E
        (earlier.foldl (fun v p => (commitTransactions E v p.1 p.2).env) work0)
        l F).env.header.Number = work0.header.Number := by
    intro l
    obtain ⟨b1, b2, b3, b4, b5⟩ := commitTransactions_owned E F l
      (earlier.foldl (fun v p => (commitTransactions E v p.1 p.2).env) work0)
      (by rw [e3]; exact e1) (by rw [e3]; exact e2)
    rw [e3] at b1 b2
    exact ⟨b1, b2, b3.trans e3, b4.trans e4, b5.trans e5⟩
  refine ⟨fun hmem => (hall _).1 _ hmem hown, (hall _).2.1, ?_⟩
  intro hgate hign
  obtain ⟨hm0, _, ho, hc, hn⟩ := hall pre
  have hg : ¬ (tx.isProtected = true ∧
      (commitTransactions E
        (earlier.foldl (fun v p => (commitTransactions E v p.1 p.2).env) work0)
        pre F).env.config.IsDiehard
        (commitTransactions E
          (earlier.foldl (fun v p => (commitTransactions E v p.1 p.2).env) work0)
          pre F).env.header.Number = false) := by
    rw [hc, hn]
    exact hgate
  have hl : ¬ (tx.gasPrice < F ∧
      tx.sender ∉ (commitTransactions E
        (earlier.foldl (fun v p => (commitTransactions E v p.1 p.2).env) work0)
        pre F).env.ownedAccounts) := by
    rw [ho]
    intro h
    exact h.2 hown
  have hm : tx.sender ∉ (commitTransactions E
      (earlier.foldl (fun v p => (commitTransactions E v p.1 p.2).env) work0)
      pre F).env.lowGasTransactors :=
    fun hmem => hm0 _ hmem hown
  rw [commitTransactionsBody_exec E F _ tx hg hl hm hign]
  split
  · split_ifs <;> rfl
  · rfl

/-- The witness of `commitTransactions_owned_not_filtered`: floor price 100; the
owned account 5 sends a transaction priced 50 after an underpriced transaction
of the unowned account 7, in the first pass on the example work. -/
theorem commitTransactions_owned_not_filtered_witness :
    (5 : Address) ∈ exWork.ownedAccounts ∧
    (5 : Address) ∉ (commitTransactions exBackend exWork
      ([{ hash := 1, sender := 7, gasPrice := 50, isProtected := false }] ++
        { hash := 3, sender := 5, gasPrice := 50, isProtected := false } :: []) 100
      ).env.lowGasTransactors ∧
    (commitTransactions exBackend exWork
      ([{ hash := 1, sender := 7, gasPrice := 50, isProtected := false }] ++
        { hash := 3, sender := 5, gasPrice := 50, isProtected := false } :: []) 100
      ).env.txs = [{ hash := 3, sender := 5, gasPrice := 50, isProtected := false }] :=
  ⟨by decide,
   (commitTransactions_owned_not_filtered exBackend exChain (newWorker exConfig 9) _
      exChain.CurrentBlock (exHeader 0 1) exWork [] 100
      [{ hash := 1, sender := 7, gasPrice := 50, isProtected := false }] []
      { hash := 3, sender := 5, gasPrice := 50, isProtected := false }
      rfl rfl (by decide)).1,
   by decide⟩

/-! ### The gas pool -/

/-- C20: for a pool with remaining capacity `c ≥ 0` and an amount `a` (in
particular every `a ≥ 0`): if `a ≤ c` then `SubGas(a)` succeeds and the capacity becomes exactly `c - a`; if
`a > c` then it fails with the out-of-gas error and the capacity stays `c`; and
no sequence of `AddGas` and `SubGas` operations with non-negative amounts leaves
the counter negative. -/
theorem GasPool_SubGas_contract (c a : Int) (hc : 0 ≤ c) :
    (a ≤ c → GasPool.SubGas c a = (c - a, none)) ∧
    (a > c → GasPool.SubGas c a = (c, some GasPoolError.OutOfGas)) ∧
    (∀ ops : List GasOp, (∀ op ∈ ops, 0 ≤ op.amount) → 0 ≤ GasPool.run c ops) ∧
    0 ≤ (GasPool.SubGas c a).1 := by
  have hsub : ∀ (g x : Int), 0 ≤ g → 0 ≤ (GasPool.SubGas g x).1 := by
    intro g x hg
    unfold GasPool.SubGas
    split_ifs with h
    · exact hg
    · show (0 : Int) ≤ g - x
      omega
  refine ⟨?_, ?_, ?_, hsub c a hc⟩
  · intro h
    unfold GasPool.SubGas
    rw [if_neg (by omega)]
  · intro h
    unfold GasPool.SubGas
    rw [if_pos h]
  · intro ops
    unfold GasPool.run
    induction ops generalizing c with
    | nil =>
      intro _
      simpa using hc
    | cons op rest ih =>
      intro hops
      rw [List.foldl_cons]
      apply ih
      · cases op with
        | AddGas x =>
          have hx : 0 ≤ x := hops (GasOp.AddGas x) (List.mem_cons_self _ _)
          show (0 : Int) ≤ c + x
          omega
        | SubGas x => exact hsub c x hc
      · intro o ho
        exact hops o (List.mem_cons_of_mem _ ho)

/-- The witness of `GasPool_SubGas_contract`: a pool of 10, from which 4 can be
taken and 11 cannot. -/
theorem GasPool_SubGas_contract_witness :
    GasPool.SubGas 10 4 = (6, none) ∧
    GasPool.SubGas 10 11 = (10, some GasPoolError.OutOfGas) ∧
    (0 : Int) ≤ GasPool.run 10 [GasOp.SubGas 4, GasOp.SubGas 11, GasOp.AddGas 2, GasOp.SubGas 8] :=
  ⟨(GasPool_SubGas_contract 10 4 (by decide)).1 (by decide),
   by decide,
   (GasPool_SubGas_contract 10 4 (by decide)).2.2.1
     [GasOp.SubGas 4, GasOp.SubGas 11, GasOp.AddGas 2, GasOp.SubGas 8] (by decide)⟩

/-! ### The candidate timestamp -/

/-- The counterexample to C15 as stated: the wall clock reads 0 and the parent's
timestamp is 2^63 - 1.  `parent.Time().Int64() + 1` wraps around: the draft
header's timestamp is -2^63, not `max(0, 2^63)`, and it is below the parent's
timestamp. -/
theorem commitNewWorkTimestamp_counterexample :
    (exChainAt 9223372036854775807).CurrentBlock.header.Time = 9223372036854775807 ∧
    (commitNewWorkHeader exBackend (exChainAt 9223372036854775807)
      (newWorker exConfig 9) 0).Time = -9223372036854775808 ∧
    max (0 : Int) (9223372036854775807 + 1) = 9223372036854775808 := by
  refine ⟨by decide, by decide, by decide⟩

/-- C15 (amended): for every wall-clock time `now` that is an `int64` and every
parent timestamp `p` below 2^63 - 1, the timestamp of the draft header built by
`commitNewWork` equals `max(now, p + 1)`; it is then strictly greater than the
parent's timestamp and not less than `now`. -/
theorem commitNewWorkTimestamp_max {σ : Type} (E : Backend σ) (chain : ChainReader σ)
    (self : worker σ) (now : Int)
    (hnow : -9223372036854775808 ≤ now)
    (hp : chain.CurrentBlock.header.Time < 9223372036854775807) :
    (commitNewWorkHeader E chain self now).Time =
        commitNewWorkTimestamp now chain.CurrentBlock.header.Time ∧
    (commitNewWorkHeader E chain self now).Time =
        max now (chain.CurrentBlock.header.Time + 1) ∧
    chain.CurrentBlock.header.Time < (commitNewWorkHeader E chain self now).Time ∧
    now ≤ (commitNewWorkHeader E chain self now).Time := by
  have ht : commitNewWorkTimestamp now chain.CurrentBlock.header.Time =
      max now (chain.CurrentBlock.header.Time + 1) := by
    unfold commitNewWorkTimestamp
    dsimp only
    split_ifs with h
    · have h1 : wrap64 chain.CurrentBlock.header.Time = chain.CurrentBlock.header.Time := by
        unfold wrap64
        omega
      rw [h1]
      unfold wrap64
      omega
    · omega
  have hT : (commitNewWorkHeader E chain self now).Time =
      commitNewWorkTimestamp now chain.CurrentBlock.header.Time := rfl
  rw [hT, ht]
  refine ⟨rfl, rfl, ?_, ?_⟩ <;> omega

/-- The witness of `commitNewWorkTimestamp_max`: the example chain, whose head
has timestamp 0, at wall-clock time 5 and at wall-clock time 0. -/
theorem commitNewWorkTimestamp_max_witness :
    (commitNewWorkHeader exBackend exChain (newWorker exConfig 9) 5).Time = max 5 (0 + 1) ∧
    (commitNewWorkHeader exBackend exChain (newWorker exConfig 9) 0).Time = 1 :=
  ⟨(commitNewWorkTimestamp_max exBackend exChain (newWorker exConfig 9) 5
      (by decide) (by decide)).2.1,
   by decide⟩

/-! ### The pending-uncle pool -/

/-- Once two uncles are accepted the uncle loop changes nothing. -/
theorem commitNewWorkUncles_done {σ : Type} (hashOf : Header → Hash)
    (pool : List (Hash × Block)) (s : UncleLoop σ) (h : s.uncles.length = 2) :
    commitNewWorkUncles hashOf pool s = s := by
  cases pool with
  | nil => rw [commitNewWorkUncles]
  | cons p rest =>
    obtain ⟨hash, uncle⟩ := p
    rw [commitNewWorkUncles, if_pos h]

/-- The uncle loop over a pool is the loop over its first part followed by the
loop over the rest. -/
theorem commitNewWorkUncles_append {σ : Type} (hashOf : Header → Hash)
    (a b : List (Hash × Block)) (s : UncleLoop σ) :
    commitNewWorkUncles hashOf (a ++ b) s =
      commitNewWorkUncles hashOf b (commitNewWorkUncles hashOf a s) := by
  induction a generalizing s with
  | nil => simp [commitNewWorkUncles]
  | cons p rest ih =>
    obtain ⟨hash, uncle⟩ := p
    rw [List.cons_append, commitNewWorkUncles, commitNewWorkUncles]
    split_ifs with h2
    · rw [commitNewWorkUncles_done hashOf b s h2]
    · dsimp only
      split
      · exact ih _
      · exact ih _

/-- The list of bad uncles only gets longer in the uncle loop. -/
theorem commitNewWorkUncles_bad_mono {σ : Type} (hashOf : Header → Hash)
    (pool : List (Hash × Block)) (s : UncleLoop σ) (k : Hash) (hk : k ∈ s.badUncles) :
    k ∈ (commitNewWorkUncles hashOf pool s).badUncles := by
  induction pool generalizing s with
  | nil => simpa [commitNewWorkUncles] using hk
  | cons p rest ih =>
    obtain ⟨hash, uncle⟩ := p
    rw [commitNewWorkUncles]
    split_ifs with h2
    · exact hk
    · dsimp only
      split
      · apply ih
        exact List.mem_append_left _ hk
      · apply ih
        exact hk

/-- Every bad uncle of the uncle loop was bad before or is a key of the pool. -/
theorem commitNewWorkUncles_bad_mem {σ : Type} (hashOf : Header → Hash)
    (pool : List (Hash × Block)) (s : UncleLoop σ) (k : Hash)
    (hk : k ∈ (commitNewWorkUncles hashOf pool s).badUncles) :
    k ∈ s.badUncles ∨ k ∈ pool.map Prod.fst := by
  induction pool generalizing s with
  | nil => exact Or.inl (by simpa [commitNewWorkUncles] using hk)
  | cons p rest ih =>
    obtain ⟨hash, uncle⟩ := p
    rw [commitNewWorkUncles] at hk
    split_ifs at hk with h2
    · exact Or.inl hk
    · dsimp only at hk
      split at hk
      · rcases ih _ hk with h | h
        · rcases List.mem_append.mp h with h | h
          · exact Or.inl h
          · right
            rw [List.mem_singleton.mp h]
            simp
        · right
          simp only [List.map_cons, List.mem_cons]
          exact Or.inr h
      · rcases ih _ hk with h | h
        · exact Or.inl h
        · right
          simp only [List.map_cons, List.mem_cons]
          exact Or.inr h

/-- The deletion of the bad uncles (lines 552-554) after the uncle loop, for a
pool whose keys are distinct (it is a Go map): an entry is gone exactly when the
loop visited it (fewer than two uncles were accepted before its turn) and
`commitUncle` returned an error for it; the pool is otherwise unchanged. -/
theorem commitNewWorkUncles_delete {σ : Type} (hashOf : Header → Hash)
    (pool pre post : List (Hash × Block)) (p : Hash × Block) (s0 : UncleLoop σ)
    (hkeys : (pool.map Prod.fst).Nodup) (hs0 : s0.badUncles = [])
    (hsplit : pool = pre ++ p :: post) :
    (((commitNewWorkUncles hashOf pre s0).uncles.length ≠ 2 ∧
        (commitUncle hashOf (commitNewWorkUncles hashOf pre s0).work p.2.header).2 ≠ none) →
      p ∉ pool.filter
        (fun q => decide (q.1 ∉ (commitNewWorkUncles hashOf pool s0).badUncles))) ∧
    (¬ ((commitNewWorkUncles hashOf pre s0).uncles.length ≠ 2 ∧
        (commitUncle hashOf (commitNewWorkUncles hashOf pre s0).work p.2.header).2 ≠ none) →
      p ∈ pool.filter
        (fun q => decide (q.1 ∉ (commitNewWorkUncles hashOf pool s0).badUncles))) ∧
    (pool.filter
      (fun q => decide (q.1 ∉ (commitNewWorkUncles hashOf pool s0).badUncles))).Sublist
      pool := by
  have hpmem : p ∈ pool := by
    rw [hsplit]
    simp
  have hrun : commitNewWorkUncles hashOf pool s0 =
      commitNewWorkUncles hashOf (p :: post) (commitNewWorkUncles hashOf pre s0) := by
    rw [hsplit, commitNewWorkUncles_append]
  rw [hsplit, List.map_append, List.map_cons] at hkeys
  have hnd := List.nodup_append.mp hkeys
  have hp_pre : p.1 ∉ pre.map Prod.fst := by
    intro h
    exact hnd.2.2 h (List.mem_cons_self _ _)
  have hp_post : p.1 ∉ post.map Prod.fst := (List.nodup_cons.mp hnd.2.1).1
  have hbad_pre : p.1 ∉ (commitNewWorkUncles hashOf pre s0).badUncles := by
    intro h
    rcases commitNewWorkUncles_bad_mem hashOf pre s0 p.1 h with h | h
    · rw [hs0] at h
      simp at h
    · exact hp_pre h
  obtain ⟨hash, uncle⟩ := p
  refine ⟨?_, ?_, List.filter_sublist _⟩
  · rintro ⟨hlen, herr⟩ hmem
    have hin := (List.mem_filter.mp hmem).2
    have hbad : hash ∈ (commitNewWorkUncles hashOf pool s0).badUncles := by
      rw [hrun, commitNewWorkUncles, if_neg hlen]
      dsimp only
      split
      · apply commitNewWorkUncles_bad_mono
        simp
      · rename_i he
        exact absurd he herr
    simp [hbad] at hin
  · intro hnot
    apply List.mem_filter.mpr
    refine ⟨hpmem, ?_⟩
    have hnbad : hash ∉ (commitNewWorkUncles hashOf pool s0).badUncles := by
      rw [hrun, commitNewWorkUncles]
      split_ifs with hlen
      · exact hbad_pre
      · dsimp only
        split
        · rename_i e he
          exfalso
          apply hnot
          refine ⟨hlen, ?_⟩
          dsimp only at he ⊢
          rw [he]
          simp
        · intro h
          rcases commitNewWorkUncles_bad_mem hashOf post _ hash h with h | h
          · exact hbad_pre h
          · exact hp_post h
    simp [hnbad]

/-- The method `push` writes nothing but the in-flight counter. -/
theorem push_frame {σ : Type} (self : worker σ) (work : Work σ) :
    (push self work).1.possibleUncles = self.possibleUncles ∧
    (push self work).1.current = self.current ∧
    (push self work).1.mining = self.mining ∧
    (push self work).1.agents = self.agents := by
  unfold push
  split_ifs <;> simp

/-- What a successful `makeCurrent` leaves of the worker: everything but
`current`. -/
theorem makeCurrent_frame {σ : Type} (E : Backend σ) (chain : ChainReader σ)
    (self self1 : worker σ) (parent : Block) (header : Header) (err : Option ExecError)
    (h : makeCurrent E chain self parent header = (self1, err)) :
    self1.possibleUncles = self.possibleUncles ∧ self1.gasPrice = self.gasPrice ∧
    self1.mining = self.mining ∧ self1.atWork = self.atWork ∧
    self1.agents = self.agents ∧ self1.coinbase = self.coinbase := by
  unfold makeCurrent at h
  split at h
  · simp only [Prod.mk.injEq] at h
    rw [← h.1]
    exact ⟨rfl, rfl, rfl, rfl, rfl, rfl⟩
  · simp only [Prod.mk.injEq] at h
    rw [← h.1]
    exact ⟨rfl, rfl, rfl, rfl, rfl, rfl⟩

/-- The pending-uncle pool after an assembly cycle whose `makeCurrent` succeeded:
the pool before it without the entries whose key the uncle loop put in
`badUncles`. -/
theorem commitNewWork_possibleUncles {σ : Type} (E : Backend σ) (chain : ChainReader σ)
    (self self1 : worker σ) (now : Int) (transactions : List Transaction) (work : Work σ)
    (hmk : makeCurrent E chain self chain.CurrentBlock (commitNewWorkHeader E chain self now) =
      (self1, none))
    (hcur : self1.current = some work) :
    (commitNewWork E chain self now transactions).self.possibleUncles =
      self.possibleUncles.filter (fun q => decide (q.1 ∉
        (commitNewWorkUncles E.hashOf self.possibleUncles
          { work := (commitTransactions E work transactions self.gasPrice).env,
            uncles := [], badUncles := [] }).badUncles)) := by
  obtain ⟨hpu, hgp, _⟩ := makeCurrent_frame E chain self self1 _ _ _ hmk
  unfold commitNewWork
  simp only [hmk, hcur]
  rw [(push_frame _ _).1]
  simp only [hpu, hgp]

/-- C18: after the uncle-selection loop of an assembly cycle (on a pool with
distinct keys, as a Go map has), a candidate of the pool is gone from the
pending-uncle pool exactly when the loop reached it and `commitUncle` returned an
error for it; every other entry (accepted, or not visited because two uncles
had been accepted) is still in the pool, and nothing else is changed: the pool
after the cycle is a sublist of the pool before it. -/
theorem commitNewWork_pool_after {σ : Type} (E : Backend σ) (chain : ChainReader σ)
    (self self1 : worker σ) (now : Int) (transactions : List Transaction) (work : Work σ)
    (pre post : List (Hash × Block)) (p : Hash × Block)
    (hmk : makeCurrent E chain self chain.CurrentBlock (commitNewWorkHeader E chain self now) =
      (self1, none))
    (hcur : self1.current = some work)
    (hkeys : (self.possibleUncles.map Prod.fst).Nodup)
    (hsplit : self.possibleUncles = pre ++ p :: post) :
    (((commitNewWorkUncles E.hashOf pre
          { work := (commitTransactions E work transactions self.gasPrice).env,
            uncles := [], badUncles := [] }).uncles.length ≠ 2 ∧
        (commitUncle E.hashOf (commitNewWorkUncles E.hashOf pre
          { work := (commitTransactions E work transactions self.gasPrice).env,
            uncles := [], badUncles := [] }).work p.2.header).2 ≠ none) →
      p ∉ (commitNewWork E chain self now transactions).self.possibleUncles) ∧
    (¬ ((commitNewWorkUncles E.hashOf pre
          { work := (commitTransactions E work transactions self.gasPrice).env,
            uncles := [], badUncles := [] }).uncles.length ≠ 2 ∧
        (commitUncle E.hashOf (commitNewWorkUncles E.hashOf pre
          { work := (commitTransactions E work transactions self.gasPrice).env,
            uncles := [], badUncles := [] }).work p.2.header).2 ≠ none) →
      p ∈ (commitNewWork E chain self now transactions).self.possibleUncles) ∧
    (commitNewWork E chain self now transactions).self.possibleUncles.Sublist
      self.possibleUncles := by
  rw [commitNewWork_possibleUncles E chain self self1 now transactions work hmk hcur]
  exact commitNewWorkUncles_delete E.hashOf self.possibleUncles pre post p
    { work := (commitTransactions E work transactions self.gasPrice).env,
      uncles := [], badUncles := [] } hkeys rfl hsplit

/-- The witness of `commitNewWork_pool_after`: the pool holds a candidate with
an unknown parent and a valid one; after the cycle only the valid one is left. -/
theorem commitNewWork_pool_after_witness :
    (commitNewWork exBackend exChain exUncleWorker 5 []).self.possibleUncles =
      [(2, exBlock (exHeader 0 1))] ∧
    (9, exBlock (exHeader 7 1)) ∉
      (commitNewWork exBackend exChain exUncleWorker 5 []).self.possibleUncles :=
  ⟨by decide,
   (commitNewWork_pool_after exBackend exChain exUncleWorker _ 5 []
      { exWork with header := commitNewWorkHeader exBackend exChain exUncleWorker 5 }
      [] [(2, exBlock (exHeader 0 1))] (9, exBlock (exHeader 7 1))
      rfl rfl (by decide) rfl).1 ⟨by decide, by decide⟩⟩

/-! ### The ring buffer of locally mined blocks -/

/-- The search of `isBlockLocallyMined` finds a slot exactly when the number is
an entry of the list, and keeps the length of the list. -/
theorem zeroFirst_found (n : Nat) (l : List Nat) :
    ((zeroFirst n l).2 = true ↔ n ∈ l) ∧ (zeroFirst n l).1.length = l.length := by
  induction l with
  | nil => simp [zeroFirst]
  | cons x xs ih =>
    rw [zeroFirst]
    by_cases h : n = x
    · rw [if_pos h]
      simp [h]
    · rw [if_neg h]
      simp only [List.mem_cons, List.length_cons]
      refine ⟨?_, by rw [ih.2]⟩
      rw [ih.1]
      constructor
      · intro hm
        exact Or.inr hm
      · intro hm
        rcases hm with hm | hm
        · exact absurd hm h
        · exact hm

/-- C13: for a work with a ring buffer and a height `n`, `isBlockLocallyMined`
returns true exactly when `n` is an entry of the ring buffer and the chain
store has a canonical block at height `n` whose coinbase is the coordinator's;
so for a recorded entry it reports a confirmation exactly when the canonical
block at that height pays the coordinator's coinbase. -/
theorem isBlockLocallyMined_iff {σ : Type} (chain : ChainReader σ) (self : worker σ)
    (current : Work σ) (rb : uint64RingBuffer) (n : Nat)
    (hrb : current.localMinedBlocks = some rb) :
    ∃ (w : Work σ) (b : Bool), isBlockLocallyMined chain self current n = some (w, b) ∧
      (b = true ↔ (n ∈ rb.ints ∧ ∃ block : Block,
        chain.GetBlockByNumber n = some block ∧ block.header.Coinbase = self.coinbase)) ∧
      (n ∈ rb.ints → (b = true ↔ ∃ block : Block,
        chain.GetBlockByNumber n = some block ∧ block.header.Coinbase = self.coinbase)) := by
  have hz := (zeroFirst_found n rb.ints).1
  unfold isBlockLocallyMined
  rw [hrb]
  dsimp only
  by_cases hfound : (zeroFirst n rb.ints).2 = false
  · rw [if_pos hfound]
    have hnot : n ∉ rb.ints := by
      intro hm
      rw [hz.mpr hm] at hfound
      cases hfound
    refine ⟨_, false, rfl, ?_, ?_⟩
    · simp [hnot]
    · intro hm
      exact absurd hm hnot
  · rw [if_neg hfound]
    have hmem : n ∈ rb.ints := by
      apply hz.mp
      cases hb : (zeroFirst n rb.ints).2 with
      | true => rfl
      | false => exact absurd hb hfound
    cases hblk : chain.GetBlockByNumber n with
    | none =>
      refine ⟨_, false, rfl, ?_, ?_⟩
      · simp
      · intro _
        simp
    | some block =>
      refine ⟨_, decide (block.header.Coinbase = self.coinbase), rfl, ?_, ?_⟩
      · simp [hmem]
      · intro _
        simp

/-- The witness of `isBlockLocallyMined_iff`: the ring buffer records heights 3
and 4; the canonical block at height 3 pays the coordinator 9, the one at
height 4 does not. -/
theorem isBlockLocallyMined_iff_witness :
    (isBlockLocallyMined exCanonChain (newWorker exConfig 9) exRingWork 3).map Prod.snd =
      some true ∧
    (isBlockLocallyMined exCanonChain (newWorker exConfig 9) exRingWork 4).map Prod.snd =
      some false ∧
    ∃ (w : Work Unit) (b : Bool),
      isBlockLocallyMined exCanonChain (newWorker exConfig 9) exRingWork 3 = some (w, b) ∧
      (b = true ↔ ((3 : Nat) ∈ [3, 4, 0, 0, 0, 0] ∧ ∃ block : Block,
        exCanonChain.GetBlockByNumber 3 = some block ∧ block.header.Coinbase = 9)) :=
  ⟨by decide, by decide,
   let ⟨w, b, h1, h2, _⟩ := isBlockLocallyMined_iff exCanonChain (newWorker exConfig 9)
     exRingWork { ints := [3, 4, 0, 0, 0, 0], next := 2 } 3 rfl
   ⟨w, b, h1, h2⟩⟩

/-- The record of a block number in a ring buffer that is nil or satisfies
`0 ≤ next < len(ints)`: `newLocalMinedBlock` does not panic, the number is in
the slot of the previous insertion index (slot 0 of a fresh buffer), the length
is kept (6 for a fresh buffer) and `0 ≤ next < len(ints)` holds again. -/
theorem newLocalMinedBlock_records (n : Nat) (prev : Option uint64RingBuffer)
    (hwf : ∀ rb, prev = some rb → 0 ≤ rb.next ∧ rb.next < rb.ints.length) :
    ∃ rb1 : uint64RingBuffer, newLocalMinedBlock n prev = some rb1 ∧
      rb1.ints[(match prev with
        | none => 0
        | some rb => rb.next.toNat)]? = some n ∧
      n ∈ rb1.ints ∧
      rb1.ints.length = (match prev with
        | none => miningLogAtDepth + 1
        | some rb => rb.ints.length) ∧
      0 ≤ rb1.next ∧ rb1.next < rb1.ints.length := by
  cases prev with
  | none =>
    refine ⟨{ ints := [n, 0, 0, 0, 0, 0], next := 1 }, ?_, ?_, ?_, ?_, ?_, ?_⟩
    · rfl
    · rfl
    · simp
    · rfl
    · show (0 : Int) ≤ 1
      decide
    · show (1 : Int) < ((6 : Nat) : Int)
      decide
  | some rb =>
    obtain ⟨hlo, hhi⟩ := hwf rb rfl
    have hidx : rb.next.toNat < rb.ints.length := by omega
    have hget : (rb.ints.set rb.next.toNat n)[rb.next.toNat]? = some n :=
      List.getElem?_set_self hidx
    refine ⟨{ ints := rb.ints.set rb.next.toNat n,
              next := (rb.next + 1) % rb.ints.length }, ?_, hget, ?_, ?_, ?_, ?_⟩
    · unfold newLocalMinedBlock
      dsimp only
      rw [if_pos ⟨hlo, hhi⟩]
    · exact List.getElem?_mem hget
    · simp
    · dsimp only
      apply Int.emod_nonneg
      omega
    · dsimp only
      rw [List.length_set]
      apply Int.emod_lt_of_pos
      omega

/-- The staleness check and record do not panic on a work whose ring buffer is
nil or satisfies `0 ≤ next < len(ints)`. -/
theorem waitStaleness_total {σ : Type} (E : Backend σ) (chain : ChainReader σ)
    (block : Block) (work : Work σ)
    (hwf : ∀ rb, work.localMinedBlocks = some rb → 0 ≤ rb.next ∧ rb.next < rb.ints.length) :
    ∃ (work1 : Work σ) (stale : Bool),
      waitStaleness E chain block work = some (work1, stale) ∧
      (stale = true → work1 = work) := by
  obtain ⟨rb1, hnew, _⟩ :=
    newLocalMinedBlock_records block.NumberU64 work.localMinedBlocks hwf
  unfold waitStaleness
  dsimp only
  split_ifs with h
  · exact ⟨_, true, rfl, fun _ => rfl⟩
  · rw [hnew]
    exact ⟨_, false, rfl, by simp⟩

/-- C12: for a result that reaches the staleness check, with a work whose ring
buffer is nil or satisfies `0 ≤ next < len(ints)`: the result is marked stale
exactly when the chain store has a canonical block at the height of the produced
block whose hash differs from the hash of the produced block; when it is stale
the work, so its ring buffer, is unchanged; when it is not stale the ring buffer
of the work contains the number of the produced block afterwards, in the slot
of the previous insertion index. -/
theorem waitStaleness_contract {σ : Type} (E : Backend σ) (chain : ChainReader σ)
    (block : Block) (work : Work σ)
    (hwf : ∀ rb, work.localMinedBlocks = some rb → 0 ≤ rb.next ∧ rb.next < rb.ints.length) :
    ∃ (work1 : Work σ) (stale : Bool),
      waitStaleness E chain block work = some (work1, stale) ∧
      (stale = true ↔ ∃ cb : Block, chain.GetBlockByNumber block.NumberU64 = some cb ∧
        E.hashOf cb.header ≠ E.hashOf block.header) ∧
      (stale = true → work1 = work) ∧
      (stale = false → ∃ rb1 : uint64RingBuffer, work1.localMinedBlocks = some rb1 ∧
        block.NumberU64 ∈ rb1.ints ∧
        rb1.ints[(match work.localMinedBlocks with
          | none => 0
          | some rb => rb.next.toNat)]? = some block.NumberU64) := by
  obtain ⟨rb1, hnew, hslot, hmem, _⟩ :=
    newLocalMinedBlock_records block.NumberU64 work.localMinedBlocks hwf
  unfold waitStaleness
  dsimp only
  cases hcb : chain.GetBlockByNumber block.NumberU64 with
  | none =>
    dsimp only
    rw [if_neg (by simp), hnew]
    refine ⟨_, false, rfl, by simp, by simp, ?_⟩
    intro _
    exact ⟨rb1, rfl, hmem, hslot⟩
  | some cb =>
    dsimp only
    by_cases hne : E.hashOf cb.header ≠ E.hashOf block.header
    · rw [if_pos (by simpa using hne)]
      refine ⟨_, true, rfl, ?_, fun _ => rfl, by simp⟩
      simp only [true_iff]
      exact ⟨cb, rfl, hne⟩
    · rw [if_neg (by simpa using hne), hnew]
      refine ⟨_, false, rfl, ?_, by simp, ?_⟩
      · simp only [Bool.false_eq_true, false_iff]
        rintro ⟨cb2, h1, h2⟩
        cases h1
        exact hne h2
      · intro _
        exact ⟨rb1, rfl, hmem, hslot⟩

/-- The witness of `waitStaleness_contract`: the produced block of height 3 is
the canonical block of the example chain at that height (hash 6), the work has
no ring buffer yet; the result is not stale and a fresh buffer records 3. -/
theorem waitStaleness_contract_witness :
    waitStaleness exBackend exCanonChain (exBlock (exHeaderBy 0 3 9)) exWork =
      some ({ exWork with localMinedBlocks := some { ints := [3, 0, 0, 0, 0, 0], next := 1 } },
        false) ∧
    ∃ (work1 : Work Unit) (stale : Bool),
      waitStaleness exBackend exCanonChain (exBlock (exHeaderBy 0 3 9)) exWork =
        some (work1, stale) ∧
      (stale = true ↔ ∃ cb : Block,
        exCanonChain.GetBlockByNumber (exBlock (exHeaderBy 0 3 9)).NumberU64 = some cb ∧
        exBackend.hashOf cb.header ≠ exBackend.hashOf (exBlock (exHeaderBy 0 3 9)).header) :=
  ⟨rfl,
   let ⟨w, b, h1, h2, _⟩ := waitStaleness_contract exBackend exCanonChain
     (exBlock (exHeaderBy 0 3 9)) exWork (by intro rb h; cases h)
   ⟨w, b, h1, h2⟩⟩

/-! ### The drain loop -/

/-- When the validation and write part of a drain turn discards the result and
when it lets the turn proceed; the ring buffer of the work is not touched by
it. -/
theorem waitValidate_cases {σ : Type} (X : DrainEnv σ) (self : worker σ) (block : Block)
    (work : Work σ) :
    (((self.fullValidation = true ∧ X.InsertChain block ≠ none) ∨
      (self.fullValidation = false ∧
        (X.GetBlock block.header.ParentHash = none ∨
         ∃ parent : Block, X.GetBlock block.header.ParentHash = some parent ∧
           ((∃ err, X.ValidateHeader block.header parent.header = some err ∧
              err ≠ X.BlockFutureErr) ∨
            (X.WriteBlock block).2 ≠ none)))) →
      ∃ w, waitValidate X self block work = Validated.discard w) ∧
    (¬ ((self.fullValidation = true ∧ X.InsertChain block ≠ none) ∨
      (self.fullValidation = false ∧
        (X.GetBlock block.header.ParentHash = none ∨
         ∃ parent : Block, X.GetBlock block.header.ParentHash = some parent ∧
           ((∃ err, X.ValidateHeader block.header parent.header = some err ∧
              err ≠ X.BlockFutureErr) ∨
            (X.WriteBlock block).2 ≠ none)))) →
      ∃ w a, waitValidate X self block work = Validated.proceed w a ∧
        w.localMinedBlocks = work.localMinedBlocks) := by
  unfold waitValidate
  cases hfv : self.fullValidation with
  | true =>
    cases hins : X.InsertChain block with
    | none => simp
    | some e => simp
  | false =>
    cases hgb : X.GetBlock block.header.ParentHash with
    | none => simp
    | some parent =>
      rcases hwb : X.WriteBlock block with ⟨stat, werr⟩
      cases hvh : X.ValidateHeader block.header parent.header with
      | none =>
        cases werr with
        | none => simp [hwb, hvh]
        | some e => simp [hwb, hvh]
      | some err =>
        by_cases hfut : err = X.BlockFutureErr
        · cases werr with
          | none => simp [hwb, hvh, hfut]
          | some e => simp [hwb, hvh, hfut]
        · simp [hvh, hfut]

/-- The counterexample to C11 as stated: a result whose declared parent (hash
77) is unknown to the chain store is discarded, and so is a nil result; in both
turns the drain loop goes on to the next result without a call of
`commitNewWork`. -/
theorem waitBody_counterexample :
    exDrainEnv.GetBlock (exResult 77).Block.header.ParentHash = none ∧
    (waitBody exBackend exDrainEnv (newWorker exConfig 9) (some (exResult 77))).map
      (fun out => out.cycles.length) = some 0 ∧
    (waitBody exBackend exDrainEnv (newWorker exConfig 9) none).map
      (fun out => out.cycles.length) = some 0 := by
  refine ⟨by decide, by decide, by decide⟩

/-- C11 (amended): a turn of the drain loop calls `commitNewWork` exactly once
when the result is processed to the end, and not at all when the result is nil
or discarded: by a failed full validation, or, on the fast path, by an unknown
parent, a header validation error other than the future-block error, or a
chain-store write error.  (The ring buffer of the result's work is nil or
satisfies `0 ≤ next < len(ints)`.) -/
theorem waitBody_cycles {σ : Type} (E : Backend σ) (X : DrainEnv σ) (self : worker σ)
    (result : Result σ)
    (hwf : ∀ rb, result.Work.localMinedBlocks = some rb →
      0 ≤ rb.next ∧ rb.next < rb.ints.length) :
    (∃ out, waitBody E X self none = some out ∧ out.cycles = []) ∧
    (((self.fullValidation = true ∧ X.InsertChain result.Block ≠ none) ∨
      (self.fullValidation = false ∧
        (X.GetBlock result.Block.header.ParentHash = none ∨
         ∃ parent : Block, X.GetBlock result.Block.header.ParentHash = some parent ∧
           ((∃ err, X.ValidateHeader result.Block.header parent.header = some err ∧
              err ≠ X.BlockFutureErr) ∨
            (X.WriteBlock result.Block).2 ≠ none)))) →
      ∃ out, waitBody E X self (some result) = some out ∧ out.cycles = [] ∧
        out.stale = none) ∧
    (¬ ((self.fullValidation = true ∧ X.InsertChain result.Block ≠ none) ∨
      (self.fullValidation = false ∧
        (X.GetBlock result.Block.header.ParentHash = none ∨
         ∃ parent : Block, X.GetBlock result.Block.header.ParentHash = some parent ∧
           ((∃ err, X.ValidateHeader result.Block.header parent.header = some err ∧
              err ≠ X.BlockFutureErr) ∨
            (X.WriteBlock result.Block).2 ≠ none)))) →
      ∃ out, waitBody E X self (some result) = some out ∧ out.cycles.length = 1 ∧
        out.stale ≠ none) := by
  have hv := waitValidate_cases X (waitReceive self) result.Block result.Work
  have hfv : (waitReceive self).fullValidation = self.fullValidation := rfl
  rw [hfv] at hv
  refine ⟨⟨_, rfl, rfl⟩, ?_, ?_⟩
  · intro hD
    obtain ⟨w, hw⟩ := hv.1 hD
    unfold waitBody
    simp only [hw]
    exact ⟨_, rfl, rfl, rfl⟩
  · intro hD
    obtain ⟨w, a, hw, hring⟩ := hv.2 hD
    obtain ⟨w1, stale, hst, _⟩ := waitStaleness_total E X.chain result.Block w
      (by rw [hring]; exact hwf)
    unfold waitBody
    simp only [hw, hst]
    exact ⟨_, rfl, rfl, by simp⟩

/-- The witness of `waitBody_cycles`: a result on the known parent of hash 0 is
processed to the end and triggers one assembly cycle. -/
theorem waitBody_cycles_witness :
    (waitBody exBackend exDrainEnv (newWorker exConfig 9) (some (exResult 0))).map
      (fun out => out.cycles.length) = some 1 ∧
    ∃ out, waitBody exBackend exDrainEnv (newWorker exConfig 9) none = some out ∧
      out.cycles = [] :=
  ⟨by decide,
   (waitBody_cycles exBackend exDrainEnv (newWorker exConfig 9) (exResult 0)
      (by intro rb h; cases h)).1⟩

/-! ### Chain generation -/

/-- No method of `BlockGen` writes the number or the parent hash of the
header. -/
theorem BlockGen_call_frame {σ : Type} (E : Backend σ) (G : GenEnv σ) (b b1 : BlockGen σ)
    (op : GenOp) (h : b.call E G op = some b1) :
    b1.header.Number = b.header.Number ∧ b1.header.ParentHash = b.header.ParentHash := by
  cases op with
  | SetCoinbase addr =>
    simp only [BlockGen.call, BlockGen.SetCoinbase] at h
    split at h
    · cases h
    · simp only [Option.some.injEq] at h
      rw [← h]
      exact ⟨rfl, rfl⟩
  | SetExtra data =>
    simp only [BlockGen.call, BlockGen.SetExtra, Option.some.injEq] at h
    rw [← h]
    exact ⟨rfl, rfl⟩
  | AddTx tx =>
    simp only [BlockGen.call, BlockGen.AddTx, BlockGen.SetCoinbase] at h
    cases hgp : b.gasPool with
    | none =>
      simp only [hgp] at h
      split at h
      · cases h
      · simp only [Option.some.injEq] at h
        rw [← h]
        exact ⟨rfl, rfl⟩
    | some gp =>
      simp only [hgp] at h
      split at h
      · cases h
      · simp only [Option.some.injEq] at h
        rw [← h]
        exact ⟨rfl, rfl⟩
  | Number =>
    simp only [BlockGen.call, Option.some.injEq] at h
    rw [← h]
    exact ⟨rfl, rfl⟩
  | AddUncheckedReceipt receipt =>
    simp only [BlockGen.call, BlockGen.AddUncheckedReceipt, Option.some.injEq] at h
    rw [← h]
    exact ⟨rfl, rfl⟩
  | TxNonce addr =>
    simp only [BlockGen.call, Option.map_eq_some'] at h
    obtain ⟨_, _, h⟩ := h
    rw [← h]
    exact ⟨rfl, rfl⟩
  | AddUncle u =>
    simp only [BlockGen.call, BlockGen.AddUncle, Option.some.injEq] at h
    rw [← h]
    exact ⟨rfl, rfl⟩
  | PrevBlock index =>
    simp only [BlockGen.call, Option.map_eq_some'] at h
    obtain ⟨_, _, h⟩ := h
    rw [← h]
    exact ⟨rfl, rfl⟩
  | OffsetTime seconds =>
    simp only [BlockGen.call, BlockGen.OffsetTime] at h
    split_ifs at h
    simp only [Option.some.injEq] at h
    rw [← h]
    exact ⟨rfl, rfl⟩

/-- No sequence of method calls writes the number or the parent hash of the
header. -/
theorem BlockGen_calls_frame {σ : Type} (E : Backend σ) (G : GenEnv σ) (ops : List GenOp)
    (b b1 : BlockGen σ) (h : BlockGen.calls E G b ops = some b1) :
    b1.header.Number = b.header.Number ∧ b1.header.ParentHash = b.header.ParentHash := by
  induction ops generalizing b with
  | nil =>
    simp only [BlockGen.calls, Option.some.injEq] at h
    rw [← h]
    exact ⟨rfl, rfl⟩
  | cons op rest ih =>
    rw [BlockGen.calls] at h
    cases hc : b.call E G op with
    | none => rw [hc] at h; cases h
    | some b2 =>
      rw [hc] at h
      obtain ⟨h1, h2⟩ := BlockGen_call_frame E G b b2 op hc
      obtain ⟨h3, h4⟩ := ih b2 h
      exact ⟨h3.trans h1, h4.trans h2⟩

/-- The block returned by `genblock` has the number and the parent hash of the
header it was given. -/
theorem genblock_header {σ : Type} (E : Backend σ) (G : GenEnv σ) (gen : Option (Generator σ))
    (st : GenLoop) (i : Int) (h : Header) (statedb : σ) (block : Block)
    (receipt : List Receipt)
    (hg : genblock E G gen st i h statedb = some (block, receipt)) :
    block.header.Number = h.Number ∧ block.header.ParentHash = h.ParentHash := by
  unfold genblock at hg
  dsimp only at hg
  cases gen with
  | none =>
    dsimp only at hg
    split at hg
    · cases hg
    · simp only [Option.some.injEq, Prod.mk.injEq] at hg
      rw [← hg.1]
      exact ⟨rfl, rfl⟩
  | some g =>
    dsimp only at hg
    cases hc : BlockGen.calls E G (newBlockGen st i h statedb)
        (g i (newBlockGen st i h statedb)) with
    | none => rw [hc] at hg; cases hg
    | some b1 =>
      rw [hc] at hg
      obtain ⟨h1, h2⟩ := BlockGen_calls_frame E G _ _ b1 hc
      dsimp only at hg
      split at hg
      · cases hg
      · simp only [Option.some.injEq, Prod.mk.injEq] at hg
        rw [← hg.1]
        exact ⟨h1, h2⟩

/-- One turn of the loop of `GenerateChain` appends one block and one receipt
list; the block is linked to the variable `parent` of the turn and becomes the
new `parent`. -/
theorem GenerateChainStep_appends {σ : Type} (E : Backend σ) (G : GenEnv σ)
    (gen : Option (Generator σ)) (st st1 : GenLoop) (i : Int)
    (h : GenerateChainStep E G gen st i = some st1) :
    ∃ (block : Block) (receipt : List Receipt),
      st1 = { parent := block, blocks := st.blocks ++ [block],
              receipts := st.receipts ++ [receipt] } ∧
      block.header.ParentHash = G.blockHash st.parent ∧
      block.header.Number = st.parent.header.Number + 1 := by
  unfold GenerateChainStep at h
  split at h
  · cases h
  · rename_i statedb hnew
    dsimp only at h
    cases hg : genblock E G gen st i (makeHeader E G st.parent statedb).1
        (makeHeader E G st.parent statedb).2 with
    | none => rw [hg] at h; cases h
    | some r =>
      obtain ⟨block, receipt⟩ := r
      rw [hg] at h
      simp only [Option.some.injEq] at h
      obtain ⟨h1, h2⟩ := genblock_header E G gen st i _ _ block receipt hg
      exact ⟨block, receipt, h.symm, h2, h1⟩

/-- Without a generator a turn of the loop of `GenerateChain` does not panic
when the database opens the state of the parent and commits. -/
theorem GenerateChainStep_nil_total {σ : Type} (E : Backend σ) (G : GenEnv σ)
    (hnew : ∀ root, ∃ st, G.StateNew root = Except.ok st)
    (hcommit : ∀ st, ∃ r, G.CommitTo st = Except.ok r)
    (st : GenLoop) (i : Int) :
    ∃ st1, GenerateChainStep E G none st i = some st1 := by
  obtain ⟨statedb, hs⟩ := hnew st.parent.header.Root
  unfold GenerateChainStep
  rw [hs]
  dsimp only
  unfold genblock
  dsimp only
  obtain ⟨r, hr⟩ := hcommit (E.AccumulateRewards
    (newBlockGen st i (makeHeader E G st.parent statedb).1
      (makeHeader E G st.parent statedb).2).statedb
    (newBlockGen st i (makeHeader E G st.parent statedb).1
      (makeHeader E G st.parent statedb).2).header
    (newBlockGen st i (makeHeader E G st.parent statedb).1
      (makeHeader E G st.parent statedb).2).uncles)
  rw [hr]
  exact ⟨_, rfl⟩

/-- Appending a block that is linked to the last block keeps a list linked. -/
theorem Linked_append {σ : Type} (G : GenEnv σ) (p : Block) (bs : List Block) (b : Block)
    (hl : Linked G p bs)
    (hb : b.header.ParentHash = G.blockHash (bs.getLast?.getD p) ∧
      b.header.Number = (bs.getLast?.getD p).header.Number + 1) :
    Linked G p (bs ++ [b]) := by
  induction bs generalizing p with
  | nil =>
    simp only [List.getLast?_nil, Option.getD_none] at hb
    exact ⟨hb.1, hb.2, trivial⟩
  | cons x rest ih =>
    obtain ⟨h1, h2, h3⟩ := hl
    refine ⟨h1, h2, ?_⟩
    apply ih x h3
    cases rest with
    | nil => simpa using hb
    | cons y ys =>
      simp only [List.getLast?_cons_cons] at hb ⊢
      cases hlast : (y :: ys).getLast? with
      | none => simp at hlast
      | some z =>
        rw [hlast] at hb
        simpa using hb

/-- The loop of `GenerateChain` keeps the blocks linked to the parent given to
`GenerateChain`, adds one block and one receipt list per turn, and keeps the
variable `parent` equal to the last block. -/
theorem GenerateChainLoop_linked {σ : Type} (E : Backend σ) (G : GenEnv σ)
    (gen : Option (Generator σ)) (p0 : Block) (k : Nat) (i : Int) (st st1 : GenLoop)
    (h : GenerateChainLoop E G gen k i st = some st1)
    (hl : Linked G p0 st.blocks) (hp : st.parent = st.blocks.getLast?.getD p0)
    (hr : st.receipts.length = st.blocks.length) :
    Linked G p0 st1.blocks ∧ st1.parent = st1.blocks.getLast?.getD p0 ∧
    st1.blocks.length = st.blocks.length + k ∧ st1.receipts.length = st1.blocks.length := by
  induction k generalizing i st with
  | zero =>
    simp only [GenerateChainLoop, Option.some.injEq] at h
    rw [← h]
    exact ⟨hl, hp, rfl, hr⟩
  | succ k ih =>
    rw [GenerateChainLoop] at h
    cases hs : GenerateChainStep E G gen st i with
    | none => rw [hs] at h; cases h
    | some st2 =>
      rw [hs] at h
      obtain ⟨block, receipt, hst2, hph, hnum⟩ := GenerateChainStep_appends E G gen st st2 i hs
      have hl2 : Linked G p0 st2.blocks := by
        rw [hst2]
        apply Linked_append G p0 st.blocks block hl
        rw [← hp]
        exact ⟨hph, hnum⟩
      have hp2 : st2.parent = st2.blocks.getLast?.getD p0 := by
        rw [hst2]
        simp
      have hr2 : st2.receipts.length = st2.blocks.length := by
        rw [hst2]
        simp [hr]
      obtain ⟨h1, h2, h3, h4⟩ := ih (i + 1) st2 h hl2 hp2 hr2
      refine ⟨h1, h2, ?_, h4⟩
      rw [h3, hst2]
      simp
      omega

/-- The numbers and parent hashes of a linked list of blocks, by index. -/
theorem Linked_index {σ : Type} (G : GenEnv σ) (p : Block) (bs : List Block)
    (hl : Linked G p bs) :
    (∀ b, bs[0]? = some b → b.header.ParentHash = G.blockHash p) ∧
    (∀ (j : Nat) (b c : Block), bs[j]? = some b → bs[j + 1]? = some c →
      c.header.ParentHash = G.blockHash b) ∧
    (∀ (j : Nat) (b : Block), bs[j]? = some b →
      b.header.Number = p.header.Number + j + 1) := by
  induction bs generalizing p with
  | nil => simp
  | cons x rest ih =>
    obtain ⟨h1, h2, h3⟩ := hl
    obtain ⟨i1, i2, i3⟩ := ih x h3
    refine ⟨?_, ?_, ?_⟩
    · intro b hb
      simp only [List.getElem?_cons_zero, Option.some.injEq] at hb
      rw [← hb]
      exact h1
    · intro j b c hb hc
      cases j with
      | zero =>
        simp only [List.getElem?_cons_zero, Option.some.injEq] at hb
        simp only [List.getElem?_cons_succ] at hc
        rw [← hb]
        exact i1 c hc
      | succ j =>
        simp only [List.getElem?_cons_succ] at hb hc
        exact i2 j b c hb hc
    · intro j b hb
      cases j with
      | zero =>
        simp only [List.getElem?_cons_zero, Option.some.injEq] at hb
        rw [← hb, h2]
        simp
      | succ j =>
        simp only [List.getElem?_cons_succ] at hb
        rw [i3 j b hb, h2]
        push_cast
        ring

/-- Without a generator the loop of `GenerateChain` does not panic when the
database opens every state asked for and commits. -/
theorem GenerateChainLoop_nil_total {σ : Type} (E : Backend σ) (G : GenEnv σ)
    (hnew : ∀ root, ∃ st, G.StateNew root = Except.ok st)
    (hcommit : ∀ st, ∃ r, G.CommitTo st = Except.ok r)
    (k : Nat) (i : Int) (st : GenLoop) :
    ∃ st1, GenerateChainLoop E G none k i st = some st1 := by
  induction k generalizing i st with
  | zero => exact ⟨st, rfl⟩
  | succ k ih =>
    obtain ⟨st2, hs⟩ := GenerateChainStep_nil_total E G hnew hcommit st i
    obtain ⟨st1, h1⟩ := ih (i + 1) st2
    refine ⟨st1, ?_⟩
    rw [GenerateChainLoop, hs]
    exact h1

/-- The counterexample to C14 as stated: a generator that only uses the methods
of `BlockGen`, here one call of `AddTx` with a transaction that cannot be
executed, makes `AddTx` panic, and `GenerateChain` returns no blocks at all; so
does `GenerateChain` with a nil generator on a database that does not hold the
state of the parent. -/
theorem GenerateChain_counterexample :
    GenerateChain exBackend exGenEnv exGenesis 1
      (some (fun _ _ =>
        [GenOp.AddTx { hash := 2, sender := 7, gasPrice := 200, isProtected := false }])) =
      none ∧
    GenerateChain exBackend exEmptyGenEnv exGenesis 1 none = none := by
  refine ⟨by decide, by decide⟩

/-- C14 (amended): for every parent block and every `n ≥ 0`, on a database that
opens the states asked for and commits: with a nil generator `GenerateChain`
returns (it does not panic); and whenever it returns, with a nil generator or
with any generator that only uses the `BlockGen` methods and makes none of
them panic, it returns exactly `n` blocks and `n` receipt lists with
`blocks[0].ParentHash = parent.Hash()`,
`blocks[j+1].ParentHash = blocks[j].Hash()` and
`blocks[j].Number = parent.Number + j + 1`. -/
theorem GenerateChain_linked {σ : Type} (E : Backend σ) (G : GenEnv σ) (parent : Block)
    (n : Int) (hn : 0 ≤ n)
    (hnew : ∀ root, ∃ st, G.StateNew root = Except.ok st)
    (hcommit : ∀ st, ∃ r, G.CommitTo st = Except.ok r) :
    (∃ r, GenerateChain E G parent n none = some r) ∧
    (∀ (gen : Option (Generator σ)) (blocks : List Block) (receipts : List (List Receipt)),
      GenerateChain E G parent n gen = some (blocks, receipts) →
      (blocks.length : Int) = n ∧ (receipts.length : Int) = n ∧
      (∀ b, blocks[0]? = some b → b.header.ParentHash = G.blockHash parent) ∧
      (∀ (j : Nat) (b c : Block), blocks[j]? = some b → blocks[j + 1]? = some c →
        c.header.ParentHash = G.blockHash b) ∧
      (∀ (j : Nat) (b : Block), blocks[j]? = some b →
        b.header.Number = parent.header.Number + j + 1)) := by
  have hneg : ¬ (n < 0) := by omega
  refine ⟨?_, ?_⟩
  · obtain ⟨st1, h1⟩ := GenerateChainLoop_nil_total E G hnew hcommit n.toNat 0
      { parent := parent, blocks := [], receipts := [] }
    refine ⟨(st1.blocks, st1.receipts), ?_⟩
    unfold GenerateChain
    rw [if_neg hneg, h1]
  · intro gen blocks receipts h
    unfold GenerateChain at h
    rw [if_neg hneg] at h
    cases hl : GenerateChainLoop E G gen n.toNat 0
        { parent := parent, blocks := [], receipts := [] } with
    | none => rw [hl] at h; cases h
    | some st1 =>
      rw [hl] at h
      simp only [Option.some.injEq, Prod.mk.injEq] at h
      obtain ⟨h1, h2, h3, h4⟩ := GenerateChainLoop_linked E G gen parent n.toNat 0 _ st1 hl
        trivial rfl rfl
      obtain ⟨i1, i2, i3⟩ := Linked_index G parent st1.blocks h1
      rw [← h.1, ← h.2]
      refine ⟨?_, ?_, i1, i2, i3⟩
      · rw [h3]
        simp only [List.length_nil, Nat.zero_add]
        omega
      · rw [h4, h3]
        simp only [List.length_nil, Nat.zero_add]
        omega

/-- The witness of `GenerateChain_linked`: three empty blocks on the genesis
block of the examples have the numbers 1, 2, 3 and the parent hashes 0, 2, 6
(the hashes of the genesis block and of the first two blocks). -/
theorem GenerateChain_linked_witness :
    (GenerateChain exBackend exGenEnv exGenesis 3 none).map
      (fun r => (r.1.map (fun b => (b.header.Number, b.header.ParentHash)), r.2.length)) =
      some ([(1, 0), (2, 2), (3, 6)], 3) ∧
    ∃ r, GenerateChain exBackend exGenEnv exGenesis 3 none = some r :=
  ⟨by decide,
   (GenerateChain_linked exBackend exGenEnv exGenesis 3 (by decide)
      (fun _ => ⟨(), rfl⟩) (fun st => ⟨(0, st), rfl⟩)).1⟩

/-- C19 (the code at the failing input): the `BlockGen` that `GenerateChain`
creates for an index `i ≥ 0` answers `PrevBlock(-1)` with the variable `parent`
of the loop as it stands in that turn; for the block at index 1 of a chain
generated on the genesis block this is the block generated at index 0, not the
genesis block given to `GenerateChain`. -/
theorem PrevBlock_parent_not_given :
    (∀ (st : GenLoop) (i : Int) (h : Header), 0 ≤ i →
      (newBlockGen st i h ()).PrevBlock (-1) = some st.parent) ∧
    (GenerateChainLoop exBackend exGenEnv none 1 0
        { parent := exGenesis, blocks := [], receipts := [] }).map
      (fun st => (newBlockGen st 1 (makeHeader exBackend exGenEnv st.parent ()).1 ()).PrevBlock
        (-1)) = some (some exFirstBlock) ∧
    exFirstBlock ≠ exGenesis := by
  refine ⟨?_, by decide, by decide⟩
  intro st i h hi
  unfold BlockGen.PrevBlock newBlockGen
  dsimp only
  rw [if_neg (by omega), if_pos rfl]

/-! ### The shape of the ring buffer -/

/-- C21: `newLocalMinedBlock(n, nil)` returns a buffer of exactly 6 slots
(`miningLogAtDepth + 1`) with `n` in slot 0 and `next = 1`; and for a buffer
`b` with `0 ≤ b.next < len(b.ints)` (so `len(b.ints) > 0`),
`newLocalMinedBlock(n, b)` does not index out of range and returns the buffer
with its length unchanged, slot `b.next` set to `n`, every other slot
unchanged and `next = (b.next + 1) mod len(b.ints)`, so that
`0 ≤ next < len(ints)` holds again. -/
theorem newLocalMinedBlock_shape (n : Nat) (b : uint64RingBuffer)
    (hlo : 0 ≤ b.next) (hhi : b.next < b.ints.length) :
    newLocalMinedBlock n none = some { ints := [n, 0, 0, 0, 0, 0], next := 1 } ∧
    ([n, 0, 0, 0, 0, 0] : List Nat).length = miningLogAtDepth + 1 ∧
    newLocalMinedBlock n (some b) =
      some { ints := b.ints.set b.next.toNat n, next := (b.next + 1) % b.ints.length } ∧
    (b.ints.set b.next.toNat n).length = b.ints.length ∧
    (b.ints.set b.next.toNat n)[b.next.toNat]? = some n ∧
    (∀ j : Nat, j ≠ b.next.toNat → (b.ints.set b.next.toNat n)[j]? = b.ints[j]?) ∧
    0 ≤ (b.next + 1) % b.ints.length ∧
    (b.next + 1) % b.ints.length < (b.ints.set b.next.toNat n).length ∧
    0 < b.ints.length := by
  have hidx : b.next.toNat < b.ints.length := by omega
  refine ⟨rfl, rfl, ?_, List.length_set _ _ _, List.getElem?_set_self hidx, ?_, ?_, ?_, ?_⟩
  · unfold newLocalMinedBlock
    dsimp only
    rw [if_pos ⟨hlo, hhi⟩]
  · intro j hj
    exact List.getElem?_set_ne (Ne.symm hj)
  · apply Int.emod_nonneg
    omega
  · rw [List.length_set]
    apply Int.emod_lt_of_pos
    omega
  · omega

/-- The witness of `newLocalMinedBlock_shape`: a buffer of three slots whose
insertion index is the last slot; the index wraps around to 0. -/
theorem newLocalMinedBlock_shape_witness :
    newLocalMinedBlock 8 (some { ints := [5, 6, 7], next := 2 }) =
      some { ints := [5, 6, 8], next := 0 } ∧
    newLocalMinedBlock 8 none = some { ints := [8, 0, 0, 0, 0, 0], next := 1 } :=
  ⟨(newLocalMinedBlock_shape 8 { ints := [5, 6, 7], next := 2 } (by decide) (by decide)).2.2.1,
   by decide⟩

/-! ### A cycle whose state cannot be opened -/

/-- C23: if opening the state at the parent's root fails, `makeCurrent` returns
the error and leaves the worker, so its current work, as it was; and
`commitNewWork` then returns with the worker unchanged (current work,
pending-uncle pool, in-flight counter and all), without a call of the pool's
`RemoveTransactions` and without a work sent to any agent. -/
theorem commitNewWork_state_failure {σ : Type} (E : Backend σ) (chain : ChainReader σ)
    (self : worker σ) (now : Int) (transactions : List Transaction) (err : ExecError)
    (h : chain.StateAt chain.CurrentBlock.header.Root = Except.error err) :
    makeCurrent E chain self chain.CurrentBlock (commitNewWorkHeader E chain self now) =
      (self, some err) ∧
    (commitNewWork E chain self now transactions).self = self ∧
    (commitNewWork E chain self now transactions).self.current = self.current ∧
    (commitNewWork E chain self now transactions).self.possibleUncles =
      self.possibleUncles ∧
    (commitNewWork E chain self now transactions).self.atWork = self.atWork ∧
    (commitNewWork E chain self now transactions).removed = [] ∧
    (commitNewWork E chain self now transactions).delivered = [] := by
  have hmk : makeCurrent E chain self chain.CurrentBlock
      (commitNewWorkHeader E chain self now) = (self, some err) := by
    unfold makeCurrent
    rw [h]
  have hc : commitNewWork E chain self now transactions =
      { self := self, removed := [], uncles := [], delivered := [], confirmed := [] } := by
    unfold commitNewWork
    simp only [hmk]
  rw [hc]
  exact ⟨hmk, rfl, rfl, rfl, rfl, rfl, rfl⟩

/-- The witness of `commitNewWork_state_failure`: a busy worker on a chain store
that cannot open any state. -/
theorem commitNewWork_state_failure_witness :
    exBrokenChain.StateAt exBrokenChain.CurrentBlock.header.Root = Except.error 4 ∧
    (commitNewWork exBackend exBrokenChain exBusyWorker 5
      [{ hash := 1, sender := 7, gasPrice := 50, isProtected := false }]).self =
      exBusyWorker ∧
    (commitNewWork exBackend exBrokenChain exBusyWorker 5
      [{ hash := 1, sender := 7, gasPrice := 50, isProtected := false }]).delivered = [] :=
  ⟨rfl,
   (commitNewWork_state_failure exBackend exBrokenChain exBusyWorker 5
      [{ hash := 1, sender := 7, gasPrice := 50, isProtected := false }] 4 rfl).2.1,
   by decide⟩

/-! ### The inclusion counter -/

/-- The lists after `commitTransaction`: both unchanged when it returns an
error; the transaction and one receipt appended when it returns none. -/
theorem commitTransaction_lists {σ : Type} (E : Backend σ) (env : Work σ)
    (tx : Transaction) (gp : GasPool) :
    ((commitTransaction E env tx gp).err ≠ none ∧
        (commitTransaction E env tx gp).env.txs = env.txs ∧
        (commitTransaction E env tx gp).env.receipts = env.receipts) ∨
    ((commitTransaction E env tx gp).err = none ∧
        (commitTransaction E env tx gp).env.txs = env.txs ++ [tx] ∧
        (commitTransaction E env tx gp).env.receipts.length = env.receipts.length + 1) := by
  rcases hres : (E.ApplyTransaction (E.Snapshot env.state).2 gp env.header tx).result with
    err | ⟨receipt, logs⟩
  · rw [commitTransaction_error E env tx gp err hres]
    simp
  · rw [commitTransaction_ok E env tx gp receipt logs hres]
    simp

/-- One turn of the pass either leaves the transaction list, the receipt list
and the counter as they were, or appends the transaction, appends one receipt
and adds one to the counter. -/
theorem commitTransactionsBody_counts {σ : Type} (E : Backend σ) (gasPrice : Int)
    (s : PassState σ) (tx : Transaction) :
    ((commitTransactionsBody E gasPrice s tx).env.txs = s.env.txs ∧
      (commitTransactionsBody E gasPrice s tx).env.receipts = s.env.receipts ∧
      (commitTransactionsBody E gasPrice s tx).env.tcount = s.env.tcount) ∨
    ((commitTransactionsBody E gasPrice s tx).env.txs = s.env.txs ++ [tx] ∧
      (commitTransactionsBody E gasPrice s tx).env.receipts.length =
        s.env.receipts.length + 1 ∧
      (commitTransactionsBody E gasPrice s tx).env.tcount = s.env.tcount + 1) := by
  by_cases hg : tx.isProtected = true ∧ s.env.config.IsDiehard s.env.header.Number = false
  · rw [commitTransactionsBody_gated E gasPrice s tx hg]
    exact Or.inl ⟨rfl, rfl, rfl⟩
  by_cases hl : tx.gasPrice < gasPrice ∧ tx.sender ∉ s.env.ownedAccounts
  · rw [commitTransactionsBody_lowPrice E gasPrice s tx hg hl]
    exact Or.inl ⟨rfl, rfl, rfl⟩
  by_cases hm : tx.sender ∈ s.env.lowGasTransactors
  · rw [commitTransactionsBody_marked E gasPrice s tx hg hl hm]
    by_cases ho : tx.sender ∉ s.env.ownedAccounts
    · rw [if_pos ho]
      exact Or.inl ⟨rfl, rfl, rfl⟩
    · rw [if_neg ho]
      exact Or.inl ⟨rfl, rfl, rfl⟩
  by_cases hi : tx.sender ∈ s.env.ignoredTransactors
  · rw [commitTransactionsBody_ignored E gasPrice s tx hg hl hm hi]
    exact Or.inl ⟨rfl, rfl, rfl⟩
  rw [commitTransactionsBody_exec E gasPrice s tx hg hl hm hi]
  have hf := (commitTransaction_frame E
    { s.env with state := E.StartRecord s.env.state tx.hash } tx s.gp).2.2.2.2.2.2.2.2.2.2
  have ht := commitTransaction_lists E
    { s.env with state := E.StartRecord s.env.state tx.hash } tx s.gp
  split
  · rename_i err heq
    rcases ht with ⟨_, h2, h3⟩ | ⟨h1, _⟩
    · left
      split_ifs
      · exact ⟨h2, h3, hf⟩
      · exact ⟨h2, h3, hf⟩
    · rw [heq] at h1
      cases h1
  · rename_i heq
    rcases ht with ⟨h1, _⟩ | ⟨_, h2, h3⟩
    · exact absurd heq h1
    · right
      refine ⟨h2, h3, ?_⟩
      dsimp only
      rw [hf]

/-- A run of turns of the pass appends to the transaction list a sublist of its
input, in input order, and adds the number of appended transactions to the
length of the receipt list and to the counter. -/
theorem commitTransactions_foldl_counts {σ : Type} (E : Backend σ) (gasPrice : Int)
    (l : List Transaction) (s : PassState σ) :
    ∃ inc : List Transaction,
      (l.foldl (commitTransactionsBody E gasPrice) s).env.txs = s.env.txs ++ inc ∧
      inc.Sublist l ∧
      (l.foldl (commitTransactionsBody E gasPrice) s).env.receipts.length =
        s.env.receipts.length + inc.length ∧
      (l.foldl (commitTransactionsBody E gasPrice) s).env.tcount =
        s.env.tcount + inc.length := by
  induction l generalizing s with
  | nil => exact ⟨[], by simp, List.Sublist.refl _, by simp, by simp⟩
  | cons a t ih =>
    rw [List.foldl_cons]
    obtain ⟨inc, h1, h2, h3, h4⟩ := ih (commitTransactionsBody E gasPrice s a)
    rcases commitTransactionsBody_counts E gasPrice s a with ⟨b1, b2, b3⟩ | ⟨b1, b2, b3⟩
    · refine ⟨inc, ?_, List.Sublist.cons a h2, ?_, ?_⟩
      · rw [h1, b1]
      · rw [h3, b2]
      · rw [h4, b3]
    · refine ⟨a :: inc, ?_, List.Sublist.cons₂ a h2, ?_, ?_⟩
      · rw [h1, b1]
        simp
      · rw [h3, b2]
        simp only [List.length_cons]
        omega
      · rw [h4, b3]
        simp only [List.length_cons]
        push_cast
        ring

/-- A pass keeps the counter equal to the number of included transactions and
of receipts, and includes a sublist of its input, in input order. -/
theorem commitTransactions_counts {σ : Type} (E : Backend σ) (gasPrice : Int)
    (l : List Transaction) (w : Work σ)
    (h1 : w.tcount = w.txs.length) (h2 : w.txs.length = w.receipts.length) :
    (commitTransactions E w l gasPrice).env.tcount =
      (commitTransactions E w l gasPrice).env.txs.length ∧
    (commitTransactions E w l gasPrice).env.txs.length =
      (commitTransactions E w l gasPrice).env.receipts.length ∧
    ∃ inc : List Transaction,
      (commitTransactions E w l gasPrice).env.txs = w.txs ++ inc ∧ inc.Sublist l := by
  obtain ⟨inc, a1, a2, a3, a4⟩ := commitTransactions_foldl_counts E gasPrice l
    { env := w, gp := GasPool.AddGas 0 w.header.GasLimit, coalescedLogs := [], executed := [] }
  unfold commitTransactions
  dsimp only at a1 a3 a4 ⊢
  refine ⟨?_, ?_, inc, a1, a2⟩
  · rw [a4, a1, h1]
    simp
  · rw [a3, a1, ← h2]
    simp

/-- C24: in every work reached from the work installed by `makeCurrent` by any
number of `commitTransactions` passes (over any input lists, at any floor
prices), the inclusion counter equals the number of included transactions and
the number of receipts, `tcount = len(txs) = len(receipts)`; and the
transactions that one more pass includes are appended to the transaction list
and form a subsequence of the input list of that pass, in input order. -/
theorem commitTransactions_counter {σ : Type} (E : Backend σ) (chain : ChainReader σ)
    (self self1 : worker σ) (parent : Block) (header : Header) (work0 : Work σ)
    (earlier : List (List Transaction × Int)) (l : List Transaction) (F : Int)
    (hmk : makeCurrent E chain self parent header = (self1, none))
    (hcur : self1.current = some work0) :
    (earlier.foldl (fun v p => (commitTransactions E v p.1 p.2).env) work0).tcount =
      (earlier.foldl (fun v p => (commitTransactions E v p.1 p.2).env) work0).txs.length ∧
    (earlier.foldl (fun v p => (commitTransactions E v p.1 p.2).env) work0).txs.length =
      (earlier.foldl (fun v p => (commitTransactions E v p.1 p.2).env)
        work0).receipts.length ∧
    (commitTransactions E
      (earlier.foldl (fun v p => (commitTransactions E v p.1 p.2).env) work0) l F).env.tcount =
      (commitTransactions E
        (earlier.foldl (fun v p => (commitTransactions E v p.1 p.2).env) work0)
        l F).env.txs.length ∧
    (commitTransactions E
      (earlier.foldl (fun v p => (commitTransactions E v p.1 p.2).env) work0)
      l F).env.txs.length =
      (commitTransactions E
        (earlier.foldl (fun v p => (commitTransactions E v p.1 p.2).env) work0)
        l F).env.receipts.length ∧
    ∃ inc : List Transaction,
      (commitTransactions E
        (earlier.foldl (fun v p => (commitTransactions E v p.1 p.2).env) work0)
        l F).env.txs =
        (earlier.foldl (fun v p => (commitTransactions E v p.1 p.2).env) work0).txs ++ inc ∧
      inc.Sublist l := by
  obtain ⟨w, hw, _, htxs, hrec, _, htc, _⟩ :=
    makeCurrent_fresh E chain self self1 parent header hmk
  rw [hcur] at hw
  cases hw
  have hinv := foldl_keeps
    (fun (v : Work σ) => v.tcount = v.txs.length ∧ v.txs.length = v.receipts.length)
    (fun v (p : List Transaction × Int) => (commitTransactions E v p.1 p.2).env)
    (fun v p hv =>
      ⟨(commitTransactions_counts E p.2 p.1 v hv.1 hv.2).1,
       (commitTransactions_counts E p.2 p.1 v hv.1 hv.2).2.1⟩)
    earlier work0 (by show work0.tcount = ↑work0.txs.length ∧ _; rw [htc, htxs, hrec]; simp)
  obtain ⟨c1, c2, c3⟩ := commitTransactions_counts E F l _ hinv.1 hinv.2
  exact ⟨hinv.1, hinv.2, c1, c2, c3⟩

/-- The witness of `commitTransactions_counter`: the example work after a pass
that includes one transaction, then a pass over three transactions of which the
second fails and the other two are included. -/
theorem commitTransactions_counter_witness :
    (commitTransactions exBackend
      ([([{ hash := 1, sender := 7, gasPrice := 200, isProtected := false }], (100 : Int))].foldl
        (fun v p => (commitTransactions exBackend v p.1 p.2).env) exWork)
      [{ hash := 3, sender := 8, gasPrice := 200, isProtected := false },
       { hash := 2, sender := 6, gasPrice := 200, isProtected := false },
       { hash := 5, sender := 4, gasPrice := 200, isProtected := false }] 100).env.tcount = 3 ∧
    (commitTransactions exBackend
      ([([{ hash := 1, sender := 7, gasPrice := 200, isProtected := false }], (100 : Int))].foldl
        (fun v p => (commitTransactions exBackend v p.1 p.2).env) exWork)
      [{ hash := 3, sender := 8, gasPrice := 200, isProtected := false },
       { hash := 2, sender := 6, gasPrice := 200, isProtected := false },
       { hash := 5, sender := 4, gasPrice := 200, isProtected := false }] 100).env.tcount =
    (commitTransactions exBackend
      ([([{ hash := 1, sender := 7, gasPrice := 200, isProtected := false }], (100 : Int))].foldl
        (fun v p => (commitTransactions exBackend v p.1 p.2).env) exWork)
      [{ hash := 3, sender := 8, gasPrice := 200, isProtected := false },
       { hash := 2, sender := 6, gasPrice := 200, isProtected := false },
       { hash := 5, sender := 4, gasPrice := 200, isProtected := false }] 100).env.txs.length :=
  ⟨by decide,
   (commitTransactions_counter exBackend exChain (newWorker exConfig 9) _
      exChain.CurrentBlock (exHeader 0 1) exWork
      [([{ hash := 1, sender := 7, gasPrice := 200, isProtected := false }], 100)]
      [{ hash := 3, sender := 8, gasPrice := 200, isProtected := false },
       { hash := 2, sender := 6, gasPrice := 200, isProtected := false },
       { hash := 5, sender := 4, gasPrice := 200, isProtected := false }] 100
      rfl rfl).2.2.1⟩

/-! ### Confirmations and the zero slots of the ring buffer -/

/-- The search of `isBlockLocallyMined` leaves entries that were there before,
or zero. -/
theorem zeroFirst_mem (n x : Nat) (l : List Nat) (h : x ∈ (zeroFirst n l).1) :
    x = 0 ∨ x ∈ l := by
  induction l with
  | nil => simp [zeroFirst] at h
  | cons y ys ih =>
    rw [zeroFirst] at h
    by_cases hn : n = y
    · rw [if_pos hn] at h
      rcases List.mem_cons.mp h with h | h
      · exact Or.inl h
      · exact Or.inr (List.mem_cons_of_mem _ h)
    · rw [if_neg hn] at h
      rcases List.mem_cons.mp h with h | h
      · exact Or.inr (h ▸ List.mem_cons_self _ _)
      · rcases ih h with h | h
        · exact Or.inl h
        · exact Or.inr (List.mem_cons_of_mem _ h)

/-- The entries of the buffer returned by `newLocalMinedBlock` are the recorded
number, entries of the previous buffer, or zero. -/
theorem newLocalMinedBlock_mem (n x : Nat) (prev : Option uint64RingBuffer)
    (rb1 : uint64RingBuffer) (h : newLocalMinedBlock n prev = some rb1) (hx : x ∈ rb1.ints) :
    x = 0 ∨ x = n ∨ ∃ rb, prev = some rb ∧ x ∈ rb.ints := by
  unfold newLocalMinedBlock at h
  dsimp only at h
  split_ifs at h with hr
  simp only [Option.some.injEq] at h
  rw [← h] at hx
  dsimp only at hx
  rcases List.mem_or_eq_of_mem_set hx with hx | hx
  · cases prev with
    | none =>
      dsimp only at hx
      exact Or.inl (List.eq_of_mem_replicate hx)
    | some rb => exact Or.inr (Or.inr ⟨rb, rfl, hx⟩)
  · exact Or.inr (Or.inl hx)

/-- Along a history of the ring buffer every entry is zero, an entry it had at
the start, or a number recorded on the way. -/
theorem ringRun_entries {σ : Type} (chain : ChainReader σ) (self : worker σ)
    (R : Nat → Prop) (ops : List RingOp) (w w1 : Work σ)
    (hrun : ringRun chain self w ops = some w1)
    (hops : ∀ n, RingOp.record n ∈ ops → R n)
    (hw : ∀ rb, w.localMinedBlocks = some rb → ∀ x ∈ rb.ints, x = 0 ∨ R x) :
    ∀ rb, w1.localMinedBlocks = some rb → ∀ x ∈ rb.ints, x = 0 ∨ R x := by
  induction ops generalizing w with
  | nil =>
    simp only [ringRun, Option.some.injEq] at hrun
    rw [← hrun]
    exact hw
  | cons op rest ih =>
    have hrest : ∀ n, RingOp.record n ∈ rest → R n :=
      fun n hn => hops n (List.mem_cons_of_mem _ hn)
    cases op with
    | record n =>
      rw [ringRun] at hrun
      cases hnew : newLocalMinedBlock n w.localMinedBlocks with
      | none => rw [hnew] at hrun; cases hrun
      | some rb1 =>
        rw [hnew] at hrun
        apply ih _ hrun hrest
        intro rb hrb x hx
        simp only [Option.some.injEq] at hrb
        rw [← hrb] at hx
        rcases newLocalMinedBlock_mem n x _ rb1 hnew hx with h | h | ⟨rb0, h0, hx0⟩
        · exact Or.inl h
        · right
          rw [h]
          exact hops n (List.mem_cons_self _ _)
        · exact hw rb0 h0 x hx0
    | check n =>
      rw [ringRun] at hrun
      cases hl : w.localMinedBlocks with
      | none =>
        simp only [hl] at hrun
        exact ih _ hrun hrest hw
      | some rb0 =>
        simp only [hl] at hrun
        cases hc : isBlockLocallyMined chain self w n with
        | none => rw [hc] at hrun; cases hrun
        | some r =>
          obtain ⟨w2, b⟩ := r
          rw [hc] at hrun
          apply ih _ hrun hrest
          have hw2 : w2.localMinedBlocks =
              some { rb0 with ints := (zeroFirst n rb0.ints).1 } := by
            unfold isBlockLocallyMined at hc
            rw [hl] at hc
            dsimp only at hc
            split_ifs at hc
            · simp only [Option.some.injEq, Prod.mk.injEq] at hc
              rw [← hc.1]
            · split at hc
              · simp only [Option.some.injEq, Prod.mk.injEq] at hc
                rw [← hc.1]
              · simp only [Option.some.injEq, Prod.mk.injEq] at hc
                rw [← hc.1]
          intro rb hrb x hx
          rw [hw2] at hrb
          simp only [Option.some.injEq] at hrb
          rw [← hrb] at hx
          rcases zeroFirst_mem n x rb0.ints hx with h | h
          · exact Or.inl h
          · exact hw rb0 hl x h

/-- C22 (the code at the failing input): for a ring buffer built from nil by
calls of `newLocalMinedBlock` with calls of `isBlockLocallyMined` in between,
`isBlockLocallyMined(work, n)` returns false for every height `n ≠ 0` that was
never recorded; but a fresh buffer is filled with zeros, so after block 1 alone
has been recorded, `isBlockLocallyMined(work, 0)` finds a slot and returns true
when the canonical block at height 0 has the coordinator's coinbase. -/
theorem isBlockLocallyMined_zero_slot :
    (∀ (σ : Type) (chain : ChainReader σ) (self : worker σ) (ops : List RingOp)
        (w0 w : Work σ) (rb : uint64RingBuffer) (n : Nat),
      w0.localMinedBlocks = none → ringRun chain self w0 ops = some w →
      RingOp.record n ∉ ops → n ≠ 0 → w.localMinedBlocks = some rb →
      (isBlockLocallyMined chain self w n).map Prod.snd = some false) ∧
    exWork.localMinedBlocks = none ∧
    ringRun exGenesisChain (newWorker exConfig 9) exWork [RingOp.record 1] =
      some exMinedWork ∧
    RingOp.record 0 ∉ [RingOp.record 1] ∧
    (isBlockLocallyMined exGenesisChain (newWorker exConfig 9) exMinedWork 0).map Prod.snd =
      some true := by
  refine ⟨?_, rfl, rfl, by decide, by decide⟩
  intro σ chain self ops w0 w rb n h0 hrun hrec hn hrb
  have hent := ringRun_entries chain self (fun x => RingOp.record x ∈ ops) ops w0 w hrun
    (fun _ h => h) (by intro rb0 hrb0; rw [h0] at hrb0; cases hrb0) rb hrb
  have hnot : n ∉ rb.ints := by
    intro hmem
    rcases hent n hmem with h | h
    · exact hn h
    · exact hrec h
  have hflag : (zeroFirst n rb.ints).2 = false := by
    cases hb : (zeroFirst n rb.ints).2 with
    | false => rfl
    | true => exact absurd ((zeroFirst_found n rb.ints).1.mp hb) hnot
  unfold isBlockLocallyMined
  rw [hrb]
  dsimp only
  rw [if_pos hflag]
  rfl

end Miner
